import Mathlib

/-!
Verification of the geometric multigrid pressure solver (`source/multigrid.cpp`,
class `GridMg` and helper `NKMinHeap`), a Lean shallow embedding.

Modelling conventions:
* `Real` (a floating point type in the build) is modelled as `ℚ` (exact arithmetic).
* `Vec3i` is modelled as `V3` (triples of `ℤ`); C++ `int` arithmetic is `ℤ`
  arithmetic, with C++ `/` and `%` (truncated) rendered as `Int.tdiv` / `Int.tmod`.
* flat per-vertex arrays (`std::vector<Real>`) are Lean `List`s with
  out-of-range reads returning a default and out-of-range writes ignored;
  all in-spec accesses are in range.
* `#pragma omp` parallel loops are data-parallel over disjoint entries; their
  denotation is the sequential left-to-right loop, which is how they are embedded.
-/

namespace Mg

/-- Integer 3-vector, mirroring Manta's `Vec3i`. -/
structure V3 where
  x : ℤ
  y : ℤ
  z : ℤ
deriving DecidableEq

instance : Inhabited V3 := ⟨⟨0, 0, 0⟩⟩

instance : Add V3 := ⟨fun a b => ⟨a.x + b.x, a.y + b.y, a.z + b.z⟩⟩

instance : Sub V3 := ⟨fun a b => ⟨a.x - b.x, a.y - b.y, a.z - b.z⟩⟩

/-- Componentwise scalar multiplication (`V * k` on `Vec3i`). -/
def V3.sc (a : V3) (k : ℤ) : V3 := ⟨a.x * k, a.y * k, a.z * k⟩

/-- Componentwise scalar addition (`V + k` on `Vec3i`). -/
def V3.pl (a : V3) (k : ℤ) : V3 := ⟨a.x + k, a.y + k, a.z + k⟩

/-- Componentwise truncated division by 2 (C++ `V / 2` on `Vec3i`). -/
def V3.half (a : V3) : V3 := ⟨a.x.tdiv 2, a.y.tdiv 2, a.z.tdiv 2⟩

/-- Componentwise maximum (`vmax`). -/
def V3.vmax (a b : V3) : V3 := ⟨max a.x b.x, max a.y b.y, max a.z b.z⟩

/-- Componentwise minimum (`vmin`). -/
def V3.vmin (a b : V3) : V3 := ⟨min a.x b.x, min a.y b.y, min a.z b.z⟩

/-- Dot product of integer vectors (`dot`). -/
def V3.dot (a b : V3) : ℤ := a.x * b.x + a.y * b.y + a.z * b.z

/-- Number of grid vertices of a level with extent `s`. -/
def vcount (s : V3) : ℤ := s.x * s.y * s.z

/-- Inclusive integer range `[lo, hi]` as a list (empty if `hi < lo`). -/
def intRange (lo hi : ℤ) : List ℤ :=
  (List.range (hi + 1 - lo).toNat).map (fun i : ℕ => lo + (i : ℤ))

/-- All coordinates of the inclusive box `[lo, hi]`, in the scan order of the
`FOR_VEC_MINMAX` macro: `z` outermost, then `y`, then `x`. -/
def boxList (lo hi : V3) : List V3 :=
  (intRange lo.z hi.z).flatMap (fun z =>
    (intRange lo.y hi.y).flatMap (fun y =>
      (intRange lo.x hi.x).map (fun x => (⟨x, y, z⟩ : V3))))

/-- Modelled from the spec: the pure coordinate-to-offset index function of the
flat per-vertex arrays; its form is fixed by `mPitch = (1, sx, sx*sy)` in the
constructor and the neighbour arithmetic `v ± mPitch[d]` in `multigrid.cpp`. -/
def linIdx (sz : V3) (p : V3) : ℤ := p.x + p.y * sz.x + p.z * sz.x * sz.y

/-- Modelled from the spec: the inverse offset-to-coordinate function `vecIdx`
(declared in the header), the inverse of `linIdx` on in-grid vertices. -/
def vecIdx (sz : V3) (v : ℤ) : V3 :=
  ⟨v.tmod sz.x, (v.tdiv sz.x).tmod sz.y, v.tdiv (sz.x * sz.y)⟩

/-- Modelled from the spec: the in-grid bounds check `inGrid` (declared in the
header): all three coordinates lie in `[0, size)`. -/
def inGrid (sz : V3) (p : V3) : Prop :=
  0 ≤ p.x ∧ p.x < sz.x ∧ 0 ≤ p.y ∧ p.y < sz.y ∧ 0 ≤ p.z ∧ p.z < sz.z

instance (sz p : V3) : Decidable (inGrid sz p) := by unfold inGrid; infer_instance

/-- Vertex classification (the `VertexType` enum of the header; the closed
six-state set is given in the spec's data model). -/
inductive VertexType where
  | vtInactive
  | vtActive
  | vtActiveTrivial
  | vtFree
  | vtZero
  | vtRemoved
deriving DecidableEq

export VertexType (vtInactive vtActive vtActiveTrivial vtFree vtZero vtRemoved)

instance : Inhabited VertexType := ⟨vtInactive⟩

/-- Read a rational array at a (possibly signed) index; 0 out of range. -/
def getQ (l : List ℚ) (i : ℤ) : ℚ := if 0 ≤ i then l.getD i.toNat 0 else 0

/-- Write a rational array at a (possibly signed) index; no-op out of range. -/
def setQ (l : List ℚ) (i : ℤ) (q : ℚ) : List ℚ := if 0 ≤ i then l.set i.toNat q else l

/-- Read a classification array at a (possibly signed) index. -/
def getT (l : List VertexType) (i : ℤ) : VertexType :=
  if 0 ≤ i then l.getD i.toNat vtInactive else vtInactive

/-- Write a classification array at a (possibly signed) index. -/
def setT (l : List VertexType) (i : ℤ) (t : VertexType) : List VertexType :=
  if 0 ≤ i then l.set i.toNat t else l

/-! ## Level hierarchy (`GridMg::GridMg`, coarse-level size schedule) -/

/-- Extent of the next coarser level: `mSize.push_back((mSize[l-1] + 2) / 2)`. -/
def nextSize (s : V3) : V3 := (s.pl 2).half

/-- Stopping test of the level-generation loop, evaluated on the most recently
created level: all dimensions at most 5, or at most 1000 vertices. -/
def stopLevelGen (s : V3) : Prop := (s.x ≤ 5 ∧ s.y ≤ 5 ∧ s.z ≤ 5) ∨ vcount s ≤ 1000

instance (s : V3) : Decidable (stopLevelGen s) := by unfold stopLevelGen vcount; infer_instance

/-- Coarse levels generated by the constructor loop `for (int l=1; l<=100; l++)`
from the most recently created extent: stop when that extent satisfies the
two break conditions, else push `(s+2)/2` and continue. -/
def buildSizesAux : ℕ → V3 → List V3
  | 0, _ => []
  | fuel + 1, prev =>
    if prev.x ≤ 5 ∧ prev.y ≤ 5 ∧ prev.z ≤ 5 then []
    else if vcount prev ≤ 1000 then []
    else nextSize prev :: buildSizesAux fuel (nextSize prev)

/-- The full extent schedule `mSize` for a finest-grid extent `g`
(level 0 is `g` itself; the constructor's loop bound is 100 iterations). -/
def buildSizes (g : V3) : List V3 := g :: buildSizesAux 100 g

/-- Claim formula for the coarse extent (spec side, from the claim's words):
each dimension is the ceiling of half the finer dimension, plus one. -/
def ceilHalfPlusOne (e : ℤ) : ℤ := (e + 1).tdiv 2 + 1

/-! ## NKMinHeap: min heap of (ID, key) pairs stored in K bucket lists

The entries array holds `K` bucket head slots followed by `N` identifier
slots, each a (key, prev, next) triple of ints with -1 as null. -/

/-- One slot of `NKMinHeap::mEntries` (struct `Entry`). -/
structure HEntry where
  key : ℤ
  prev : ℤ
  next : ℤ
deriving DecidableEq

instance : Inhabited HEntry := ⟨⟨-1, -1, -1⟩⟩

/-- The heap state: counts `mN`, `mK`, the tracked size `mSize` (an `int` in
the source, never negative), the tracked minimum key `mMinKey`, and the
entries array of length `K + N`. -/
structure NKMinHeap where
  N : ℕ
  K : ℕ
  size : ℕ
  minKey : ℤ
  entries : List HEntry
deriving DecidableEq

/-- Read `mEntries[i]` (signed index; default entry out of range). -/
def hent (h : NKMinHeap) (i : ℤ) : HEntry :=
  if 0 ≤ i then h.entries.getD i.toNat default else default

/-- Write `mEntries[i]` (no-op out of range). -/
def hset (h : NKMinHeap) (i : ℤ) (e : HEntry) : NKMinHeap :=
  { h with entries := if 0 ≤ i then h.entries.set i.toNat e else h.entries }

/-- Write `mEntries[i].next`. -/
def hsetNext (h : NKMinHeap) (i : ℤ) (nx : ℤ) : NKMinHeap :=
  hset h i { hent h i with next := nx }

/-- Write `mEntries[i].prev`. -/
def hsetPrev (h : NKMinHeap) (i : ℤ) (pv : ℤ) : NKMinHeap :=
  hset h i { hent h i with prev := pv }

/-- Write `mEntries[i].key`. -/
def hsetKey (h : NKMinHeap) (i : ℤ) (k : ℤ) : NKMinHeap :=
  hset h i { hent h i with key := k }

/-- Constructor `NKMinHeap(N, K)`: empty heap, all entries null. -/
def NKMinHeap.init (N K : ℕ) : NKMinHeap :=
  ⟨N, K, 0, -1, List.replicate (K + N) default⟩

/-- Accessor `getKey(ID) = mEntries[mK+ID].key`. -/
def NKMinHeap.getKey (h : NKMinHeap) (ID : ℤ) : ℤ := (hent h ((h.K : ℤ) + ID)).key

/-- The `mMinKey` rescan loop `for (; mMinKey<mK; mMinKey++) if (next != -1) break`:
first bucket index at or after `k` whose head pointer is non-null, else `K`. -/
def scanMin (h : NKMinHeap) : ℕ → ℤ → ℤ
  | 0, k => k
  | fuel + 1, k =>
    if k < (h.K : ℤ) then (if (hent h k).next ≠ -1 then k else scanMin h fuel (k + 1))
    else k

/-- The unlink stage of `NKMinHeap::setKey` (the `key() != -1` branch):
splice the entry out of its bucket list, rescan `mMinKey` if its bucket was
the minimum, and decrement the size. -/
def setKeyRemove (h : NKMinHeap) (kid : ℤ) : NKMinHeap :=
  let pred := (hent h kid).prev
  let succ := (hent h kid).next
  let ha := hsetNext h pred succ
  let hb := if succ ≠ -1 then hsetPrev ha succ pred else ha
  let removedKey := (hent hb kid).key
  let hc :=
    if removedKey = hb.minKey then
      if hb.size = 1 then { hb with minKey := -1 }
      else { hb with minKey := scanMin hb (hb.K + 1) hb.minKey }
    else hb
  { hc with size := hc.size - 1 }

/-- The insert stage of `NKMinHeap::setKey` (the `key != -1` tail): increment
the size, lower `mMinKey` to the new key if needed, and link the entry in at
the head of its new bucket list. -/
def setKeyInsert (h2 : NKMinHeap) (kid : ℤ) (key : ℤ) : NKMinHeap :=
  let h3 : NKMinHeap := { h2 with size := h2.size + 1 }
  let h4 : NKMinHeap :=
    if h3.minKey = -1 then { h3 with minKey := key }
    else { h3 with minKey := min h3.minKey key }
  let tmp := (hent h4 key).next
  let h5 := hsetNext h4 key kid
  let h6 := hsetPrev h5 kid key
  let h7 := hsetNext h6 kid tmp
  if tmp ≠ -1 then hsetPrev h7 tmp kid else h7

/-- Operation `NKMinHeap::setKey(ID, key)`: insert, move, or (key = -1) delete
`ID`, translated statement by statement from the source (the source's entry
assertions `0 <= ID < N`, `-1 <= key < K` delimit the in-spec argument range). -/
def NKMinHeap.setKey (h : NKMinHeap) (ID : ℤ) (key : ℤ) : NKMinHeap :=
  let kid : ℤ := (h.K : ℤ) + ID
  if (hent h kid).key = key then h
  else
    let h1 := if (hent h kid).key ≠ -1 then setKeyRemove h kid else h
    let h2 := hsetKey h1 kid key
    if key = -1 then hsetPrev (hsetNext h2 kid (-1)) kid (-1)
    else setKeyInsert h2 kid key

/-- Operation `NKMinHeap::peekMin()`: the (ID, key) pair at the head of the
minimum bucket, or (-1,-1) if the heap is empty. -/
def NKMinHeap.peekMin (h : NKMinHeap) : ℤ × ℤ :=
  if h.size = 0 then (-1, -1)
  else ((hent h h.minKey).next - (h.K : ℤ), h.minKey)

/-- The state update of `NKMinHeap::popMin()` (the non-empty case): unlink
and clear the head entry of the minimum bucket, decrement the size and
rescan `mMinKey`. -/
def popMinAux (h : NKMinHeap) : NKMinHeap :=
  let kid := (hent h h.minKey).next
  let pred := (hent h kid).prev
  let succ := (hent h kid).next
  let ha := hsetNext h pred succ
  let hb := if succ ≠ -1 then hsetPrev ha succ pred else ha
  let hc := hset hb kid default
  let hd := { hc with size := hc.size - 1 }
  if hd.size = 0 then { hd with minKey := -1 }
  else { hd with minKey := scanMin hd (hd.K + 1) hd.minKey }

/-- Operation `NKMinHeap::popMin()`: returns the same pair as `peekMin` and
additionally unlinks and clears that entry, decrements the size and rescans
`mMinKey`. -/
def NKMinHeap.popMin (h : NKMinHeap) : (ℤ × ℤ) × NKMinHeap :=
  if h.size = 0 then ((-1, -1), h)
  else (((hent h h.minKey).next - (h.K : ℤ), h.minKey), popMinAux h)

/-! ### Heap representation invariant

A bucket's contents are characterized by `Chain`: starting from slot `pI`
(initially the bucket's head slot `k`), the successive `next` pointers
enumerate exactly the identifier slots of the list, with consistent `prev`
pointers and key fields, ending in -1. -/

/-- Doubly-linked bucket list predicate: from slot `pI`, the ids of `l` follow
in order via `next`, each pointing back via `prev` and carrying key `k`. -/
def Chain (h : NKMinHeap) (k : ℕ) : ℤ → List ℕ → Prop
  | pI, [] => (hent h pI).next = -1
  | pI, id :: t =>
    id < h.N ∧ (hent h pI).next = (h.K : ℤ) + id ∧
    (hent h ((h.K : ℤ) + id)).prev = pI ∧ (hent h ((h.K : ℤ) + id)).key = (k : ℤ) ∧
    Chain h k ((h.K : ℤ) + id) t

instance chainDec (h : NKMinHeap) (k : ℕ) : ∀ (pI : ℤ) (l : List ℕ), Decidable (Chain h k pI l)
  | _, [] => by unfold Chain; infer_instance
  | pI, id :: t => by
    unfold Chain
    have := chainDec h k ((h.K : ℤ) + id) t
    infer_instance

/-- Well-formedness of a heap state w.r.t. an abstract bucket assignment `B`:
every bucket is a proper chain, ids appear at most once overall, the tracked
size is the total number of stored ids, stored keys are consistent with
bucket membership, and `mMinKey` is the least non-empty bucket (or -1). -/
def Represents (h : NKMinHeap) (B : List (List ℕ)) : Prop :=
  h.entries.length = h.K + h.N ∧
  B.length = h.K ∧
  (∀ k, k < h.K → Chain h k (k : ℤ) (B.getD k [])) ∧
  B.flatten.Nodup ∧
  h.size = (B.map List.length).sum ∧
  (∀ id, id < h.N → (hent h ((h.K : ℤ) + id)).key ≠ -1 →
    0 ≤ (hent h ((h.K : ℤ) + id)).key ∧ (hent h ((h.K : ℤ) + id)).key < (h.K : ℤ) ∧
    id ∈ B.getD ((hent h ((h.K : ℤ) + id)).key).toNat []) ∧
  (h.size = 0 → h.minKey = -1) ∧
  (h.size ≠ 0 → 0 ≤ h.minKey ∧ h.minKey < (h.K : ℤ) ∧
    B.getD h.minKey.toNat [] ≠ [] ∧
    ∀ k, k < h.K → (k : ℤ) < h.minKey → B.getD k [] = [])

instance (h : NKMinHeap) (B : List (List ℕ)) : Decidable (Represents h B) := by
  unfold Represents
  infer_instance

/-- A reachable heap state: one that is represented by some bucket assignment. -/
def HeapWF (h : NKMinHeap) : Prop := ∃ B, Represents h B

/-- A concrete heap with 2 buckets and 2 ids: id 1 stored with key 0,
id 0 stored with key 1. -/
def exHeap : NKMinHeap :=
  { N := 2, K := 2, size := 2, minKey := 0,
    entries := [⟨-1, -1, 3⟩, ⟨-1, -1, 2⟩, ⟨1, 1, -1⟩, ⟨0, 0, -1⟩] }

/-- The bucket assignment representing `exHeap`. -/
def exB : List (List ℕ) := [[1], [0]]

/-! ## GridMg: stencil constants, weights, coarsening paths -/

/-- Space dimension `mDim`. -/
def mgDim (is3D : Bool) : ℤ := if is3D then 3 else 2

/-- Stencil entry count on levels above 0 (`mStencilSize`): 14 in 3D, 5 in 2D. -/
def sSz (is3D : Bool) : ℤ := if is3D then 14 else 5

/-- Stencil entry count on level 0 (`mStencilSize0`): 4 in 3D, 3 in 2D. -/
def sSz0 (is3D : Bool) : ℤ := if is3D then 4 else 3

/-- Lower corner of the symmetric stencil box (`mStencilMin`). -/
def stMin (is3D : Bool) : V3 := ⟨-1, -1, if is3D then -1 else 0⟩

/-- Upper corner of the symmetric stencil box (`mStencilMax`). -/
def stMax (is3D : Bool) : V3 := ⟨1, 1, if is3D then 1 else 0⟩

/-- Grid pitch `mPitch` of a level of extent `sz`: `(1, sx, sx*sy)`. -/
def pitchOf (sz : V3) : V3 := ⟨1, sz.x, sz.x * sz.y⟩

/-- Component access `V[d]` of a `Vec3i`. -/
def V3.idx (a : V3) (d : ℕ) : ℤ := if d = 0 then a.x else if d = 1 then a.y else a.z

/-- Sum of the coordinate parities of a (componentwise nonnegative) vertex:
the C++ expression `(p.x % 2) + (p.y % 2) + (p.z % 2)`. -/
def oddSum (p : V3) : ℤ := p.x.tmod 2 + p.y.tmod 2 + p.z.tmod 2

/-- Integer `1 << k`. -/
def twoPow (k : ℤ) : ℤ := 2 ^ k.toNat

/-- Restriction/interpolation weight of a vertex: `1 / (1 << oddSum p)`. -/
def pwgt (p : V3) : ℚ := 1 / ((twoPow (oddSum p) : ℤ) : ℚ)

/-- One precomputed contribution path (struct `GridMg::CoarseningPath`):
(V) <-restriction- (U) <-A_0- (W) <-interpolation- (N), stored as offsets. -/
structure CoarseningPath where
  N : V3
  U : V3
  W : V3
  sc : ℤ
  sf : ℤ
  inUStencil : Bool
  rw : ℚ
  iw : ℚ
deriving DecidableEq

/-- The 7-point stencil offset table `p7stencil` of the constructor. -/
def p7stencil : List V3 :=
  [⟨0, 0, 0⟩, ⟨-1, 0, 0⟩, ⟨1, 0, 0⟩, ⟨0, -1, 0⟩, ⟨0, 1, 0⟩, ⟨0, 0, -1⟩, ⟨0, 0, 1⟩]

/-- The coarsening-path enumeration of the constructor: with the reference
coarse vertex V = (1,1,1), all U in the stencil box around 2V, all W one
7-point step from U, all interpolation sources N of W with `dot(N,(1,3,9))`
at least 13 (the symmetric upper half). -/
def mkCoarseningPaths (is3D : Bool) : List CoarseningPath :=
  let V : V3 := ⟨1, 1, 1⟩
  (boxList (V.sc 2 + stMin is3D) (V.sc 2 + stMax is3D)).flatMap (fun U =>
    (intRange 0 (2 * mgDim is3D)).flatMap (fun i =>
      let W := U + p7stencil.getD i.toNat ⟨0, 0, 0⟩
      (boxList W.half ((W.pl 1).half)).filterMap (fun N =>
        let s := N.dot ⟨1, 3, 9⟩
        if 13 ≤ s then
          some { N := N.pl (-1), U := U - V.sc 2, W := W - V.sc 2,
                 sc := s - 13, sf := (i + 1).tdiv 2,
                 inUStencil := decide (i.tmod 2 = 0),
                 rw := pwgt U, iw := pwgt W }
        else none)))

/-- The strict order `pathLess` used to sort the path table. -/
def pathLess (p1 p2 : CoarseningPath) : Bool :=
  if p1.sc = p2.sc then decide ((p1.U.pl 1).dot ⟨1, 3, 9⟩ < (p2.U.pl 1).dot ⟨1, 3, 9⟩)
  else decide (p1.sc < p2.sc)

/-- Sorted insertion w.r.t. `pathLess`. -/
def insertPath (p : CoarseningPath) : List CoarseningPath → List CoarseningPath
  | [] => [p]
  | q :: t => if pathLess p q then p :: q :: t else q :: insertPath p t

/-- Sorting of the path table (the source's `std::sort` with `pathLess`;
sorting only changes the accumulation order of exact sums, so any sort with
the same order is an equivalent model; an insertion sort is used here). -/
def sortPaths : List CoarseningPath → List CoarseningPath
  | [] => []
  | p :: t => insertPath p (sortPaths t)

/-! ## GridMg state -/

/-- The solver state (class `GridMg`): per-level extents and flat arrays,
configuration constants, the two API flags and the precomputed path table.
The two log-only booleans of `setA` (`nonZeroStencilSumFound`,
`trivialEquationsFound`) feed debug messages only and are not part of the
state. -/
structure GridMg where
  is3D : Bool
  sizes : List V3
  A : List (List ℚ)
  x : List (List ℚ)
  b : List (List ℚ)
  r : List (List ℚ)
  types : List (List VertexType)
  cgTmp1 : List (List ℚ)
  cgTmp2 : List (List ℚ)
  numPreSmooth : ℕ
  numPostSmooth : ℕ
  coarsestLevelAccuracy : ℚ
  trivialEquationScale : ℚ
  isASet : Bool
  isRhsSet : Bool
  coarseningPaths0 : List CoarseningPath

/-- List of `n` rational zeros (a freshly allocated `std::vector<Real>(n)`). -/
def zeros (n : ℤ) : List ℚ := List.replicate n.toNat 0

/-- The constructor `GridMg::GridMg(gridSize)`: build the level extents, the
zero-initialized per-level arrays (with CG scratch space only on the coarsest
level) and the sorted coarsening-path table. A freshly value-initialized
`std::vector<VertexType>` holds the enum value 0 on every vertex; the
classification arrays are overwritten before any read, and the modelled
default is `vtInactive`. -/
def GridMg.make (gridSize : V3) : GridMg :=
  let is3D := 1 < gridSize.z
  let szs := buildSizes gridSize
  let L := szs.length
  { is3D := is3D
    sizes := szs
    A := (List.range L).map (fun l =>
      zeros (vcount (szs.getD l default) * (if l = 0 then sSz0 is3D else sSz is3D)))
    x := szs.map (fun s => zeros (vcount s))
    b := szs.map (fun s => zeros (vcount s))
    r := szs.map (fun s => zeros (vcount s))
    types := szs.map (fun s => List.replicate (vcount s).toNat vtInactive)
    cgTmp1 := (List.range L).map (fun l =>
      if l = L - 1 then zeros (vcount (szs.getD l default)) else [])
    cgTmp2 := (List.range L).map (fun l =>
      if l = L - 1 then zeros (vcount (szs.getD l default)) else [])
    numPreSmooth := 1
    numPostSmooth := 1
    coarsestLevelAccuracy := 1 / 100000000
    trivialEquationScale := 1 / 1000000
    isASet := false
    isRhsSet := false
    coarseningPaths0 := sortPaths (mkCoarseningPaths is3D) }

/-- Extent of level `l`. -/
def GridMg.sz (st : GridMg) (l : ℕ) : V3 := st.sizes.getD l default

/-- Vertex count of level `l`. -/
def GridMg.nv (st : GridMg) (l : ℕ) : ℤ := vcount (st.sz l)

/-- Classification of vertex `v` on level `l`. -/
def GridMg.typeAt (st : GridMg) (l : ℕ) (v : ℤ) : VertexType := getT (st.types.getD l []) v

/-- Stencil array entry `mA[l][i]`. -/
def GridMg.aAt (st : GridMg) (l : ℕ) (i : ℤ) : ℚ := getQ (st.A.getD l []) i

/-! ## Coarse grid generation (`GridMg::genCoarseGrid`) -/

/-- The coarse interpolation candidate box of a fine vertex `V`: coordinates
from `V/2` to `(V+1)/2` (the loop bounds of `FOR_VEC_MINMAX(I, V/2, (V+1)/2)`). -/
def candBox (V : V3) : List V3 := boxList V.half ((V.pl 1).half)

/-- The clamped restriction footprint of a coarse vertex `I` on a fine grid of
extent `fsz`: from `vmax(0, I*2-1)` to `vmin(fsz-1, I*2+1)`. -/
def restrBox (fsz : V3) (I : V3) : List V3 :=
  boxList (V3.vmax ⟨0, 0, 0⟩ ((I.sc 2).pl (-1))) (V3.vmin (fsz.pl (-1)) ((I.sc 2).pl 1))

/-- Heap update for one fine vertex of the restriction footprint after an
interpolation vertex left the `Free` state: decrement its key, or remove it
when the key would drop to zero. -/
def gcgRStep (fsz : V3) (hp : NKMinHeap) (R : V3) : NKMinHeap :=
  let r := linIdx fsz R
  let key := hp.getKey r
  if 1 < key then hp.setKey r (key - 1)
  else if -1 < key then hp.setKey r (-1)
  else hp

/-- Processing of one interpolation candidate `I` of the popped fine vertex:
the first candidate still `Free` becomes `Zero`, later `Free` candidates
become `Removed`; each state change updates the keys of the fine vertices in
the restriction footprint of `I`. -/
def gcgCand (fsz csz : V3) (acc : List VertexType × NKMinHeap × Bool) (I : V3) :
    List VertexType × NKMinHeap × Bool :=
  let i := linIdx csz I
  if getT acc.1 i = vtFree then
    let tys := if acc.2.2 then setT acc.1 i vtRemoved else setT acc.1 i vtZero
    let hp := (restrBox fsz I).foldl (gcgRStep fsz) acc.2.1
    (tys, hp, true)
  else acc

/-- One iteration of the selection loop: pop the fine vertex with the fewest
free interpolation vertices and process its candidate box in scan order. -/
def gcgPop (fsz csz : V3) (tys : List VertexType) (hp : NKMinHeap) :
    List VertexType × NKMinHeap :=
  let pm := hp.popMin
  let V := vecIdx fsz pm.1.1
  let out := (candBox V).foldl (gcgCand fsz csz) (tys, pm.2, false)
  (out.1, out.2.1)

/-- The selection loop `while (heap.size() > 0)`, with explicit fuel: each
iteration removes at least the popped vertex, so the entry size of the heap
bounds the number of iterations. -/
def gcgLoop (fsz csz : V3) : ℕ → List VertexType → NKMinHeap → List VertexType × NKMinHeap
  | 0, tys, hp => (tys, hp)
  | fuel + 1, tys, hp =>
    if hp.size = 0 then (tys, hp)
    else
      let st := gcgPop fsz csz tys hp
      gcgLoop fsz csz fuel st.1 st.2

/-- The final conversion pass of `genCoarseGrid`: remaining `Free` vertices
become `Removed`; then `Zero` becomes `Active` and `Removed` becomes
`Inactive` (three conditionals applied in source order to each vertex). -/
def gcgFinal (t : VertexType) : VertexType :=
  let t1 := if t = vtFree then vtRemoved else t
  let t2 := if t1 = vtZero then vtActive else t1
  if t2 = vtRemoved then vtInactive else t2

/-- The initial heap of `genCoarseGrid`: every non-inactive fine vertex is
keyed by `1 << ((V.x%2)+(V.y%2)+(V.z%2))`, its number of interpolation
candidates, in linear vertex order. -/
def gcgSeed (is3D : Bool) (fsz : V3) (ft : List VertexType) : NKMinHeap :=
  (List.range (vcount fsz).toNat).foldl
    (fun hp v =>
      if getT ft v ≠ vtInactive then
        hp.setKey v (twoPow (oddSum (vecIdx fsz v)))
      else hp)
    (NKMinHeap.init (vcount fsz).toNat (if is3D then 9 else 5))

/-- Core of `GridMg::genCoarseGrid(l)`: from the fine-level classification,
the full coarse-level classification (all coarse vertices start `Free`). -/
def genCoarseGridTypes (is3D : Bool) (fsz csz : V3) (ft : List VertexType) :
    List VertexType :=
  let tys0 := List.replicate (vcount csz).toNat vtFree
  let hp0 := gcgSeed is3D fsz ft
  let res := gcgLoop fsz csz hp0.size tys0 hp0
  res.1.map gcgFinal

/-- State update `GridMg::genCoarseGrid(l)` (writes the level-`l`
classification array only). -/
def GridMg.genCoarseGrid (st : GridMg) (l : ℕ) : GridMg :=
  let newTys := genCoarseGridTypes st.is3D (st.sz (l - 1)) (st.sz l) (st.types.getD (l - 1) [])
  { st with types := st.types.set l newTys }

/-! ## Galerkin operator assembly (`GridMg::genCoraseGridOperator`) -/

/-- Clearing of the stencil of one coarse vertex before accumulation. -/
def clearStencil (ssz : ℤ) (v : ℤ) (Ac : List ℚ) : List ℚ :=
  (intRange 0 (ssz - 1)).foldl (fun a i => setQ a (v * ssz + i) 0) Ac

/-- Accumulation of one precomputed coarsening path into the stencil of
coarse vertex `v` (the `l == 1` branch): skip if the coarse target `N` or
the fine vertices `U`, `W` are out of the grid or inactive, else add
`rw * A_0[entry] * iw` into compressed slot `sc`. -/
def gopPathStep (is3D : Bool) (fsz csz : V3) (Af : List ℚ)
    (ftys ctys : List VertexType) (v : ℤ) (V : V3) (Ac : List ℚ)
    (p : CoarseningPath) : List ℚ :=
  let ssz := sSz is3D
  let s0 := sSz0 is3D
  let N := V + p.N
  let n := linIdx csz N
  if ¬inGrid csz N ∨ getT ctys n = vtInactive then Ac
  else
    let U := V.sc 2 + p.U
    let u := linIdx fsz U
    if ¬inGrid fsz U ∨ getT ftys u = vtInactive then Ac
    else
      let W := V.sc 2 + p.W
      let w := linIdx fsz W
      if ¬inGrid fsz W ∨ getT ftys w = vtInactive then Ac
      else
        let src := if p.inUStencil then getQ Af (u * s0 + p.sf) else getQ Af (w * s0 + p.sf)
        setQ Ac (v * ssz + p.sc) (getQ Ac (v * ssz + p.sc) + p.rw * src * p.iw)

/-- Innermost loop of the `l > 1` branch: all fine vertices `W` in the
stencil of `A_{l-1}` at `U` that also interpolate from `N`. -/
def gopWStep (is3D : Bool) (fsz : V3) (Af : List ℚ) (ftys : List VertexType)
    (v u : ℤ) (U : V3) (rw : ℚ) (sc : ℤ) (Ac : List ℚ) (W : V3) : List ℚ :=
  let ssz := sSz is3D
  let w := linIdx fsz W
  if getT ftys w = vtInactive then Ac
  else
    let SF := W - U + stMax is3D
    let sf := SF.x + 3 * SF.y + 9 * SF.z
    let iw := pwgt W
    let src :=
      if sf < ssz then getQ Af (w * ssz + ssz - 1 - sf)
      else getQ Af (u * ssz + sf - ssz + 1)
    setQ Ac (v * ssz + sc - ssz + 1) (getQ Ac (v * ssz + sc - ssz + 1) + rw * src * iw)

/-- Middle loop of the `l > 1` branch: all coarse stencil neighbours `N` of
`V` reachable via restriction to `U`; only the symmetric upper half of the
stencil (`sc >= mStencilSize - 1`) is assembled. -/
def gopNStep (is3D : Bool) (fsz csz : V3) (Af : List ℚ)
    (ftys ctys : List VertexType) (v u : ℤ) (V U : V3) (rw : ℚ)
    (Ac : List ℚ) (N : V3) : List ℚ :=
  let ssz := sSz is3D
  let n := linIdx csz N
  if getT ctys n = vtInactive then Ac
  else
    let SC := N - V + stMax is3D
    let sc := SC.x + 3 * SC.y + 9 * SC.z
    if sc < ssz - 1 then Ac
    else
      (boxList (V3.vmax ⟨0, 0, 0⟩ (V3.vmax (U.pl (-1)) ((N.sc 2).pl (-1))))
          (V3.vmin (fsz.pl (-1)) (V3.vmin (U.pl 1) ((N.sc 2).pl 1)))).foldl
        (gopWStep is3D fsz Af ftys v u U rw sc) Ac

/-- Outer loop of the `l > 1` branch: all restriction vertices `U` of `V`. -/
def gopUStep (is3D : Bool) (fsz csz : V3) (Af : List ℚ)
    (ftys ctys : List VertexType) (v : ℤ) (V : V3) (Ac : List ℚ) (U : V3) : List ℚ :=
  let u := linIdx fsz U
  if getT ftys u = vtInactive then Ac
  else
    let rw := pwgt U
    (boxList ((U.pl (-1)).half) (V3.vmin (csz.pl (-1)) ((U.pl 2).half))).foldl
      (gopNStep is3D fsz csz Af ftys ctys v u V U rw) Ac

/-- Assembly of the stencil of one non-inactive coarse vertex `v`: clear it,
then accumulate all Galerkin paths (`l == 1` via the precomputed table, else
via the geometric three-level enumeration). Inactive coarse vertices are
skipped, their stencil storage is untouched. -/
def gopVertex (is3D : Bool) (l : ℕ) (fsz csz : V3) (paths : List CoarseningPath)
    (Af : List ℚ) (ftys ctys : List VertexType) (Ac : List ℚ) (v : ℤ) : List ℚ :=
  if getT ctys v = vtInactive then Ac
  else
    let Ac1 := clearStencil (sSz is3D) v Ac
    let V := vecIdx csz v
    if l = 1 then paths.foldl (gopPathStep is3D fsz csz Af ftys ctys v V) Ac1
    else (restrBox fsz V).foldl (gopUStep is3D fsz csz Af ftys ctys v V) Ac1

/-- Core of `GridMg::genCoraseGridOperator(l)`: `A_l = R * A_{l-1} * I` by
per-coarse-vertex accumulation. -/
def genCoraseGridOperatorA (is3D : Bool) (l : ℕ) (fsz csz : V3)
    (paths : List CoarseningPath) (Af : List ℚ) (ftys ctys : List VertexType)
    (AcInit : List ℚ) : List ℚ :=
  (intRange 0 (vcount csz - 1)).foldl (gopVertex is3D l fsz csz paths Af ftys ctys) AcInit

/-- State update `GridMg::genCoraseGridOperator(l)` (writes `mA[l]` only). -/
def GridMg.genCoraseGridOperator (st : GridMg) (l : ℕ) : GridMg :=
  let newA := genCoraseGridOperatorA st.is3D l (st.sz (l - 1)) (st.sz l)
    st.coarseningPaths0 (st.A.getD (l - 1) []) (st.types.getD (l - 1) [])
    (st.types.getD l []) (st.A.getD l [])
  { st with A := st.A.set l newA }

/-! ## Operator ingestion (`GridMg::analyzeStencil`, `setA`, `setRhs`) -/

/-- The level-0 copy loop of `setA`: write the four stencil slots of vertex
`v` from the caller's coefficient grids (the `k`-direction slot receives 0 in
2D mode). -/
def copyA0Step (is3D : Bool) (A0 Ai Aj Ak : List ℚ) (a : List ℚ) (v : ℤ) : List ℚ :=
  let s0 := sSz0 is3D
  let a1 := setQ a (v * s0 + 0) (getQ A0 v)
  let a2 := setQ a1 (v * s0 + 1) (getQ Ai v)
  let a3 := setQ a2 (v * s0 + 2) (getQ Aj v)
  setQ a3 (v * s0 + 3) (if is3D then getQ Ak v else 0)

/-- Full level-0 coefficient copy of `setA`. -/
def copyA0 (is3D : Bool) (n : ℤ) (A0 Ai Aj Ak : List ℚ) (a0 : List ℚ) : List ℚ :=
  (intRange 0 (n - 1)).foldl (copyA0Step is3D A0 Ai Aj Ak) a0

/-- Method `GridMg::analyzeStencil(v)`: collect the seven 7-point row entries
of vertex `v` (the three lower ones from the symmetric neighbours, zero at
grid boundaries), and return whether the row sum is numerically non-zero and
whether the row is the canonical trivial equation (diagonal exactly 1, all
off-diagonals exactly 0, by exact comparison). The numeric thresholds `1E-6`
are modelled as the exact rational. -/
def analyzeStencil (is3D : Bool) (sz : V3) (mA0 : List ℚ) (v : ℤ) : Bool × Bool :=
  let s0 := sSz0 is3D
  let pch := pitchOf sz
  let V := vecIdx sz v
  let a0 := getQ mA0 (v * s0 + 0)
  let a1 := getQ mA0 (v * s0 + 1)
  let a2 := getQ mA0 (v * s0 + 2)
  let a3 := getQ mA0 (v * s0 + 3)
  let a4 := if V.x = 0 then 0 else getQ mA0 ((v - pch.x) * s0 + 1)
  let a5 := if V.y = 0 then 0 else getQ mA0 ((v - pch.y) * s0 + 2)
  let a6 := if V.z = 0 then 0 else getQ mA0 ((v - pch.z) * s0 + 3)
  let stencilSum := a0 + a1 + a2 + a3 + a4 + a5 + a6
  let stencilMax := max 0 (max |a0| (max |a1| (max |a2| (max |a3| (max |a4| (max |a5| |a6|))))))
  (decide ((1 : ℚ) / 1000000 < |stencilSum / stencilMax|),
   decide (a0 = 1 ∧ a1 = 0 ∧ a2 = 0 ∧ a3 = 0 ∧ a4 = 0 ∧ a5 = 0 ∧ a6 = 0))

/-- The classification loop body of `setA` for one vertex: inactive on zero
diagonal; otherwise active, with trivial rows reclassified `ActiveTrivial`
and their stored diagonal scaled by `mTrivialEquationScale`. -/
def classifyStep (is3D : Bool) (sz : V3) (scale : ℚ)
    (acc : List ℚ × List VertexType) (v : ℤ) : List ℚ × List VertexType :=
  let s0 := sSz0 is3D
  if getQ acc.1 (v * s0 + 0) ≠ 0 then
    let an := analyzeStencil is3D sz acc.1 v
    if an.2 then
      (setQ acc.1 (v * s0 + 0) (getQ acc.1 (v * s0 + 0) * scale),
       setT acc.2 v vtActiveTrivial)
    else (acc.1, setT acc.2 v vtActive)
  else (acc.1, setT acc.2 v vtInactive)

/-- Full classification pass of `setA` over level 0. -/
def setAClassify (is3D : Bool) (sz : V3) (scale : ℚ) (a0 : List ℚ)
    (t0 : List VertexType) : List ℚ × List VertexType :=
  (intRange 0 (vcount sz - 1)).foldl (classifyStep is3D sz scale) (a0, t0)

/-- The level-0 part of `setA`: the copied coefficient array and the
classification array after the copy and classification loops. -/
def setAList0 (st : GridMg) (A0 Ai Aj Ak : List ℚ) : List ℚ × List VertexType :=
  setAClassify st.is3D (st.sz 0) st.trivialEquationScale
    (copyA0 st.is3D (st.nv 0) A0 Ai Aj Ak (st.A.getD 0 [])) (st.types.getD 0 [])

/-- The state after the level-0 part of `setA`. -/
def setAStage1 (st : GridMg) (A0 Ai Aj Ak : List ℚ) : GridMg :=
  { st with A := st.A.set 0 (setAList0 st A0 Ai Aj Ak).1,
            types := st.types.set 0 (setAList0 st A0 Ai Aj Ak).2 }

/-- The loop of `setA` generating the coarse grids and Galerkin operators for
levels 1 .. L in order. -/
def coarseLoop (m : ℕ) (st1 : GridMg) : GridMg :=
  (List.range m).foldl
    (fun s i => (s.genCoarseGrid (i + 1)).genCoraseGridOperator (i + 1)) st1

/-- Method `GridMg::setA`: copy and classify level 0, then generate the
coarse grids and Galerkin operators for every coarser level in order; set
the `A` flag and invalidate the right-hand side. -/
def GridMg.setA (st : GridMg) (A0 Ai Aj Ak : List ℚ) : GridMg :=
  let st2 := coarseLoop (st.sizes.length - 1) (setAStage1 st A0 Ai Aj Ak)
  { st2 with isASet := true, isRhsSet := false }

/-- Method `GridMg::setRhs`: store the finest right-hand side, scaling the
entries of trivial rows; fails its entry assertion (`none`) if `setA` has
not been called. -/
def GridMg.setRhs (st : GridMg) (rhs : List ℚ) : Option GridMg :=
  if ¬st.isASet then none
  else
    let newB := (intRange 0 (st.nv 0 - 1)).foldl
      (fun bb v =>
        let b1 := setQ bb v (getQ rhs v)
        if st.typeAt 0 v = vtActiveTrivial then
          setQ b1 v (getQ b1 v * st.trivialEquationScale)
        else b1)
      (st.b.getD 0 [])
    some { st with b := st.b.set 0 newB, isRhsSet := true }

/-! ## Smoothing, residual, transfer -/

/-- The multicolour decomposition `colorOffs` of `smoothGS`: 2 colours on
level 0, `2^dim` colours on coarser levels. -/
def colorOffsets (is3D : Bool) (l : ℕ) : List (List V3) :=
  if is3D then
    if l = 0 then
      [[⟨0, 0, 0⟩, ⟨1, 1, 0⟩, ⟨1, 0, 1⟩, ⟨0, 1, 1⟩], [⟨1, 0, 0⟩, ⟨0, 1, 0⟩, ⟨0, 0, 1⟩, ⟨1, 1, 1⟩]]
    else
      [[⟨0, 0, 0⟩], [⟨1, 0, 0⟩], [⟨0, 1, 0⟩], [⟨1, 1, 0⟩],
       [⟨0, 0, 1⟩], [⟨1, 0, 1⟩], [⟨0, 1, 1⟩], [⟨1, 1, 1⟩]]
  else
    if l = 0 then [[⟨0, 0, 0⟩, ⟨1, 1, 0⟩], [⟨1, 0, 0⟩, ⟨0, 1, 0⟩]]
    else [[⟨0, 0, 0⟩], [⟨1, 0, 0⟩], [⟨0, 1, 0⟩], [⟨1, 1, 0⟩]]

/-- The Gauss-Seidel update of a single vertex position `V` (skipped when out
of the grid or inactive): `x_v <- (b_v - sum of off-diagonal row entries
times current x) / diagonal`, with the 7-point row on level 0 and the
symmetric 27-point row on coarser levels. -/
def smoothVertex (is3D : Bool) (l : ℕ) (sz : V3) (A : List ℚ)
    (tys : List VertexType) (bb : List ℚ) (xx : List ℚ) (V : V3) : List ℚ :=
  if ¬inGrid sz V then xx
  else
    let v := linIdx sz V
    if getT tys v = vtInactive then xx
    else
      let sum0 := getQ bb v
      if l = 0 then
        let s0 := sSz0 is3D
        let pch := pitchOf sz
        let sum := (List.range (mgDim is3D).toNat).foldl
          (fun s d =>
            let s1 :=
              if 0 < V.idx d then
                s - getQ A ((v - pch.idx d) * s0 + d + 1) * getQ xx (v - pch.idx d)
              else s
            if V.idx d < sz.idx d - 1 then
              s1 - getQ A (v * s0 + d + 1) * getQ xx (v + pch.idx d)
            else s1)
          sum0
        setQ xx v (sum / getQ A (v * s0 + 0))
      else
        let ssz := sSz is3D
        let sum := ((boxList (stMin is3D) (stMax is3D)).enum).foldl
          (fun s p =>
            if (p.1 : ℤ) = ssz - 1 then s
            else
              let N := V + p.2
              let n := linIdx sz N
              if inGrid sz N ∧ getT tys n ≠ vtInactive then
                if (p.1 : ℤ) < ssz then s - getQ A (n * ssz + ssz - 1 - p.1) * getQ xx n
                else s - getQ A (v * ssz + p.1 - ssz + 1) * getQ xx n
              else s)
          sum0
        setQ xx v (sum / getQ A (v * ssz + 0))

/-- One colour pass of `smoothGS` over the 2x2(x2) block decomposition. -/
def smoothColorPass (is3D : Bool) (l : ℕ) (sz : V3) (A : List ℚ)
    (tys : List VertexType) (bb : List ℚ) (xx : List ℚ) (offs : List V3) : List ℚ :=
  let bsz := (sz.pl 1).half
  (intRange 0 (vcount bsz - 1)).foldl
    (fun x0 bIdx =>
      offs.foldl
        (fun x1 off =>
          let B : V3 := ⟨bIdx.tmod bsz.x, (bIdx.tmod (bsz.x * bsz.y)).tdiv bsz.x,
            bIdx.tdiv (bsz.x * bsz.y)⟩
          smoothVertex is3D l sz A tys bb x1 (B.sc 2 + off))
        x0)
    xx

/-- Core of `GridMg::smoothGS(l, reversedOrder)`: all colour passes, in
ascending order for pre-smoothing and descending for post-smoothing. -/
def smoothGSx (is3D : Bool) (l : ℕ) (sz : V3) (A : List ℚ)
    (tys : List VertexType) (bb : List ℚ) (xx : List ℚ) (reversedOrder : Bool) : List ℚ :=
  let offs := colorOffsets is3D l
  (List.range offs.length).foldl
    (fun x0 c =>
      let color := if reversedOrder then offs.length - 1 - c else c
      smoothColorPass is3D l sz A tys bb x0 (offs.getD color []))
    xx

/-- State update `GridMg::smoothGS` (writes `mx[l]` only). -/
def GridMg.smoothGS (st : GridMg) (l : ℕ) (reversedOrder : Bool) : GridMg :=
  let newX := smoothGSx st.is3D l (st.sz l) (st.A.getD l []) (st.types.getD l [])
    (st.b.getD l []) (st.x.getD l []) reversedOrder
  { st with x := st.x.set l newX }

/-- The residual value of one non-inactive vertex `v`:
`b_v - sum of the full row (diagonal included) times x`. -/
def residualAt (is3D : Bool) (l : ℕ) (sz : V3) (A : List ℚ)
    (tys : List VertexType) (bb xx : List ℚ) (v : ℤ) : ℚ :=
  let V := vecIdx sz v
  let sum0 := getQ bb v
  if l = 0 then
    let s0 := sSz0 is3D
    let pch := pitchOf sz
    let sum := (List.range (mgDim is3D).toNat).foldl
      (fun s d =>
        let s1 :=
          if 0 < V.idx d then
            s - getQ A ((v - pch.idx d) * s0 + d + 1) * getQ xx (v - pch.idx d)
          else s
        if V.idx d < sz.idx d - 1 then
          s1 - getQ A (v * s0 + d + 1) * getQ xx (v + pch.idx d)
        else s1)
      sum0
    sum - getQ A (v * s0 + 0) * getQ xx v
  else
    let ssz := sSz is3D
    ((boxList (stMin is3D) (stMax is3D)).enum).foldl
      (fun s p =>
        let N := V + p.2
        let n := linIdx sz N
        if inGrid sz N ∧ getT tys n ≠ vtInactive then
          if (p.1 : ℤ) < ssz then s - getQ A (n * ssz + ssz - 1 - p.1) * getQ xx n
          else s - getQ A (v * ssz + p.1 - ssz + 1) * getQ xx n
        else s)
      sum0

/-- Core of `GridMg::calcResidual(l)`: write the residual of every
non-inactive vertex; inactive vertices are skipped. -/
def calcResidualR (is3D : Bool) (l : ℕ) (sz : V3) (A : List ℚ)
    (tys : List VertexType) (bb xx r0 : List ℚ) : List ℚ :=
  (intRange 0 (vcount sz - 1)).foldl
    (fun rr v =>
      if getT tys v = vtInactive then rr
      else setQ rr v (residualAt is3D l sz A tys bb xx v))
    r0

/-- State update `GridMg::calcResidual(l)` (writes `mr[l]` only). -/
def GridMg.calcResidual (st : GridMg) (l : ℕ) : GridMg :=
  let newR := calcResidualR st.is3D l (st.sz l) (st.A.getD l []) (st.types.getD l [])
    (st.b.getD l []) (st.x.getD l []) (st.r.getD l [])
  { st with r := st.r.set l newR }

/-- Core of `GridMg::calcResidualNorm(l)` up to the final `std::sqrt` (which
has no exact rational counterpart): the sum of squared residuals over the
non-inactive vertices; the source returns the square root of this value. -/
def calcResidualNormSqL (sz : V3) (tys : List VertexType) (rr : List ℚ) : ℚ :=
  (intRange 0 (vcount sz - 1)).foldl
    (fun s v => if getT tys v = vtInactive then s else s + getQ rr v * getQ rr v) 0

/-- Squared residual norm of level `l`. -/
def GridMg.calcResidualNormSq (st : GridMg) (l : ℕ) : ℚ :=
  calcResidualNormSqL (st.sz l) (st.types.getD l []) (st.r.getD l [])

/-- Core of `GridMg::restrict(l_dst, src, dst)`: each non-inactive coarse
vertex receives the restriction-weighted sum of the non-inactive fine
vertices of its footprint. -/
def restrictL (szSrc szDst : V3) (tysSrc tysDst : List VertexType)
    (src dst : List ℚ) : List ℚ :=
  (intRange 0 (vcount szDst - 1)).foldl
    (fun d v =>
      if getT tysDst v = vtInactive then d
      else
        let V := vecIdx szDst v
        let sum := (restrBox szSrc V).foldl
          (fun s R =>
            let r := linIdx szSrc R
            if getT tysSrc r = vtInactive then s else s + pwgt R * getQ src r)
          0
        setQ d v sum)
    dst

/-- Core of `GridMg::interpolate(l_dst, src, dst)`: each non-inactive fine
vertex receives its interpolation weight times the sum of the non-inactive
coarse vertices of its candidate box. -/
def interpolateL (szDst szSrc : V3) (tysDst tysSrc : List VertexType)
    (src dst : List ℚ) : List ℚ :=
  (intRange 0 (vcount szDst - 1)).foldl
    (fun d v =>
      if getT tysDst v = vtInactive then d
      else
        let V := vecIdx szDst v
        let sum := (candBox V).foldl
          (fun s I =>
            let i := linIdx szSrc I
            if getT tysSrc i ≠ vtInactive then s + getQ src i else s)
          0
        setQ d v (pwgt V * sum))
    dst

/-! ## Coarsest-level solve (`GridMg::solveCG`) -/

/-- Working vectors and scalars of the CG iteration: solution, residual,
preconditioned residual `z` (`mCGtmp1`), search direction `p` (`mCGtmp2`),
and the scalar `alphaTop`. -/
structure CGItSt where
  x : List ℚ
  r : List ℚ
  z : List ℚ
  p : List ℚ
  alphaTop : ℚ

/-- Result of the CG initialization pass. -/
structure CGIn where
  x : List ℚ
  r : List ℚ
  z : List ℚ
  p : List ℚ
  alphaTop : ℚ
  initResSq : ℚ

/-- Application of one row of `A` to a vector (`z[v] += A[...] * p[n]` loops
of the CG iteration), diagonal included. -/
def rowApplyAt (is3D : Bool) (l : ℕ) (sz : V3) (A : List ℚ)
    (tys : List VertexType) (pp : List ℚ) (v : ℤ) : ℚ :=
  let V := vecIdx sz v
  if l = 0 then
    let s0 := sSz0 is3D
    let pch := pitchOf sz
    let base := (List.range (mgDim is3D).toNat).foldl
      (fun s d =>
        let s1 :=
          if 0 < V.idx d then
            s + getQ A ((v - pch.idx d) * s0 + d + 1) * getQ pp (v - pch.idx d)
          else s
        if V.idx d < sz.idx d - 1 then
          s1 + getQ A (v * s0 + d + 1) * getQ pp (v + pch.idx d)
        else s1)
      0
    base + getQ A (v * s0 + 0) * getQ pp v
  else
    let ssz := sSz is3D
    ((boxList (stMin is3D) (stMax is3D)).enum).foldl
      (fun s q =>
        let N := V + q.2
        let n := linIdx sz N
        if inGrid sz N ∧ getT tys n ≠ vtInactive then
          if (q.1 : ℤ) < ssz then s + getQ A (n * ssz + ssz - 1 - q.1) * getQ pp n
          else s + getQ A (v * ssz + q.1 - ssz + 1) * getQ pp n
        else s)
      0

/-- The initialization pass of `solveCG`: per non-inactive vertex, the sum
computed is exactly the residual expression of `calcResidual`; it seeds
`z`, `r`, `p`, `alphaTop` and the initial squared residual. -/
def cgInit (is3D : Bool) (l : ℕ) (sz : V3) (A : List ℚ) (tys : List VertexType)
    (bb : List ℚ) (x0 r0 z0 p0 : List ℚ) : CGIn :=
  (intRange 0 (vcount sz - 1)).foldl
    (fun acc v =>
      if getT tys v = vtInactive then acc
      else
        let sum := residualAt is3D l sz A tys bb acc.x v
        let diag :=
          if l = 0 then getQ A (v * sSz0 is3D + 0) else getQ A (v * sSz is3D + 0)
        let z1 := setQ acc.z v (sum / diag)
        { acc with
          z := z1
          r := setQ acc.r v sum
          initResSq := acc.initResSq + sum * sum
          p := setQ acc.p v (getQ z1 v)
          alphaTop := acc.alphaTop + sum * getQ z1 v })
    { x := x0, r := r0, z := z0, p := p0, alphaTop := 0, initResSq := 0 }

/-- Accumulator of the second CG half-iteration. -/
structure CGP2 where
  x : List ℚ
  r : List ℚ
  z : List ℚ
  resSq : ℚ
  aTopNew : ℚ

/-- First half-iteration of the CG loop: recompute `z := A p` over the
non-inactive vertices and accumulate `alphaBot = p . z`. -/
def cgIterPh1 (is3D : Bool) (l : ℕ) (sz : V3) (A : List ℚ) (tys : List VertexType)
    (s : CGItSt) : List ℚ × ℚ :=
  (intRange 0 (vcount sz - 1)).foldl
    (fun a v =>
      if getT tys v = vtInactive then a
      else
        let zv := rowApplyAt is3D l sz A tys s.p v
        (setQ a.1 v zv, a.2 + getQ s.p v * zv))
    (s.z, (0 : ℚ))

/-- Second half-iteration of the CG loop: update `x`, `r`, the Jacobi
preconditioned `z`, and accumulate the new squared residual and `alphaTop`. -/
def cgIterPh2 (is3D : Bool) (l : ℕ) (sz : V3) (A : List ℚ) (tys : List VertexType)
    (s : CGItSt) : CGP2 :=
  let ph1 := cgIterPh1 is3D l sz A tys s
  let alpha := s.alphaTop / ph1.2
  (intRange 0 (vcount sz - 1)).foldl
    (fun (a : CGP2) v =>
      if getT tys v = vtInactive then a
      else
        let xv := getQ a.x v + alpha * getQ s.p v
        let rv := getQ a.r v - alpha * getQ a.z v
        let diag :=
          if l = 0 then getQ A (v * sSz0 is3D + 0) else getQ A (v * sSz is3D + 0)
        let zv := rv / diag
        { x := setQ a.x v xv, r := setQ a.r v rv, z := setQ a.z v zv,
          resSq := a.resSq + rv * rv, aTopNew := a.aTopNew + rv * zv })
    { x := s.x, r := s.r, z := ph1.1, resSq := 0, aTopNew := 0 }

/-- One CG iteration. The source's termination test compares
`residual / initialResidual < accuracy` on square-rooted values; over exact
arithmetic this is equivalent to the squared comparison used here, including
the no-break behaviour when the initial residual is zero (where the source's
floating division yields NaN and the comparison is false). Returns the new
state and whether the `break` was taken. -/
def cgIter (is3D : Bool) (l : ℕ) (sz : V3) (A : List ℚ) (tys : List VertexType)
    (acc initResSq : ℚ) (s : CGItSt) : CGItSt × Bool :=
  let ph2 := cgIterPh2 is3D l sz A tys s
  if 0 < initResSq ∧ ph2.resSq < acc * acc * initResSq then
    ({ x := ph2.x, r := ph2.r, z := ph2.z, p := s.p, alphaTop := s.alphaTop }, true)
  else
    let beta := ph2.aTopNew / s.alphaTop
    let p1 := (intRange 0 (vcount sz - 1)).foldl
      (fun pl v => setQ pl v (getQ ph2.z v + beta * getQ pl v)) s.p
    ({ x := ph2.x, r := ph2.r, z := ph2.z, p := p1, alphaTop := ph2.aTopNew }, false)

/-- The CG iteration loop `for (; iter < maxIter; iter++)` with its `break`:
returns the final state and the final value of `iter`. -/
def cgLoop (is3D : Bool) (l : ℕ) (sz : V3) (A : List ℚ) (tys : List VertexType)
    (acc initResSq : ℚ) : ℕ → ℕ → CGItSt → CGItSt × ℕ
  | 0, iter, s => (s, iter)
  | fuel + 1, iter, s =>
    let it := cgIter is3D l sz A tys acc initResSq s
    if it.2 then (it.1, iter)
    else cgLoop is3D l sz A tys acc initResSq fuel (iter + 1) it.1

/-- The iteration cap `maxIter` of `solveCG`. -/
def cgMaxIter : ℕ := 10000

/-- State of the CG iteration after `k` full (non-breaking) iterations. -/
def cgTraj (is3D : Bool) (l : ℕ) (sz : V3) (A : List ℚ) (tys : List VertexType)
    (acc initResSq : ℚ) (s0 : CGItSt) : ℕ → CGItSt
  | 0 => s0
  | k + 1 => (cgIter is3D l sz A tys acc initResSq
      (cgTraj is3D l sz A tys acc initResSq s0 k)).1

/-- Whether the `break` of the CG loop fires at iteration `k`. -/
def cgBrk (is3D : Bool) (l : ℕ) (sz : V3) (A : List ℚ) (tys : List VertexType)
    (acc initResSq : ℚ) (s0 : CGItSt) (k : ℕ) : Bool :=
  (cgIter is3D l sz A tys acc initResSq
    (cgTraj is3D l sz A tys acc initResSq s0 k)).2

/-- Core of `GridMg::solveCG`: initialization followed by at most `maxIter`
iterations; returns the final vectors and the final iteration counter (the
source logs its cap warning exactly when that counter equals `maxIter`). -/
def solveCGCore (is3D : Bool) (l : ℕ) (sz : V3) (A : List ℚ)
    (tys : List VertexType) (bb : List ℚ) (x0 r0 z0 p0 : List ℚ)
    (acc : ℚ) : CGItSt × ℕ :=
  let ini := cgInit is3D l sz A tys bb x0 r0 z0 p0
  cgLoop is3D l sz A tys acc ini.initResSq cgMaxIter 0
    { x := ini.x, r := ini.r, z := ini.z, p := ini.p, alphaTop := ini.alphaTop }

/-- State update `GridMg::solveCG(l)`: writes `mx[l]`, `mr[l]` and the two
scratch vectors; returns the final iteration counter alongside. -/
def GridMg.solveCG (st : GridMg) (l : ℕ) : GridMg × ℕ :=
  let core := solveCGCore st.is3D l (st.sz l) (st.A.getD l []) (st.types.getD l [])
    (st.b.getD l []) (st.x.getD l []) (st.r.getD l []) (st.cgTmp1.getD l [])
    (st.cgTmp2.getD l []) st.coarsestLevelAccuracy
  ({ st with
      x := st.x.set l core.1.x
      r := st.r.set l core.1.r
      cgTmp1 := st.cgTmp1.set l core.1.z
      cgTmp2 := st.cgTmp2.set l core.1.p }, core.2)

/-- The initialization pass of `solveCG(l)` on the state's own vectors. -/
def GridMg.cgInitOf (st : GridMg) (l : ℕ) : CGIn :=
  cgInit st.is3D l (st.sz l) (st.A.getD l []) (st.types.getD l [])
    (st.b.getD l []) (st.x.getD l []) (st.r.getD l []) (st.cgTmp1.getD l [])
    (st.cgTmp2.getD l [])

/-- The CG iteration state entering the first iteration of `solveCG(l)`. -/
def GridMg.cgS0 (st : GridMg) (l : ℕ) : CGItSt :=
  { x := (st.cgInitOf l).x, r := (st.cgInitOf l).r, z := (st.cgInitOf l).z,
    p := (st.cgInitOf l).p, alphaTop := (st.cgInitOf l).alphaTop }

/-- The CG iteration state of `solveCG(l)` after `k` full iterations. -/
def GridMg.cgTrajOf (st : GridMg) (l : ℕ) (k : ℕ) : CGItSt :=
  cgTraj st.is3D l (st.sz l) (st.A.getD l []) (st.types.getD l [])
    st.coarsestLevelAccuracy (st.cgInitOf l).initResSq (st.cgS0 l) k

/-- Whether the CG `break` of `solveCG(l)` fires at iteration `k`. -/
def GridMg.cgBrkOf (st : GridMg) (l : ℕ) (k : ℕ) : Bool :=
  cgBrk st.is3D l (st.sz l) (st.A.getD l []) (st.types.getD l [])
    st.coarsestLevelAccuracy (st.cgInitOf l).initResSq (st.cgS0 l) k

/-! ## V-cycle orchestration (`GridMg::doVCycle`) -/

set_option maxHeartbeats 1000000 in
/-- Method `GridMg::doVCycle(dst, src)`: `none` models the entry assertion
abort when `setA` and `setRhs` have not both been (re)called; otherwise the
full cycle runs and the result is the new state, the copied-out finest
solution, and the squared finest residual norm (the source returns its
square root). -/
def GridMg.doVCycle (st : GridMg) (src : Option (List ℚ)) :
    Option (GridMg × List ℚ × ℚ) :=
  if ¬(st.isASet ∧ st.isRhsSet) then none
  else
    let maxLevel := st.sizes.length - 1
    let srcAt : ℤ → ℚ := fun v => match src with | some sg => getQ sg v | none => 0
    let x00 : List ℚ := (intRange 0 (st.nv 0 - 1)).foldl
      (fun xl v => setQ xl v (srcAt v)) (st.x.getD 0 [])
    let st0 : GridMg := { st with x := st.x.set 0 x00 }
    let stD := (List.range maxLevel).foldl
      (fun s l =>
        let sA := (List.range s.numPreSmooth).foldl (fun t _ => t.smoothGS l false) s
        let sB := sA.calcResidual l
        let newB := restrictL (sB.sz l) (sB.sz (l + 1)) (sB.types.getD l [])
          (sB.types.getD (l + 1) []) (sB.r.getD l []) (sB.b.getD (l + 1) [])
        let sC := { sB with b := sB.b.set (l + 1) newB }
        let x1 := (intRange 0 (sC.nv (l + 1) - 1)).foldl (fun xl v => setQ xl v 0)
          (sC.x.getD (l + 1) [])
        { sC with x := sC.x.set (l + 1) x1 })
      st0
    let stS := (stD.solveCG maxLevel).1
    let stU := (List.range maxLevel).foldl
      (fun s i =>
        let l := maxLevel - 1 - i
        let newR := interpolateL (s.sz l) (s.sz (l + 1)) (s.types.getD l [])
          (s.types.getD (l + 1) []) (s.x.getD (l + 1) []) (s.r.getD l [])
        let sA := { s with r := s.r.set l newR }
        let x1 := (intRange 0 (sA.nv l - 1)).foldl
          (fun xl v => setQ xl v (getQ xl v + getQ (sA.r.getD l []) v))
          (sA.x.getD l [])
        let sB := { sA with x := sA.x.set l x1 }
        (List.range sB.numPostSmooth).foldl (fun t _ => t.smoothGS l true) sB)
      stS
    let stR := stU.calcResidual 0
    let res := stR.calcResidualNormSq 0
    let dst := (intRange 0 (stR.nv 0 - 1)).map (fun v => getQ (stR.x.getD 0 []) v)
    some (stR, dst, res)

/-! ## Verification-side predicates -/

/-- Shape well-formedness of one level of a solver state: the level exists,
its extent is positive (with `z = 1` in 2D mode), and each per-vertex array
has the allocated length of the constructor. -/
def LvlWF (st : GridMg) (l : ℕ) : Prop :=
  l < st.sizes.length ∧
  l < st.types.length ∧ l < st.x.length ∧ l < st.b.length ∧ l < st.r.length ∧
  l < st.A.length ∧
  1 ≤ (st.sz l).x ∧ 1 ≤ (st.sz l).y ∧ 1 ≤ (st.sz l).z ∧
  (st.is3D = false → (st.sz l).z = 1) ∧
  (st.types.getD l []).length = (st.nv l).toNat ∧
  (st.x.getD l []).length = (st.nv l).toNat ∧
  (st.b.getD l []).length = (st.nv l).toNat ∧
  (st.r.getD l []).length = (st.nv l).toNat ∧
  (st.A.getD l []).length =
    ((st.nv l) * (if l = 0 then sSz0 st.is3D else sSz st.is3D)).toNat

instance (st : GridMg) (l : ℕ) : Decidable (LvlWF st l) := by
  unfold LvlWF
  infer_instance

/-- Claim-side predicate (C4): the supplied finest-level row of vertex `v` is
the canonical trivial equation, i.e. its diagonal is exactly 1 and its six
off-diagonal 7-point coefficients (the three stored ones and the three read
from the lower neighbours, which vanish at the lower grid boundaries) are
exactly 0. -/
def TrivialRowP (sz : V3) (A0 Ai Aj Ak : List ℚ) (v : ℤ) : Prop :=
  getQ A0 v = 1 ∧ getQ Ai v = 0 ∧ getQ Aj v = 0 ∧ getQ Ak v = 0 ∧
  (0 < (vecIdx sz v).x → getQ Ai (v - 1) = 0) ∧
  (0 < (vecIdx sz v).y → getQ Aj (v - sz.x) = 0) ∧
  (0 < (vecIdx sz v).z → getQ Ak (v - sz.x * sz.y) = 0)

instance (sz : V3) (A0 Ai Aj Ak : List ℚ) (v : ℤ) :
    Decidable (TrivialRowP sz A0 Ai Aj Ak v) := by
  unfold TrivialRowP
  infer_instance

/-- Concrete witness state: the solver on a 2 x 2 x 2 finest grid (3D mode,
one level). -/
def exSt : GridMg := GridMg.make ⟨2, 2, 2⟩

/-- Witness diagonal coefficients: vertex 0 carries the canonical trivial
equation, vertex 1 a plain nonzero diagonal, the rest are inactive. -/
def exA0 : List ℚ := [1, 2, 0, 0, 0, 0, 0, 0]

/-- Witness zero array (all off-diagonal coefficient grids). -/
def exZ : List ℚ := List.replicate 8 0

/-- Witness right-hand side. -/
def exRhs : List ℚ := List.replicate 8 5

/-- The stencil offset box (claim side): all offsets of the symmetric stencil,
from `mStencilMin` to `mStencilMax`, in scan order. -/
def stencilCells (is3D : Bool) : List V3 := boxList (stMin is3D) (stMax is3D)

/-- Claim-side accessor for the stored symmetric operator entry relating row
vertex `v` (at coordinate `V`) to the neighbour at offset `S`: on level 0 the
7-point row (entries toward decreasing coordinates recovered from the lower
neighbour's storage), on coarser levels the compressed 27-point row (entries
with stencil index below `mStencilSize` recovered from the neighbour's
storage). -/
def rawEntry (is3D : Bool) (l : ℕ) (sz : V3) (A : List ℚ) (v : ℤ) (V S : V3) : ℚ :=
  if l = 0 then
    let s0 := sSz0 is3D
    if S = ⟨0, 0, 0⟩ then getQ A (v * s0)
    else if S = ⟨1, 0, 0⟩ then getQ A (v * s0 + 1)
    else if S = ⟨-1, 0, 0⟩ then getQ A (linIdx sz (V + S) * s0 + 1)
    else if S = ⟨0, 1, 0⟩ then getQ A (v * s0 + 2)
    else if S = ⟨0, -1, 0⟩ then getQ A (linIdx sz (V + S) * s0 + 2)
    else if S = ⟨0, 0, 1⟩ then getQ A (v * s0 + 3)
    else if S = ⟨0, 0, -1⟩ then getQ A (linIdx sz (V + S) * s0 + 3)
    else 0
  else
    let ssz := sSz is3D
    let s := (S + stMax is3D).dot ⟨1, 3, 9⟩
    if s < ssz then getQ A (linIdx sz (V + S) * ssz + ssz - 1 - s)
    else getQ A (v * ssz + s - ssz + 1)

/-- Claim-side residual formula: `b_v` minus the sum, over all stencil
neighbours of `v` that are inside the grid (and, on levels above 0, not
inactive), of the stored operator entry times the solution value. -/
def residualSpec (is3D : Bool) (l : ℕ) (sz : V3) (A : List ℚ)
    (tys : List VertexType) (bb xx : List ℚ) (v : ℤ) : ℚ :=
  getQ bb v -
    ((stencilCells is3D).map (fun S =>
      if inGrid sz (vecIdx sz v + S) ∧
          (l = 0 ∨ getT tys (linIdx sz (vecIdx sz v + S)) ≠ vtInactive) then
        rawEntry is3D l sz A v (vecIdx sz v) S * getQ xx (linIdx sz (vecIdx sz v + S))
      else 0)).sum

/-- Claim-side squared residual norm: the sum of squared residual entries
over the non-inactive vertices only. -/
def normSqSpec (sz : V3) (tys : List VertexType) (rr : List ℚ) : ℚ :=
  ((intRange 0 (vcount sz - 1)).map
    (fun v => if getT tys v = vtInactive then 0 else getQ rr v * getQ rr v)).sum

/-- Concrete state for the C6 counterexample and witness: a one-level 2x2x2
grid whose vertex 0 is inactive and carries a stale residual value 9; all
other vertices are active with identity diagonal. -/
def exSt6 : GridMg :=
  { is3D := true
    sizes := [⟨2, 2, 2⟩]
    A := [[1, 0, 0, 0, 1, 0, 0, 0, 1, 0, 0, 0, 1, 0, 0, 0,
           1, 0, 0, 0, 1, 0, 0, 0, 1, 0, 0, 0, 1, 0, 0, 0]]
    x := [List.replicate 8 0]
    b := [List.replicate 8 1]
    r := [[9, 9, 9, 9, 9, 9, 9, 9]]
    types := [[vtInactive, vtActive, vtActive, vtActive,
               vtActive, vtActive, vtActive, vtActive]]
    cgTmp1 := [List.replicate 8 0]
    cgTmp2 := [List.replicate 8 0]
    numPreSmooth := 1
    numPostSmooth := 1
    coarsestLevelAccuracy := 1 / 100000000
    trivialEquationScale := 1 / 1000000
    isASet := true
    isRhsSet := true
    coarseningPaths0 := [] }

/-! # Theorems

General helper lemmas about the array and range primitives, followed by the
per-claim verification results. -/

theorem tdiv2_of_nonneg (a : ℤ) (h : 0 ≤ a) : a.tdiv 2 = a / 2 := by
  rw [Int.tdiv_eq_ediv] <;> omega

theorem tmod2_of_nonneg (a : ℤ) (h : 0 ≤ a) : a.tmod 2 = a % 2 := by
  rw [Int.tmod_eq_emod] <;> omega

theorem mem_intRange (lo hi i : ℤ) : i ∈ intRange lo hi ↔ lo ≤ i ∧ i ≤ hi := by
  unfold intRange
  simp only [List.mem_map, List.mem_range]
  constructor
  · rintro ⟨k, hk, rfl⟩
    omega
  · intro h
    exact ⟨(i - lo).toNat, by omega, by omega⟩

theorem getQ_setQ_self (L : List ℚ) (i : ℤ) (q : ℚ) (h0 : 0 ≤ i)
    (hl : i.toNat < L.length) : getQ (setQ L i q) i = q := by
  unfold getQ setQ
  simp [h0, List.getD, List.getElem?_set, hl]

theorem getQ_setQ_ne (L : List ℚ) (i j : ℤ) (q : ℚ) (h : i ≠ j) :
    getQ (setQ L i q) j = getQ L j := by
  unfold getQ setQ
  by_cases h0 : 0 ≤ i
  · by_cases h1 : 0 ≤ j
    · have : i.toNat ≠ j.toNat := by omega
      simp [h0, h1, List.getD, List.getElem?_set, this]
    · simp [h0, h1]
  · simp [h0]

theorem setQ_length (L : List ℚ) (i : ℤ) (q : ℚ) : (setQ L i q).length = L.length := by
  unfold setQ
  by_cases h0 : 0 ≤ i <;> simp [h0]

theorem getT_setT_self (L : List VertexType) (i : ℤ) (t : VertexType) (h0 : 0 ≤ i)
    (hl : i.toNat < L.length) : getT (setT L i t) i = t := by
  unfold getT setT
  simp [h0, List.getD, List.getElem?_set, hl]

theorem getT_setT_ne (L : List VertexType) (i j : ℤ) (t : VertexType) (h : i ≠ j) :
    getT (setT L i t) j = getT L j := by
  unfold getT setT
  by_cases h0 : 0 ≤ i
  · by_cases h1 : 0 ≤ j
    · have : i.toNat ≠ j.toNat := by omega
      simp [h0, h1, List.getD, List.getElem?_set, this]
    · simp [h0, h1]
  · simp [h0]

theorem setT_length (L : List VertexType) (i : ℤ) (t : VertexType) :
    (setT L i t).length = L.length := by
  unfold setT
  by_cases h0 : 0 ≤ i <;> simp [h0]

theorem intRange_cons (lo hi : ℤ) (h : lo ≤ hi) :
    intRange lo hi = lo :: intRange (lo + 1) hi := by
  unfold intRange
  have h1 : (hi + 1 - lo).toNat = (hi + 1 - (lo + 1)).toNat + 1 := by omega
  rw [h1, List.range_succ_eq_map]
  simp only [List.map_cons, List.map_map, Nat.cast_zero, add_zero]
  have h2 : ((fun i : ℕ => lo + (i : ℤ)) ∘ Nat.succ) = (fun i : ℕ => lo + 1 + (i : ℤ)) := by
    funext i
    simp only [Function.comp_apply, Nat.cast_succ]
    ring
  rw [h2]

theorem intRange_append (lo m hi : ℤ) (h1 : lo - 1 ≤ m) (h2 : m ≤ hi) :
    intRange lo hi = intRange lo m ++ intRange (m + 1) hi := by
  unfold intRange
  have h3 : (hi + 1 - lo).toNat = (m + 1 - lo).toNat + (hi - m).toNat := by omega
  rw [h3, List.range_add, List.map_append, List.map_map]
  have h4 : ((fun i : ℕ => lo + (i : ℤ)) ∘ (fun i : ℕ => (m + 1 - lo).toNat + i)) =
      (fun i : ℕ => m + 1 + (i : ℤ)) := by
    funext i
    simp only [Function.comp_apply]
    have : (((m + 1 - lo).toNat + i : ℕ) : ℤ) = (m + 1 - lo) + (i : ℤ) := by omega
    rw [this]
    ring
  rw [h4]
  have h5 : (hi - m).toNat = (hi + 1 - (m + 1)).toNat := by omega
  rw [h5]

theorem intRange_split (lo hi v : ℤ) (h1 : lo ≤ v) (h2 : v ≤ hi) :
    intRange lo hi = intRange lo (v - 1) ++ v :: intRange (v + 1) hi := by
  rw [intRange_append lo (v - 1) hi (by omega) (by omega)]
  have h3 : v - 1 + 1 = v := by omega
  rw [h3, intRange_cons v hi h2]

/-- Fold frame lemma: a fold whose every step preserves the value of an
observation `f` preserves it overall. -/
theorem foldl_preserves {α β γ : Type} (f : β → γ) (step : β → α → β) (l : List α)
    (b0 : β) (h : ∀ b a, a ∈ l → f (step b a) = f b) : f (l.foldl step b0) = f b0 := by
  induction l generalizing b0 with
  | nil => rfl
  | cons hd tl ih =>
    rw [List.foldl_cons, ih _ (fun b a ha => h b a (List.mem_cons_of_mem hd ha)),
      h b0 hd (List.mem_cons_self hd tl)]

/-- Last-write lemma: in a fold over a list split as `l1 ++ w :: l2` where the
steps of `l2` do not change the observation `f`, the final observation is the
one right after the step at `w`. -/
theorem foldl_last_write {α β γ : Type} (f : β → γ) (step : β → α → β)
    (l₁ l₂ : List α) (w : α) (b0 : β)
    (h₂ : ∀ b v, v ∈ l₂ → f (step b v) = f b) :
    f ((l₁ ++ w :: l₂).foldl step b0) = f (step (l₁.foldl step b0) w) := by
  rw [List.foldl_append, List.foldl_cons]
  exact foldl_preserves f step l₂ _ h₂

/-- Generic variant of `getD` stability under `set` at a different index. -/
theorem getD_set_ne {α : Type} (L : List α) (i j : ℕ) (a d : α) (h : i ≠ j) :
    (L.set i a).getD j d = L.getD j d := by
  simp [List.getD, List.getElem?_set, h]

/-! ## Claim C2: deterministic level hierarchy -/

theorem buildSizesAux_consec (fuel : ℕ) (s : V3) (l : ℕ)
    (h : l + 1 < (s :: buildSizesAux fuel s).length) :
    (s :: buildSizesAux fuel s).getD (l + 1) default =
      nextSize ((s :: buildSizesAux fuel s).getD l default) := by
  induction fuel generalizing s l with
  | zero => simp [buildSizesAux] at h
  | succ fuel ih =>
    unfold buildSizesAux at h ⊢
    by_cases h5 : s.x ≤ 5 ∧ s.y ≤ 5 ∧ s.z ≤ 5
    · simp [h5] at h
    · by_cases hn : vcount s ≤ 1000
      · simp [h5, hn] at h
      · simp only [h5, hn, if_false] at h ⊢
        cases l with
        | zero => rfl
        | succ l =>
          have := ih (nextSize s) l (by simpa using h)
          simpa using this

theorem buildSizesAux_nostop (fuel : ℕ) (s : V3) (l : ℕ)
    (h : l + 1 < (s :: buildSizesAux fuel s).length) :
    ¬stopLevelGen ((s :: buildSizesAux fuel s).getD l default) := by
  induction fuel generalizing s l with
  | zero => simp [buildSizesAux] at h
  | succ fuel ih =>
    unfold buildSizesAux at h ⊢
    by_cases h5 : s.x ≤ 5 ∧ s.y ≤ 5 ∧ s.z ≤ 5
    · simp [h5] at h
    · by_cases hn : vcount s ≤ 1000
      · simp [h5, hn] at h
      · simp only [h5, hn, if_false] at h ⊢
        cases l with
        | zero =>
          intro hstop
          rcases hstop with h1 | h2
          · exact h5 h1
          · exact hn h2
        | succ l =>
          have := ih (nextSize s) l (by simpa using h)
          simpa using this

theorem nextSize_bounds (s : V3) (k : ℕ) (h1 : 1 ≤ s.x ∧ 1 ≤ s.y ∧ 1 ≤ s.z)
    (hb : s.x ≤ 2 ^ (k + 1) + 4 ∧ s.y ≤ 2 ^ (k + 1) + 4 ∧ s.z ≤ 2 ^ (k + 1) + 4) :
    (1 ≤ (nextSize s).x ∧ 1 ≤ (nextSize s).y ∧ 1 ≤ (nextSize s).z) ∧
    ((nextSize s).x ≤ 2 ^ k + 4 ∧ (nextSize s).y ≤ 2 ^ k + 4 ∧ (nextSize s).z ≤ 2 ^ k + 4) := by
  have hx := tdiv2_of_nonneg (s.x + 2) (by omega)
  have hy := tdiv2_of_nonneg (s.y + 2) (by omega)
  have hz := tdiv2_of_nonneg (s.z + 2) (by omega)
  unfold nextSize V3.pl V3.half
  simp only [hx, hy, hz]
  have h2 : (0 : ℤ) < 2 ^ k := pow_pos (by norm_num) k
  have h3 : (2 : ℤ) ^ (k + 1) = 2 ^ k + 2 ^ k := by ring
  constructor
  · constructor
    · omega
    constructor
    · omega
    · omega
  · constructor
    · omega
    constructor
    · omega
    · omega

theorem buildSizesAux_laststop (fuel : ℕ) (s : V3)
    (h1 : 1 ≤ s.x ∧ 1 ≤ s.y ∧ 1 ≤ s.z)
    (hb : s.x ≤ 2 ^ fuel + 4 ∧ s.y ≤ 2 ^ fuel + 4 ∧ s.z ≤ 2 ^ fuel + 4) :
    stopLevelGen ((s :: buildSizesAux fuel s).getD
      ((s :: buildSizesAux fuel s).length - 1) default) := by
  induction fuel generalizing s with
  | zero =>
    simp only [pow_zero] at hb
    show stopLevelGen (([s] : List V3).getD (([s] : List V3).length - 1) default)
    have he : ([s] : List V3).getD (([s] : List V3).length - 1) default = s := rfl
    rw [he]
    exact Or.inl (by omega)
  | succ fuel ih =>
    by_cases h5 : s.x ≤ 5 ∧ s.y ≤ 5 ∧ s.z ≤ 5
    · have hx : s :: buildSizesAux (fuel + 1) s = [s] := by
        unfold buildSizesAux
        simp [h5]
      rw [hx]
      exact Or.inl h5
    · by_cases hn : vcount s ≤ 1000
      · have hx : s :: buildSizesAux (fuel + 1) s = [s] := by
          unfold buildSizesAux
          simp [h5, hn]
        rw [hx]
        exact Or.inr hn
      · have hx : s :: buildSizesAux (fuel + 1) s =
            s :: nextSize s :: buildSizesAux fuel (nextSize s) := by
          rw [buildSizesAux]
          simp [h5, hn]
        rw [hx]
        have hnb := nextSize_bounds s fuel h1 hb
        have := ih (nextSize s) hnb.1 hnb.2
        simpa using this

/-- Claim C2 counterexample: for the finest extent 11 x 11 x 11, the level-1
extent produced by the constructor is 6 per dimension, while the claim's
formula ceil(11/2) + 1 gives 7. -/
theorem claim_C2_counterexample :
    (buildSizes ⟨11, 11, 11⟩).getD 1 default = ⟨6, 6, 6⟩ ∧
    ceilHalfPlusOne ((buildSizes ⟨11, 11, 11⟩).getD 0 default).x = 7 := by
  constructor
  · rfl
  · rfl

/-- Claim C2 (amended): for every finest extent with dimensions in [1, 2^31],
the hierarchy is deterministic, each dimension of the extent at level l>0
equals floor(extent[l-1]/2) + 1 (the ceiling formula of the original claim
overshoots by one on odd extents), no coarser level is generated once the
most recently created level has every dimension at most 5 or at most 1000
vertices, and the last generated level satisfies that stopping condition. -/
theorem claim_C2_hierarchy (g : V3)
    (h1 : 1 ≤ g.x ∧ 1 ≤ g.y ∧ 1 ≤ g.z)
    (h2 : g.x ≤ 2 ^ 31 ∧ g.y ≤ 2 ^ 31 ∧ g.z ≤ 2 ^ 31) :
    (∀ l, l + 1 < (buildSizes g).length →
      (buildSizes g).getD (l + 1) default = nextSize ((buildSizes g).getD l default) ∧
      ¬stopLevelGen ((buildSizes g).getD l default)) ∧
    stopLevelGen ((buildSizes g).getD ((buildSizes g).length - 1) default) := by
  constructor
  · intro l hl
    exact ⟨buildSizesAux_consec 100 g l hl, buildSizesAux_nostop 100 g l hl⟩
  · apply buildSizesAux_laststop 100 g h1
    have : (2 : ℤ) ^ 31 ≤ 2 ^ 100 := by norm_num
    omega

/-- Witness for C2: the 64 x 64 x 64 finest grid of the spec's test sentence;
its schedule is 64, 33, 17, 9 per dimension, each step floor-halved plus one,
stopping at 9^3 = 729 vertices. -/
theorem claim_C2_hierarchy_witness :
    ((1 : ℤ) ≤ 64 ∧ (1 : ℤ) ≤ 64 ∧ (1 : ℤ) ≤ 64) ∧
    ((∀ l, l + 1 < (buildSizes ⟨64, 64, 64⟩).length →
      (buildSizes ⟨64, 64, 64⟩).getD (l + 1) default =
        nextSize ((buildSizes ⟨64, 64, 64⟩).getD l default) ∧
      ¬stopLevelGen ((buildSizes ⟨64, 64, 64⟩).getD l default)) ∧
    stopLevelGen ((buildSizes ⟨64, 64, 64⟩).getD
      ((buildSizes ⟨64, 64, 64⟩).length - 1) default)) :=
  ⟨by norm_num, claim_C2_hierarchy ⟨64, 64, 64⟩ (by norm_num) (by norm_num)⟩

/-! ## Claim C4: classification and trivial-row scaling in setA / setRhs -/

theorem copyA0Step_length (A0 Ai Aj Ak : List ℚ) (a : List ℚ) (v : ℤ) :
    (copyA0Step true A0 Ai Aj Ak a v).length = a.length := by
  unfold copyA0Step
  rw [setQ_length, setQ_length, setQ_length, setQ_length]

theorem copyA0Step_getQ_ne (A0 Ai Aj Ak : List ℚ) (a : List ℚ) (v j : ℤ)
    (h : j < v * 4 ∨ v * 4 + 3 < j) :
    getQ (copyA0Step true A0 Ai Aj Ak a v) j = getQ a j := by
  unfold copyA0Step
  have h4 : sSz0 true = 4 := rfl
  rw [h4]
  rw [getQ_setQ_ne _ _ _ _ (by omega), getQ_setQ_ne _ _ _ _ (by omega),
    getQ_setQ_ne _ _ _ _ (by omega), getQ_setQ_ne _ _ _ _ (by omega)]

theorem copyA0_length (n : ℤ) (A0 Ai Aj Ak : List ℚ) (a0 : List ℚ) :
    (copyA0 true n A0 Ai Aj Ak a0).length = a0.length := by
  unfold copyA0
  exact foldl_preserves List.length _ _ a0 (fun a v _ => copyA0Step_length A0 Ai Aj Ak a v)

theorem copyA0Step_getQ_at (A0 Ai Aj Ak a : List ℚ) (v k : ℤ) (hk0 : 0 ≤ k) (hk3 : k ≤ 3)
    (hv0 : 0 ≤ v) (hlen : (v * 4 + 3).toNat < a.length) :
    getQ (copyA0Step true A0 Ai Aj Ak a v) (v * 4 + k) =
      (if k = 0 then getQ A0 v else if k = 1 then getQ Ai v
       else if k = 2 then getQ Aj v else getQ Ak v) := by
  unfold copyA0Step
  have h4 : sSz0 true = 4 := rfl
  rw [h4]
  by_cases hk : k = 3
  · subst hk
    rw [getQ_setQ_self _ _ _ (by omega)
      (by rw [setQ_length, setQ_length, setQ_length]; omega)]
    norm_num
  · rw [getQ_setQ_ne _ _ _ _ (by omega)]
    by_cases hk2 : k = 2
    · subst hk2
      rw [getQ_setQ_self _ _ _ (by omega) (by rw [setQ_length, setQ_length]; omega)]
      norm_num
    · rw [getQ_setQ_ne _ _ _ _ (by omega)]
      by_cases hk1 : k = 1
      · subst hk1
        rw [getQ_setQ_self _ _ _ (by omega) (by rw [setQ_length]; omega)]
        norm_num
      · have hk0' : k = 0 := by omega
        subst hk0'
        rw [getQ_setQ_ne _ _ _ _ (by omega),
          getQ_setQ_self _ _ _ (by omega) (by omega)]
        norm_num

theorem copyA0_at3 (n : ℤ) (A0 Ai Aj Ak a0 : List ℚ) (hlen : a0.length = (n * 4).toNat)
    (v : ℤ) (hv0 : 0 ≤ v) (hvn : v < n) (k : ℤ) (hk0 : 0 ≤ k) (hk3 : k ≤ 3) :
    getQ (copyA0 true n A0 Ai Aj Ak a0) (v * 4 + k) =
      (if k = 0 then getQ A0 v else if k = 1 then getQ Ai v
       else if k = 2 then getQ Aj v else getQ Ak v) := by
  unfold copyA0
  rw [intRange_split 0 (n - 1) v hv0 (by omega)]
  rw [foldl_last_write (f := fun a => getQ a (v * 4 + k))
    (copyA0Step true A0 Ai Aj Ak) _ _ _ a0 ?later]
  case later =>
    intro a w hw
    rw [mem_intRange] at hw
    exact copyA0Step_getQ_ne A0 Ai Aj Ak a w (v * 4 + k) (by omega)
  have hplen : ((intRange 0 (v - 1)).foldl (copyA0Step true A0 Ai Aj Ak) a0).length =
      (n * 4).toNat := by
    rw [foldl_preserves List.length _ _ a0 (fun a w _ => copyA0Step_length A0 Ai Aj Ak a w)]
    exact hlen
  exact copyA0Step_getQ_at A0 Ai Aj Ak _ v k hk0 hk3 hv0 (by rw [hplen]; omega)

theorem sSz0_3d : sSz0 true = 4 := rfl

theorem sSz_3d : sSz true = 14 := rfl

theorem mgDim_3d : mgDim true = 3 := rfl

theorem classifyStep_getQ_ne (sz : V3) (scale : ℚ) (acc : List ℚ × List VertexType)
    (v j : ℤ) (h : j ≠ v * 4) :
    getQ (classifyStep true sz scale acc v).1 j = getQ acc.1 j := by
  unfold classifyStep
  simp only [sSz0_3d, add_zero]
  split
  · split
    · exact getQ_setQ_ne _ _ _ _ (fun he => h he.symm)
    · rfl
  · rfl

theorem classifyStep_getT_ne (sz : V3) (scale : ℚ) (acc : List ℚ × List VertexType)
    (v j : ℤ) (h : j ≠ v) :
    getT (classifyStep true sz scale acc v).2 j = getT acc.2 j := by
  unfold classifyStep
  simp only [sSz0_3d, add_zero]
  split
  · split
    · exact getT_setT_ne _ _ _ _ (fun he => h he.symm)
    · exact getT_setT_ne _ _ _ _ (fun he => h he.symm)
  · exact getT_setT_ne _ _ _ _ (fun he => h he.symm)

theorem classifyStep_lengths (sz : V3) (scale : ℚ) (acc : List ℚ × List VertexType)
    (v : ℤ) :
    (classifyStep true sz scale acc v).1.length = acc.1.length ∧
    (classifyStep true sz scale acc v).2.length = acc.2.length := by
  unfold classifyStep
  simp only [sSz0_3d, add_zero]
  split
  · split
    · exact ⟨setQ_length _ _ _, setT_length _ _ _⟩
    · exact ⟨rfl, setT_length _ _ _⟩
  · exact ⟨rfl, setT_length _ _ _⟩

theorem analyzeStencil_congr (sz : V3) (a a' : List ℚ) (v : ℤ)
    (h0 : getQ a (v * 4 + 0) = getQ a' (v * 4 + 0))
    (h1 : getQ a (v * 4 + 1) = getQ a' (v * 4 + 1))
    (h2 : getQ a (v * 4 + 2) = getQ a' (v * 4 + 2))
    (h3 : getQ a (v * 4 + 3) = getQ a' (v * 4 + 3))
    (h4 : getQ a ((v - 1) * 4 + 1) = getQ a' ((v - 1) * 4 + 1))
    (h5 : getQ a ((v - sz.x) * 4 + 2) = getQ a' ((v - sz.x) * 4 + 2))
    (h6 : getQ a ((v - sz.x * sz.y) * 4 + 3) = getQ a' ((v - sz.x * sz.y) * 4 + 3)) :
    analyzeStencil true sz a v = analyzeStencil true sz a' v := by
  unfold analyzeStencil
  simp only [sSz0, pitchOf, if_true, h0, h1, h2, h3, h4, h5, h6]

theorem classifyStep_at (sz : V3) (scale : ℚ) (acc : List ℚ × List VertexType) (v : ℤ)
    (hv0 : 0 ≤ v) (hlt1 : (v * 4).toNat < acc.1.length) (hlt2 : v.toNat < acc.2.length) :
    getT (classifyStep true sz scale acc v).2 v =
      (if getQ acc.1 (v * 4) = 0 then vtInactive
       else if (analyzeStencil true sz acc.1 v).2 then vtActiveTrivial else vtActive) ∧
    getQ (classifyStep true sz scale acc v).1 (v * 4) =
      (if getQ acc.1 (v * 4) ≠ 0 ∧ (analyzeStencil true sz acc.1 v).2 = true
       then getQ acc.1 (v * 4) * scale else getQ acc.1 (v * 4)) := by
  unfold classifyStep
  simp only [sSz0_3d, add_zero]
  by_cases hd : getQ acc.1 (v * 4) = 0
  · rw [if_neg (by simp [hd]), if_pos hd, if_neg (by simp [hd])]
    exact ⟨getT_setT_self _ _ _ hv0 hlt2, rfl⟩
  · rw [if_pos hd, if_neg hd]
    by_cases htr : (analyzeStencil true sz acc.1 v).2 = true
    · rw [if_pos htr, if_pos htr, if_pos ⟨hd, htr⟩]
      exact ⟨getT_setT_self _ _ _ hv0 hlt2, getQ_setQ_self _ _ _ (by omega) hlt1⟩
    · rw [if_neg htr, if_neg htr, if_neg (by simp [htr])]
      exact ⟨getT_setT_self _ _ _ hv0 hlt2, rfl⟩

theorem setAClassify_at3 (sz : V3) (scale : ℚ) (cA : List ℚ) (t0 : List VertexType)
    (ht : t0.length = (vcount sz).toNat) (v : ℤ) (hv0 : 0 ≤ v) (hvn : v < vcount sz)
    (hAlen : (v * 4 + 3).toNat < cA.length) :
    getT (setAClassify true sz scale cA t0).2 v =
      (if getQ cA (v * 4) = 0 then vtInactive
       else if (analyzeStencil true sz cA v).2 then vtActiveTrivial else vtActive) ∧
    getQ (setAClassify true sz scale cA t0).1 (v * 4) =
      (if getQ cA (v * 4) ≠ 0 ∧ (analyzeStencil true sz cA v).2 = true
       then getQ cA (v * 4) * scale else getQ cA (v * 4)) := by
  unfold setAClassify
  rw [intRange_split 0 (vcount sz - 1) v hv0 (by omega)]
  have hpresQ : ∀ j : ℤ, (∀ w : ℤ, 0 ≤ w → w ≤ v - 1 → j ≠ w * 4) →
      getQ ((intRange 0 (v - 1)).foldl (classifyStep true sz scale) (cA, t0)).1 j =
        getQ cA j := by
    intro j hj
    exact foldl_preserves (f := fun acc => getQ acc.1 j)
      (classifyStep true sz scale) (intRange 0 (v - 1)) (cA, t0)
      (fun acc w hw => by
        rw [mem_intRange] at hw
        exact classifyStep_getQ_ne sz scale acc w j (hj w hw.1 hw.2))
  have hlens : ((intRange 0 (v - 1)).foldl (classifyStep true sz scale) (cA, t0)).1.length =
      cA.length ∧
      ((intRange 0 (v - 1)).foldl (classifyStep true sz scale) (cA, t0)).2.length =
      t0.length := by
    have := foldl_preserves (f := fun acc => (acc.1.length, acc.2.length))
      (classifyStep true sz scale) (intRange 0 (v - 1)) (cA, t0)
      (fun acc w _ => by
        have hl := classifyStep_lengths sz scale acc w
        exact Prod.ext hl.1 hl.2)
    exact ⟨congrArg Prod.fst this, congrArg Prod.snd this⟩
  have hdiag : getQ ((intRange 0 (v - 1)).foldl (classifyStep true sz scale) (cA, t0)).1
      (v * 4) = getQ cA (v * 4) := hpresQ (v * 4) (fun w hw1 hw2 => by omega)
  have han : analyzeStencil true sz
      ((intRange 0 (v - 1)).foldl (classifyStep true sz scale) (cA, t0)).1 v =
      analyzeStencil true sz cA v := by
    apply analyzeStencil_congr
    · exact hpresQ (v * 4 + 0) (fun w hw1 hw2 => by omega)
    · exact hpresQ (v * 4 + 1) (fun w hw1 hw2 => by omega)
    · exact hpresQ (v * 4 + 2) (fun w hw1 hw2 => by omega)
    · exact hpresQ (v * 4 + 3) (fun w hw1 hw2 => by omega)
    · exact hpresQ ((v - 1) * 4 + 1) (fun w hw1 hw2 => by omega)
    · exact hpresQ ((v - sz.x) * 4 + 2) (fun w hw1 hw2 => by omega)
    · exact hpresQ ((v - sz.x * sz.y) * 4 + 3) (fun w hw1 hw2 => by omega)
  have hstep := classifyStep_at sz scale
    ((intRange 0 (v - 1)).foldl (classifyStep true sz scale) (cA, t0)) v hv0
    (by rw [hlens.1]; omega) (by rw [hlens.2, ht]; omega)
  constructor
  · rw [foldl_last_write (f := fun acc => getT acc.2 v)
      (classifyStep true sz scale) _ _ _ (cA, t0)
      (fun acc w hw => by
        rw [mem_intRange] at hw
        exact classifyStep_getT_ne sz scale acc w v (by omega))]
    rw [hstep.1, hdiag, han]
  · rw [foldl_last_write (f := fun acc => getQ acc.1 (v * 4))
      (classifyStep true sz scale) _ _ _ (cA, t0)
      (fun acc w hw => by
        rw [mem_intRange] at hw
        exact classifyStep_getQ_ne sz scale acc w (v * 4) (by omega))]
    rw [hstep.2, hdiag, han]

theorem tmodE (a b : ℤ) (ha : 0 ≤ a) (hb : 0 ≤ b) : a.tmod b = a % b := by
  rw [Int.tmod_eq_emod] <;> omega

theorem tdivE (a b : ℤ) (ha : 0 ≤ a) (hb : 0 ≤ b) : a.tdiv b = a / b := by
  rw [Int.tdiv_eq_ediv] <;> omega

theorem vecIdx_nonneg (sz : V3) (v : ℤ) (hv : 0 ≤ v)
    (hx : 1 ≤ sz.x) (hy : 1 ≤ sz.y) :
    0 ≤ (vecIdx sz v).x ∧ 0 ≤ (vecIdx sz v).y ∧ 0 ≤ (vecIdx sz v).z := by
  have hxy : (0 : ℤ) < sz.x * sz.y := by positivity
  refine ⟨?_, ?_, ?_⟩
  · show 0 ≤ v.tmod sz.x
    rw [tmodE v sz.x hv (by omega)]
    exact Int.emod_nonneg v (by omega)
  · show 0 ≤ (v.tdiv sz.x).tmod sz.y
    rw [tdivE v sz.x hv (by omega),
      tmodE _ sz.y (Int.ediv_nonneg hv (by omega)) (by omega)]
    exact Int.emod_nonneg _ (by omega)
  · show 0 ≤ v.tdiv (sz.x * sz.y)
    rw [tdivE v (sz.x * sz.y) hv (by omega)]
    exact Int.ediv_nonneg hv (by omega)

theorem vecIdx_x_pos (sz : V3) (v : ℤ) (hv : 0 ≤ v) (hx : 1 ≤ sz.x) :
    0 < (vecIdx sz v).x → 1 ≤ v := by
  intro h
  by_contra hc
  have hv0 : v = 0 := by omega
  rw [hv0] at h
  have hz : (vecIdx sz 0).x = 0 := by
    show Int.tmod 0 sz.x = 0
    rw [tmodE 0 sz.x le_rfl (by omega), Int.zero_emod]
  omega

theorem vecIdx_y_pos (sz : V3) (v : ℤ) (hv : 0 ≤ v) (hx : 1 ≤ sz.x) (hy : 1 ≤ sz.y) :
    0 < (vecIdx sz v).y → sz.x ≤ v := by
  have hproj : (vecIdx sz v).y = (v.tdiv sz.x).tmod sz.y := rfl
  rw [hproj, tdivE v sz.x hv (by omega),
    tmodE _ sz.y (Int.ediv_nonneg hv (by omega)) (by omega)]
  intro h
  have hq : 1 ≤ v / sz.x := by
    by_contra hc
    have h0 : 0 ≤ v / sz.x := Int.ediv_nonneg hv (by omega)
    have he : v / sz.x = 0 := by omega
    rw [he] at h
    simp at h
  have := (Int.le_ediv_iff_mul_le (by omega : (0 : ℤ) < sz.x)).mp hq
  omega

theorem vecIdx_z_pos (sz : V3) (v : ℤ) (hv : 0 ≤ v) (hx : 1 ≤ sz.x) (hy : 1 ≤ sz.y) :
    0 < (vecIdx sz v).z → sz.x * sz.y ≤ v := by
  have hxy : (0 : ℤ) < sz.x * sz.y := by positivity
  have hproj : (vecIdx sz v).z = v.tdiv (sz.x * sz.y) := rfl
  rw [hproj, tdivE v (sz.x * sz.y) hv (by omega)]
  intro h
  have hq : 1 ≤ v / (sz.x * sz.y) := by omega
  have := (Int.le_ediv_iff_mul_le hxy).mp hq
  omega

theorem analyze_trivial_iff (sz : V3) (A0 Ai Aj Ak a0 : List ℚ)
    (hlen : a0.length = (vcount sz * 4).toNat)
    (hx : 1 ≤ sz.x) (hy : 1 ≤ sz.y) (hz : 1 ≤ sz.z)
    (v : ℤ) (hv0 : 0 ≤ v) (hvn : v < vcount sz) :
    ((analyzeStencil true sz (copyA0 true (vcount sz) A0 Ai Aj Ak a0) v).2 = true ↔
      TrivialRowP sz A0 Ai Aj Ak v) := by
  have hcl : (copyA0 true (vcount sz) A0 Ai Aj Ak a0).length = (vcount sz * 4).toNat := by
    rw [copyA0_length]
    exact hlen
  have e0 := copyA0_at3 (vcount sz) A0 Ai Aj Ak a0 hlen v hv0 hvn 0 (by omega) (by omega)
  have e1 := copyA0_at3 (vcount sz) A0 Ai Aj Ak a0 hlen v hv0 hvn 1 (by omega) (by omega)
  have e2 := copyA0_at3 (vcount sz) A0 Ai Aj Ak a0 hlen v hv0 hvn 2 (by omega) (by omega)
  have e3 := copyA0_at3 (vcount sz) A0 Ai Aj Ak a0 hlen v hv0 hvn 3 (by omega) (by omega)
  norm_num at e0 e1 e2 e3
  have hnn := vecIdx_nonneg sz v hv0 hx hy
  have h4iff : ((if (vecIdx sz v).x = 0 then (0 : ℚ)
      else getQ (copyA0 true (vcount sz) A0 Ai Aj Ak a0) ((v - 1) * 4 + 1)) = 0) ↔
      (0 < (vecIdx sz v).x → getQ Ai (v - 1) = 0) := by
    by_cases hcx : (vecIdx sz v).x = 0
    · simp [hcx]
    · have hpx : 0 < (vecIdx sz v).x := by omega
      have hv1 : 1 ≤ v := vecIdx_x_pos sz v hv0 hx hpx
      have e4 := copyA0_at3 (vcount sz) A0 Ai Aj Ak a0 hlen (v - 1) (by omega) (by omega)
        1 (by omega) (by omega)
      norm_num at e4
      rw [if_neg hcx, e4]
      exact ⟨fun h _ => h, fun h => h hpx⟩
  have h5iff : ((if (vecIdx sz v).y = 0 then (0 : ℚ)
      else getQ (copyA0 true (vcount sz) A0 Ai Aj Ak a0) ((v - sz.x) * 4 + 2)) = 0) ↔
      (0 < (vecIdx sz v).y → getQ Aj (v - sz.x) = 0) := by
    by_cases hcy : (vecIdx sz v).y = 0
    · simp [hcy]
    · have hpy : 0 < (vecIdx sz v).y := by omega
      have hvy := vecIdx_y_pos sz v hv0 hx hy hpy
      have e5 := copyA0_at3 (vcount sz) A0 Ai Aj Ak a0 hlen (v - sz.x) (by omega) (by omega)
        2 (by omega) (by omega)
      norm_num at e5
      rw [if_neg hcy, e5]
      exact ⟨fun h _ => h, fun h => h hpy⟩
  have h6iff : ((if (vecIdx sz v).z = 0 then (0 : ℚ)
      else getQ (copyA0 true (vcount sz) A0 Ai Aj Ak a0) ((v - sz.x * sz.y) * 4 + 3)) = 0) ↔
      (0 < (vecIdx sz v).z → getQ Ak (v - sz.x * sz.y) = 0) := by
    by_cases hcz : (vecIdx sz v).z = 0
    · simp [hcz]
    · have hpz : 0 < (vecIdx sz v).z := by omega
      have hvz := vecIdx_z_pos sz v hv0 hx hy hpz
      have hxy : (0 : ℤ) < sz.x * sz.y := by positivity
      have e6 := copyA0_at3 (vcount sz) A0 Ai Aj Ak a0 hlen (v - sz.x * sz.y)
        (by omega) (by omega) 3 (by omega) (by omega)
      norm_num at e6
      rw [if_neg hcz, e6]
      exact ⟨fun h _ => h, fun h => h hpz⟩
  unfold analyzeStencil
  simp only [sSz0_3d, pitchOf, add_zero, decide_eq_true_eq]
  rw [e0, e1, e2, e3]
  unfold TrivialRowP
  rw [h4iff, h5iff, h6iff]

theorem getD_set_self {α : Type} (L : List α) (i : ℕ) (a d : α) (h : i < L.length) :
    (L.set i a).getD i d = a := by
  simp [List.getD, List.getElem?_set, h]

theorem genCoarseGrid_proj (s : GridMg) (k : ℕ) (hk : k ≠ 0) :
    (s.genCoarseGrid k).A = s.A ∧
    (s.genCoarseGrid k).types.getD 0 [] = s.types.getD 0 [] ∧
    (s.genCoarseGrid k).b = s.b ∧
    (s.genCoarseGrid k).trivialEquationScale = s.trivialEquationScale ∧
    (s.genCoarseGrid k).sizes = s.sizes ∧
    (s.genCoarseGrid k).is3D = s.is3D :=
  ⟨rfl, getD_set_ne _ k 0 _ _ hk, rfl, rfl, rfl, rfl⟩

theorem genCoraseGridOperator_proj (s : GridMg) (k : ℕ) (hk : k ≠ 0) :
    (s.genCoraseGridOperator k).A.getD 0 [] = s.A.getD 0 [] ∧
    (s.genCoraseGridOperator k).types = s.types ∧
    (s.genCoraseGridOperator k).b = s.b ∧
    (s.genCoraseGridOperator k).trivialEquationScale = s.trivialEquationScale ∧
    (s.genCoraseGridOperator k).sizes = s.sizes ∧
    (s.genCoraseGridOperator k).is3D = s.is3D :=
  ⟨getD_set_ne _ k 0 _ _ hk, rfl, rfl, rfl, rfl, rfl⟩

theorem coarseLoop_proj (m : ℕ) (st1 : GridMg) :
    (coarseLoop m st1).A.getD 0 [] = st1.A.getD 0 [] ∧
    (coarseLoop m st1).types.getD 0 [] = st1.types.getD 0 [] ∧
    (coarseLoop m st1).b = st1.b ∧
    (coarseLoop m st1).trivialEquationScale = st1.trivialEquationScale ∧
    (coarseLoop m st1).sizes = st1.sizes ∧
    (coarseLoop m st1).is3D = st1.is3D := by
  unfold coarseLoop
  have hres := foldl_preserves
    (f := fun s : GridMg => (s.A.getD 0 [], s.types.getD 0 [], s.b,
      s.trivialEquationScale, s.sizes, s.is3D))
    (fun s i => (s.genCoarseGrid (i + 1)).genCoraseGridOperator (i + 1))
    (List.range m) st1 ?hstep
  case hstep =>
    intro s i _
    have h1 := genCoarseGrid_proj s (i + 1) (by omega)
    have h2 := genCoraseGridOperator_proj (s.genCoarseGrid (i + 1)) (i + 1) (by omega)
    simp only [Prod.mk.injEq]
    refine ⟨?_, ?_, ?_, ?_, ?_, ?_⟩
    · rw [h2.1, h1.1]
    · rw [h2.2.1, h1.2.1]
    · rw [h2.2.2.1, h1.2.2.1]
    · rw [h2.2.2.2.1, h1.2.2.2.1]
    · rw [h2.2.2.2.2.1, h1.2.2.2.2.1]
    · rw [h2.2.2.2.2.2, h1.2.2.2.2.2]
  simp only [Prod.mk.injEq] at hres
  exact ⟨hres.1, hres.2.1, hres.2.2.1, hres.2.2.2.1, hres.2.2.2.2.1, hres.2.2.2.2.2⟩

theorem setA_proj (st : GridMg) (A0 Ai Aj Ak : List ℚ)
    (hA : 0 < st.A.length) (hT : 0 < st.types.length) :
    (st.setA A0 Ai Aj Ak).A.getD 0 [] =
      (setAClassify st.is3D (st.sz 0) st.trivialEquationScale
        (copyA0 st.is3D (st.nv 0) A0 Ai Aj Ak (st.A.getD 0 []))
        (st.types.getD 0 [])).1 ∧
    (st.setA A0 Ai Aj Ak).types.getD 0 [] =
      (setAClassify st.is3D (st.sz 0) st.trivialEquationScale
        (copyA0 st.is3D (st.nv 0) A0 Ai Aj Ak (st.A.getD 0 []))
        (st.types.getD 0 [])).2 ∧
    (st.setA A0 Ai Aj Ak).isASet = true ∧
    (st.setA A0 Ai Aj Ak).isRhsSet = false ∧
    (st.setA A0 Ai Aj Ak).b = st.b ∧
    (st.setA A0 Ai Aj Ak).trivialEquationScale = st.trivialEquationScale ∧
    (st.setA A0 Ai Aj Ak).sizes = st.sizes ∧
    (st.setA A0 Ai Aj Ak).is3D = st.is3D := by
  have hc := coarseLoop_proj (st.sizes.length - 1) (setAStage1 st A0 Ai Aj Ak)
  refine ⟨?_, ?_, rfl, rfl, ?_, ?_, ?_, ?_⟩
  · show (coarseLoop (st.sizes.length - 1) (setAStage1 st A0 Ai Aj Ak)).A.getD 0 [] = _
    rw [hc.1]
    show (st.A.set 0 (setAList0 st A0 Ai Aj Ak).1).getD 0 [] = _
    rw [getD_set_self _ 0 _ _ hA]
    rfl
  · show (coarseLoop (st.sizes.length - 1) (setAStage1 st A0 Ai Aj Ak)).types.getD 0 [] = _
    rw [hc.2.1]
    show (st.types.set 0 (setAList0 st A0 Ai Aj Ak).2).getD 0 [] = _
    rw [getD_set_self _ 0 _ _ hT]
    rfl
  · show (coarseLoop (st.sizes.length - 1) (setAStage1 st A0 Ai Aj Ak)).b = _
    rw [hc.2.2.1]
    rfl
  · show (coarseLoop (st.sizes.length - 1)
      (setAStage1 st A0 Ai Aj Ak)).trivialEquationScale = _
    rw [hc.2.2.2.1]
    rfl
  · show (coarseLoop (st.sizes.length - 1) (setAStage1 st A0 Ai Aj Ak)).sizes = _
    rw [hc.2.2.2.2.1]
    rfl
  · show (coarseLoop (st.sizes.length - 1) (setAStage1 st A0 Ai Aj Ak)).is3D = _
    rw [hc.2.2.2.2.2]
    rfl

theorem setRhs_spec (st : GridMg) (rhs : List ℚ) (hA : st.isASet = true)
    (v : ℤ) (hv0 : 0 ≤ v) (hvn : v < st.nv 0)
    (hb : (st.b.getD 0 []).length = (st.nv 0).toNat) (hbl : 0 < st.b.length) :
    ∃ st2, st.setRhs rhs = some st2 ∧
      getQ (st2.b.getD 0 []) v =
        (if st.typeAt 0 v = vtActiveTrivial then getQ rhs v * st.trivialEquationScale
         else getQ rhs v) := by
  unfold GridMg.setRhs
  rw [if_neg (by simp [hA])]
  refine ⟨_, rfl, ?_⟩
  rw [getD_set_self st.b 0 _ [] hbl]
  rw [intRange_split 0 (st.nv 0 - 1) v hv0 (by omega)]
  rw [foldl_last_write (f := fun bb => getQ bb v) _ _ _ _ (st.b.getD 0 [])
    (fun bb w hw => by
      rw [mem_intRange] at hw
      by_cases ht : st.typeAt 0 w = vtActiveTrivial
      · simp only [ht, if_true]
        rw [getQ_setQ_ne _ _ _ _ (by omega), getQ_setQ_ne _ _ _ _ (by omega)]
      · simp only [ht, if_false]
        rw [getQ_setQ_ne _ _ _ _ (by omega)])]
  have hplen : ((intRange 0 (v - 1)).foldl
      (fun bb w =>
        let b1 := setQ bb w (getQ rhs w)
        if st.typeAt 0 w = vtActiveTrivial then setQ b1 w (getQ b1 w * st.trivialEquationScale)
        else b1) (st.b.getD 0 [])).length = (st.nv 0).toNat := by
    rw [foldl_preserves (f := List.length) _ _ (st.b.getD 0 [])
      (fun bb w _ => by
        by_cases ht : st.typeAt 0 w = vtActiveTrivial
        · simp only [ht, if_true]
          rw [setQ_length, setQ_length]
        · simp only [ht, if_false]
          rw [setQ_length])]
    exact hb
  by_cases ht : st.typeAt 0 v = vtActiveTrivial
  · simp only [ht, if_true]
    rw [getQ_setQ_self _ _ _ hv0 (by rw [setQ_length, hplen]; omega),
      getQ_setQ_self _ _ _ hv0 (by rw [hplen]; omega)]
  · simp only [ht, if_false]
    rw [getQ_setQ_self _ _ _ hv0 (by rw [hplen]; omega)]

/-- Claim C4: after `setA` on a 3D hierarchy, a finest-level vertex with zero
diagonal is `Inactive`; a vertex with nonzero diagonal and a non-trivial row
is `Active`; a vertex whose supplied row is the canonical trivial equation
(diagonal exactly 1, all six off-diagonal 7-point coefficients exactly 0) is
`ActiveTrivial`, its stored diagonal is 1e-6 times the supplied diagonal, and
a subsequent `setRhs` stores 1e-6 times the supplied right-hand side there. -/
theorem claim_C4_trivial_rows (st : GridMg) (A0 Ai Aj Ak rhs : List ℚ) (v : ℤ)
    (hWF : LvlWF st 0) (h3 : st.is3D = true)
    (hscale : st.trivialEquationScale = 1 / 1000000)
    (hv0 : 0 ≤ v) (hvn : v < st.nv 0) :
    (getQ A0 v = 0 → (st.setA A0 Ai Aj Ak).typeAt 0 v = vtInactive) ∧
    (getQ A0 v ≠ 0 → ¬TrivialRowP (st.sz 0) A0 Ai Aj Ak v →
      (st.setA A0 Ai Aj Ak).typeAt 0 v = vtActive) ∧
    (TrivialRowP (st.sz 0) A0 Ai Aj Ak v →
      (st.setA A0 Ai Aj Ak).typeAt 0 v = vtActiveTrivial ∧
      (st.setA A0 Ai Aj Ak).aAt 0 (v * 4) = 1 / 1000000 * getQ A0 v ∧
      ∃ st2, (st.setA A0 Ai Aj Ak).setRhs rhs = some st2 ∧
        getQ (st2.b.getD 0 []) v = 1 / 1000000 * getQ rhs v) := by
  obtain ⟨hl0, hTlev, hxlev, hblev, hrlev, hAlev, hx, hy, hz, _, htl, hxl, hbL, hrl, hAl⟩ :=
    hWF
  have hproj := setA_proj st A0 Ai Aj Ak (by omega) (by omega)
  rw [h3] at hproj
  have hAlen0 : (st.A.getD 0 []).length = (st.nv 0 * 4).toNat := by
    rw [hAl]
    simp [sSz0, h3]
  have hclen : (copyA0 true (st.nv 0) A0 Ai Aj Ak (st.A.getD 0 [])).length =
      (st.nv 0 * 4).toNat := by
    rw [copyA0_length]
    exact hAlen0
  have hnv : st.nv 0 = vcount (st.sz 0) := rfl
  have hcls := setAClassify_at3 (st.sz 0) st.trivialEquationScale
    (copyA0 true (st.nv 0) A0 Ai Aj Ak (st.A.getD 0 [])) (st.types.getD 0 [])
    (by rw [htl, hnv]) v hv0 (by rw [← hnv]; exact hvn)
    (by rw [hclen]; omega)
  have hdiagv : getQ (copyA0 true (st.nv 0) A0 Ai Aj Ak (st.A.getD 0 [])) (v * 4) =
      getQ A0 v := by
    have hq := copyA0_at3 (st.nv 0) A0 Ai Aj Ak (st.A.getD 0 []) hAlen0 v hv0 hvn
      0 (by omega) (by omega)
    rw [if_pos rfl] at hq
    rw [← hq]
    norm_num
  have hbr := analyze_trivial_iff (st.sz 0) A0 Ai Aj Ak (st.A.getD 0 [])
    (by rw [hAlen0, hnv]) hx hy hz v hv0 (by rw [← hnv]; exact hvn)
  rw [← hnv] at hbr
  have htypeAt : (st.setA A0 Ai Aj Ak).typeAt 0 v =
      (if getQ A0 v = 0 then vtInactive
       else if (analyzeStencil true (st.sz 0)
         (copyA0 true (st.nv 0) A0 Ai Aj Ak (st.A.getD 0 [])) v).2
       then vtActiveTrivial else vtActive) := by
    show getT ((st.setA A0 Ai Aj Ak).types.getD 0 []) v = _
    rw [hproj.2.1, hcls.1, hdiagv]
  refine ⟨?_, ?_, ?_⟩
  · intro hd
    rw [htypeAt, if_pos hd]
  · intro hd htr
    rw [htypeAt, if_neg hd, if_neg (fun hh => htr (hbr.mp hh))]
  · intro htr
    have han2 : (analyzeStencil true (st.sz 0)
        (copyA0 true (st.nv 0) A0 Ai Aj Ak (st.A.getD 0 [])) v).2 = true := hbr.mpr htr
    have hd : getQ A0 v = 1 := htr.1
    have htype : (st.setA A0 Ai Aj Ak).typeAt 0 v = vtActiveTrivial := by
      rw [htypeAt, if_neg (by rw [hd]; norm_num), if_pos han2]
    refine ⟨htype, ?_, ?_⟩
    · show getQ ((st.setA A0 Ai Aj Ak).A.getD 0 []) (v * 4) = _
      rw [hproj.1, hcls.2, if_pos ⟨by rw [hdiagv, hd]; norm_num, han2⟩, hdiagv, hscale]
      ring
    · have hrhs := setRhs_spec (st.setA A0 Ai Aj Ak) rhs hproj.2.2.1 v hv0
        (by show v < vcount ((st.setA A0 Ai Aj Ak).sz 0)
            have hsz : (st.setA A0 Ai Aj Ak).sz 0 = st.sz 0 := by
              show (st.setA A0 Ai Aj Ak).sizes.getD 0 default = _
              rw [hproj.2.2.2.2.2.2.1]
              rfl
            rw [hsz]
            exact hvn)
        (by rw [hproj.2.2.2.2.1]
            show (st.b.getD 0 []).length = (vcount ((st.setA A0 Ai Aj Ak).sz 0)).toNat
            have hsz : (st.setA A0 Ai Aj Ak).sz 0 = st.sz 0 := by
              show (st.setA A0 Ai Aj Ak).sizes.getD 0 default = _
              rw [hproj.2.2.2.2.2.2.1]
              rfl
            rw [hsz, hbL]
            rfl)
        (by rw [hproj.2.2.2.2.1]; omega)
      obtain ⟨st2, hset, hval⟩ := hrhs
      refine ⟨st2, hset, ?_⟩
      rw [hval, if_pos htype, hproj.2.2.2.2.2.1, hscale]
      ring

/-! ## Claim C6: residual and residual norm -/

theorem foldl_ext {α β : Type} (f g : β → α → β) (l : List α) (b : β)
    (h : ∀ b a, a ∈ l → f b a = g b a) : l.foldl f b = l.foldl g b := by
  induction l generalizing b with
  | nil => rfl
  | cons hd tl ih =>
    rw [List.foldl_cons, List.foldl_cons, h b hd (List.mem_cons_self hd tl)]
    exact ih _ (fun b a ha => h b a (List.mem_cons_of_mem hd ha))

theorem foldl_sub_map {α : Type} (g : α → ℚ) (l : List α) (c : ℚ) :
    l.foldl (fun s p => s - g p) c = c - (l.map g).sum := by
  induction l generalizing c with
  | nil => simp
  | cons hd tl ih =>
    rw [List.foldl_cons, ih, List.map_cons, List.sum_cons]
    ring

theorem foldl_add_map {α : Type} (g : α → ℚ) (l : List α) (c : ℚ) :
    l.foldl (fun s p => s + g p) c = c + (l.map g).sum := by
  induction l generalizing c with
  | nil => simp
  | cons hd tl ih =>
    rw [List.foldl_cons, ih, List.map_cons, List.sum_cons]
    ring

theorem ite_sub_form (c : Prop) [Decidable c] (s t : ℚ) :
    (if c then s - t else s) = s - (if c then t else 0) := by
  split <;> simp

theorem V3.add_x (a b : V3) : (a + b).x = a.x + b.x := rfl

theorem V3.add_y (a b : V3) : (a + b).y = a.y + b.y := rfl

theorem V3.add_z (a b : V3) : (a + b).z = a.z + b.z := rfl

theorem ediv_ediv_nonneg (v a b : ℤ) (hv : 0 ≤ v) (ha : 0 < a) (hb : 0 < b) :
    v / a / b = v / (a * b) := by
  obtain ⟨n, rfl⟩ := Int.eq_ofNat_of_zero_le hv
  obtain ⟨p, rfl⟩ := Int.eq_ofNat_of_zero_le ha.le
  obtain ⟨q, rfl⟩ := Int.eq_ofNat_of_zero_le hb.le
  rw [← Int.ofNat_mul, ← Int.ofNat_ediv, ← Int.ofNat_ediv, ← Int.ofNat_ediv,
    Nat.div_div_eq_div_mul]

theorem linIdx_vecIdx (sz : V3) (v : ℤ) (hv0 : 0 ≤ v)
    (hx : 1 ≤ sz.x) (hy : 1 ≤ sz.y) :
    linIdx sz (vecIdx sz v) = v := by
  unfold linIdx vecIdx
  simp only
  rw [tmodE v sz.x hv0 (by omega), tdivE v sz.x hv0 (by omega),
    tmodE _ sz.y (Int.ediv_nonneg hv0 (by omega)) (by omega),
    tdivE v (sz.x * sz.y) hv0 (by positivity)]
  have e1 := Int.emod_add_ediv v sz.x
  have e2 := Int.emod_add_ediv (v / sz.x) sz.y
  have e3 : v / sz.x / sz.y = v / (sz.x * sz.y) :=
    ediv_ediv_nonneg v sz.x sz.y hv0 (by omega) (by omega)
  rw [← e3]
  have e2' : v / sz.x % sz.y = v / sz.x - sz.y * (v / sz.x / sz.y) := by omega
  rw [e2']
  linear_combination e1

theorem vecIdx_inGrid (sz : V3) (v : ℤ) (hv0 : 0 ≤ v) (hvn : v < vcount sz)
    (hx : 1 ≤ sz.x) (hy : 1 ≤ sz.y) (hz : 1 ≤ sz.z) :
    inGrid sz (vecIdx sz v) := by
  have hxy : (0 : ℤ) < sz.x * sz.y := by positivity
  unfold inGrid vecIdx
  simp only
  rw [tmodE v sz.x hv0 (by omega), tdivE v sz.x hv0 (by omega),
    tmodE _ sz.y (Int.ediv_nonneg hv0 (by omega)) (by omega),
    tdivE v (sz.x * sz.y) hv0 (by omega)]
  refine ⟨Int.emod_nonneg v (by omega), Int.emod_lt_of_pos v (by omega),
    Int.emod_nonneg _ (by omega), Int.emod_lt_of_pos _ (by omega),
    Int.ediv_nonneg hv0 (by omega), ?_⟩
  apply Int.ediv_lt_of_lt_mul hxy
  have : vcount sz = sz.z * (sz.x * sz.y) := by unfold vcount; ring
  omega

theorem linIdx_add (sz V S : V3) :
    linIdx sz (V + S) = linIdx sz V + (S.x + S.y * sz.x + S.z * sz.x * sz.y) := by
  unfold linIdx
  rw [V3.add_x, V3.add_y, V3.add_z]
  ring

theorem step_sub_form (s : ℚ) (g : Prop) [Decidable g] (c : Prop) [Decidable c]
    (a b x : ℚ) :
    (if g then (if c then s - a * x else s - b * x) else s)
      = s - (if g then (if c then a else b) * x else 0) := by
  by_cases hg : g
  · by_cases hc : c <;> simp [hg, hc]
  · simp [hg]

theorem enumIdx_rel :
    ∀ p ∈ (boxList (stMin true) (stMax true)).enum,
      (p.1 : ℤ) = (p.2 + stMax true).dot ⟨1, 3, 9⟩ := by decide

theorem residualAt_coarse (l : ℕ) (hl : l ≠ 0) (sz : V3) (A : List ℚ)
    (tys : List VertexType) (bb xx : List ℚ) (v : ℤ) :
    residualAt true l sz A tys bb xx v = residualSpec true l sz A tys bb xx v := by
  unfold residualAt residualSpec stencilCells
  rw [if_neg hl]
  simp only
  rw [foldl_ext _
    (fun (s : ℚ) (p : ℕ × V3) => s -
      (if inGrid sz (vecIdx sz v + p.2) ∧
          getT tys (linIdx sz (vecIdx sz v + p.2)) ≠ vtInactive then
        (if (p.1 : ℤ) < sSz true then
          getQ A (linIdx sz (vecIdx sz v + p.2) * sSz true + sSz true - 1 - (p.1 : ℤ))
        else getQ A (v * sSz true + (p.1 : ℤ) - sSz true + 1)) *
          getQ xx (linIdx sz (vecIdx sz v + p.2))
      else 0))
    _ _ (fun b p _ => step_sub_form b _ _ _ _ _)]
  rw [foldl_sub_map]
  congr 1
  rw [List.map_congr_left (g :=
    (fun S : V3 =>
      if inGrid sz (vecIdx sz v + S) ∧
          (l = 0 ∨ getT tys (linIdx sz (vecIdx sz v + S)) ≠ vtInactive) then
        rawEntry true l sz A v (vecIdx sz v) S * getQ xx (linIdx sz (vecIdx sz v + S))
      else 0) ∘ Prod.snd)
    ?cong]
  case cong =>
    intro p hp
    have hidx := enumIdx_rel p hp
    simp only [Function.comp_apply]
    unfold rawEntry
    rw [if_neg hl]
    simp only [hidx, hl, false_or]
  rw [← List.map_map, List.enum_map_snd]

theorem V3.addZero (a : V3) : a + (⟨0, 0, 0⟩ : V3) = a := by
  cases a with
  | mk ax ay az =>
    show V3.mk (ax + 0) (ay + 0) (az + 0) = V3.mk ax ay az
    rw [add_zero, add_zero, add_zero]

theorem residualAt_fine (sz : V3) (A : List ℚ) (tys : List VertexType)
    (bb xx : List ℚ) (v : ℤ) (hv0 : 0 ≤ v) (hvn : v < vcount sz)
    (hx : 1 ≤ sz.x) (hy : 1 ≤ sz.y) (hz : 1 ≤ sz.z) :
    residualAt true 0 sz A tys bb xx v = residualSpec true 0 sz A tys bb xx v := by
  have hVin := vecIdx_inGrid sz v hv0 hvn hx hy hz
  have hrt := linIdx_vecIdx sz v hv0 hx hy
  have l0 : linIdx sz (vecIdx sz v + ⟨0, 0, 0⟩) = v := by
    rw [V3.addZero, hrt]
  have l1 : linIdx sz (vecIdx sz v + ⟨-1, 0, 0⟩) = v - 1 := by
    rw [linIdx_add, hrt]; ring
  have l2 : linIdx sz (vecIdx sz v + ⟨1, 0, 0⟩) = v + 1 := by
    rw [linIdx_add, hrt]; ring
  have l3 : linIdx sz (vecIdx sz v + ⟨0, -1, 0⟩) = v - sz.x := by
    rw [linIdx_add, hrt]; ring
  have l4 : linIdx sz (vecIdx sz v + ⟨0, 1, 0⟩) = v + sz.x := by
    rw [linIdx_add, hrt]; ring
  have l5 : linIdx sz (vecIdx sz v + ⟨0, 0, -1⟩) = v - sz.x * sz.y := by
    rw [linIdx_add, hrt]; ring
  have l6 : linIdx sz (vecIdx sz v + ⟨0, 0, 1⟩) = v + sz.x * sz.y := by
    rw [linIdx_add, hrt]; ring
  have g0 : inGrid sz (vecIdx sz v + ⟨0, 0, 0⟩) := by rw [V3.addZero]; exact hVin
  have g1 : inGrid sz (vecIdx sz v + ⟨-1, 0, 0⟩) ↔ 0 < (vecIdx sz v).x := by
    unfold inGrid at hVin ⊢
    rw [V3.add_x, V3.add_y, V3.add_z]
    simp only
    omega
  have g2 : inGrid sz (vecIdx sz v + ⟨1, 0, 0⟩) ↔ (vecIdx sz v).x < sz.x - 1 := by
    unfold inGrid at hVin ⊢
    rw [V3.add_x, V3.add_y, V3.add_z]
    simp only
    omega
  have g3 : inGrid sz (vecIdx sz v + ⟨0, -1, 0⟩) ↔ 0 < (vecIdx sz v).y := by
    unfold inGrid at hVin ⊢
    rw [V3.add_x, V3.add_y, V3.add_z]
    simp only
    omega
  have g4 : inGrid sz (vecIdx sz v + ⟨0, 1, 0⟩) ↔ (vecIdx sz v).y < sz.y - 1 := by
    unfold inGrid at hVin ⊢
    rw [V3.add_x, V3.add_y, V3.add_z]
    simp only
    omega
  have g5 : inGrid sz (vecIdx sz v + ⟨0, 0, -1⟩) ↔ 0 < (vecIdx sz v).z := by
    unfold inGrid at hVin ⊢
    rw [V3.add_x, V3.add_y, V3.add_z]
    simp only
    omega
  have g6 : inGrid sz (vecIdx sz v + ⟨0, 0, 1⟩) ↔ (vecIdx sz v).z < sz.z - 1 := by
    unfold inGrid at hVin ⊢
    rw [V3.add_x, V3.add_y, V3.add_z]
    simp only
    omega
  have hbox : boxList (stMin true) (stMax true) =
      [⟨-1, -1, -1⟩, ⟨0, -1, -1⟩, ⟨1, -1, -1⟩, ⟨-1, 0, -1⟩, ⟨0, 0, -1⟩, ⟨1, 0, -1⟩,
       ⟨-1, 1, -1⟩, ⟨0, 1, -1⟩, ⟨1, 1, -1⟩, ⟨-1, -1, 0⟩, ⟨0, -1, 0⟩, ⟨1, -1, 0⟩,
       ⟨-1, 0, 0⟩, ⟨0, 0, 0⟩, ⟨1, 0, 0⟩, ⟨-1, 1, 0⟩, ⟨0, 1, 0⟩, ⟨1, 1, 0⟩,
       ⟨-1, -1, 1⟩, ⟨0, -1, 1⟩, ⟨1, -1, 1⟩, ⟨-1, 0, 1⟩, ⟨0, 0, 1⟩, ⟨1, 0, 1⟩,
       ⟨-1, 1, 1⟩, ⟨0, 1, 1⟩, ⟨1, 1, 1⟩] := by rfl
  have hr3 : List.range (mgDim true).toNat = [0, 1, 2] := rfl
  unfold residualAt residualSpec stencilCells rawEntry
  rw [hbox, hr3]
  simp only [List.foldl_cons, List.foldl_nil, List.map_cons, List.map_nil,
    List.sum_cons, List.sum_nil, if_pos rfl]
  simp only [V3.idx, pitchOf, sSz0_3d, V3.mk.injEq]
  norm_num
  simp only [g0, g1, g2, g3, g4, g5, g6, l0, l1, l2, l3, l4, l5, l6,
    if_pos g0, ite_sub_form]
  norm_num
  ring_nf

theorem calcResidualR_at (is3D : Bool) (l : ℕ) (sz : V3) (A : List ℚ)
    (tys : List VertexType) (bb xx r0 : List ℚ)
    (hrlen : r0.length = (vcount sz).toNat) (v : ℤ) (hv0 : 0 ≤ v)
    (hvn : v < vcount sz) :
    getQ (calcResidualR is3D l sz A tys bb xx r0) v =
      (if getT tys v = vtInactive then getQ r0 v
       else residualAt is3D l sz A tys bb xx v) := by
  unfold calcResidualR
  rw [intRange_split 0 (vcount sz - 1) v hv0 (by omega)]
  rw [foldl_last_write (f := fun rr => getQ rr v) _ _ _ _ r0
    (fun rr w hw => by
      rw [mem_intRange] at hw
      by_cases ht : getT tys w = vtInactive
      · simp [ht]
      · simp only [ht, if_false]
        exact getQ_setQ_ne _ _ _ _ (by omega))]
  have hpres : getQ ((intRange 0 (v - 1)).foldl
      (fun rr w => if getT tys w = vtInactive then rr
        else setQ rr w (residualAt is3D l sz A tys bb xx w)) r0) v = getQ r0 v := by
    exact foldl_preserves (f := fun rr => getQ rr v) _ _ r0
      (fun rr w hw => by
        rw [mem_intRange] at hw
        by_cases ht : getT tys w = vtInactive
        · simp [ht]
        · simp only [ht, if_false]
          exact getQ_setQ_ne _ _ _ _ (by omega))
  have hplen : ((intRange 0 (v - 1)).foldl
      (fun rr w => if getT tys w = vtInactive then rr
        else setQ rr w (residualAt is3D l sz A tys bb xx w)) r0).length =
      (vcount sz).toNat := by
    rw [foldl_preserves (f := List.length) _ _ r0
      (fun rr w _ => by
        by_cases ht : getT tys w = vtInactive
        · simp [ht]
        · simp only [ht, if_false]
          rw [setQ_length])]
    exact hrlen
  by_cases ht : getT tys v = vtInactive
  · simp only [ht, if_pos, if_true]
    exact hpres
  · simp only [ht, if_false]
    exact getQ_setQ_self _ _ _ hv0 (by rw [hplen]; omega)

theorem calcResidualNormSqL_spec (sz : V3) (tys : List VertexType) (rr : List ℚ) :
    calcResidualNormSqL sz tys rr = normSqSpec sz tys rr := by
  unfold calcResidualNormSqL normSqSpec
  rw [foldl_ext _
    (fun s v => s + (if getT tys v = vtInactive then 0 else getQ rr v * getQ rr v))
    _ _ (fun b a _ => by
      by_cases h : getT tys a = vtInactive <;> simp [h])]
  rw [foldl_add_map, zero_add]

/-- Claim C6 (amended): after `calcResidual(l)` on a 3D hierarchy, the
residual of an `Active` or `ActiveTrivial` vertex equals `b_v` minus the sum
over all in-grid stencil neighbours (stored symmetric operator entries; on
levels above 0 inactive neighbours are excluded, on level 0 the stored
7-point coefficients of all in-grid neighbours participate) of the operator
entry times the solution value; the residual entry of an `Inactive` vertex
is left unchanged (not reset to 0 as claimed); and `calcResidualNorm` is the
Euclidean norm over the non-inactive vertices only, modelled here by its
square. -/
theorem claim_C6_residual (st : GridMg) (l : ℕ) (v : ℤ)
    (hWF : LvlWF st l) (h3 : st.is3D = true) (hv0 : 0 ≤ v) (hvn : v < st.nv l) :
    ((st.typeAt l v = vtActive ∨ st.typeAt l v = vtActiveTrivial) →
      getQ ((st.calcResidual l).r.getD l []) v =
        residualSpec true l (st.sz l) (st.A.getD l []) (st.types.getD l [])
          (st.b.getD l []) (st.x.getD l []) v) ∧
    (st.typeAt l v = vtInactive →
      getQ ((st.calcResidual l).r.getD l []) v = getQ (st.r.getD l []) v) ∧
    (st.calcResidual l).calcResidualNormSq l =
      normSqSpec (st.sz l) (st.types.getD l []) ((st.calcResidual l).r.getD l []) := by
  obtain ⟨hls, hlt, hlx, hlb, hlr, hlA, hx, hy, hz, _, htl, hxl, hbL, hrl, hAl⟩ := hWF
  have hproj : (st.calcResidual l).r.getD l [] =
      calcResidualR st.is3D l (st.sz l) (st.A.getD l []) (st.types.getD l [])
        (st.b.getD l []) (st.x.getD l []) (st.r.getD l []) :=
    getD_set_self _ l _ [] hlr
  have hat := calcResidualR_at st.is3D l (st.sz l) (st.A.getD l [])
    (st.types.getD l []) (st.b.getD l []) (st.x.getD l []) (st.r.getD l [])
    hrl v hv0 hvn
  refine ⟨?_, ?_, ?_⟩
  · intro hAct
    have hni : ¬(getT (st.types.getD l []) v = vtInactive) := by
      rcases hAct with h | h <;> · show ¬(st.typeAt l v = vtInactive)
                                   rw [h]
                                   intro hc
                                   exact absurd hc (by simp)
    rw [hproj, hat, if_neg hni]
    rw [h3] at *
    by_cases hl0 : l = 0
    · subst hl0
      exact residualAt_fine (st.sz 0) (st.A.getD 0 []) (st.types.getD 0 [])
        (st.b.getD 0 []) (st.x.getD 0 []) v hv0 hvn hx hy hz
    · exact residualAt_coarse l hl0 (st.sz l) (st.A.getD l []) (st.types.getD l [])
        (st.b.getD l []) (st.x.getD l []) v
  · intro ht
    have ht' : getT (st.types.getD l []) v = vtInactive := ht
    rw [hproj, hat, if_pos ht']
  · show calcResidualNormSqL ((st.calcResidual l).sz l)
      ((st.calcResidual l).types.getD l []) ((st.calcResidual l).r.getD l []) = _
    have h1 : (st.calcResidual l).sz l = st.sz l := rfl
    have h2 : (st.calcResidual l).types.getD l [] = st.types.getD l [] := rfl
    rw [h1, h2, calcResidualNormSqL_spec]

/-- Claim C6 counterexample: in the concrete state `exSt6`, vertex 0 is
inactive and its residual entry holds 9; after `calcResidual(0)` it still
holds 9, not 0 as the claim states. -/
theorem claim_C6_counterexample :
    exSt6.typeAt 0 0 = vtInactive ∧
    getQ ((exSt6.calcResidual 0).r.getD 0 []) 0 = 9 ∧ (9 : ℚ) ≠ 0 := by decide

theorem smoothVertex_frame (is3D : Bool) (l : ℕ) (sz : V3) (A : List ℚ)
    (tys : List VertexType) (bb xx : List ℚ) (V : V3) (v : ℤ)
    (hv : getT tys v = vtInactive) :
    getQ (smoothVertex is3D l sz A tys bb xx V) v = getQ xx v := by
  simp only [smoothVertex]
  split
  · rfl
  · split
    · rfl
    · rename_i hti
      split
      · exact getQ_setQ_ne _ _ _ _ (fun he => hti (by rw [he]; exact hv))
      · exact getQ_setQ_ne _ _ _ _ (fun he => hti (by rw [he]; exact hv))

theorem smoothColorPass_frame (is3D : Bool) (l : ℕ) (sz : V3) (A : List ℚ)
    (tys : List VertexType) (bb xx : List ℚ) (offs : List V3) (v : ℤ)
    (hv : getT tys v = vtInactive) :
    getQ (smoothColorPass is3D l sz A tys bb xx offs) v = getQ xx v := by
  simp only [smoothColorPass]
  exact foldl_preserves (f := fun xs => getQ xs v) _ _ xx
    (fun x0 bIdx _ => foldl_preserves (f := fun xs => getQ xs v) _ _ x0
      (fun x1 off _ => smoothVertex_frame is3D l sz A tys bb x1 _ v hv))

/-- Claim C10: the per-vertex routines write only entries of non-inactive
vertices: at a vertex classified `Inactive`, `smoothGS` leaves the solution
entry, `calcResidual` the residual entry, and `restrict`/`interpolate` the
destination entry exactly as they were before the call. -/
theorem claim_C10_frame (st : GridMg) (l : ℕ) (ro : Bool)
    (szSrc szDst : V3) (tysSrc tysDst : List VertexType) (src dst : List ℚ)
    (v : ℤ) (hx : l < st.x.length) (hr : l < st.r.length) :
    (st.typeAt l v = vtInactive →
      getQ ((st.smoothGS l ro).x.getD l []) v = getQ (st.x.getD l []) v ∧
      getQ ((st.calcResidual l).r.getD l []) v = getQ (st.r.getD l []) v) ∧
    (getT tysDst v = vtInactive →
      getQ (restrictL szSrc szDst tysSrc tysDst src dst) v = getQ dst v ∧
      getQ (interpolateL szDst szSrc tysDst tysSrc src dst) v = getQ dst v) := by
  constructor
  · intro ht
    have ht' : getT (st.types.getD l []) v = vtInactive := ht
    constructor
    · have hp : (st.smoothGS l ro).x.getD l [] =
          smoothGSx st.is3D l (st.sz l) (st.A.getD l []) (st.types.getD l [])
            (st.b.getD l []) (st.x.getD l []) ro :=
        getD_set_self _ l _ [] hx
      rw [hp]
      simp only [smoothGSx]
      exact foldl_preserves (f := fun xs => getQ xs v) _ _ (st.x.getD l [])
        (fun x0 c _ => smoothColorPass_frame st.is3D l (st.sz l) (st.A.getD l [])
          (st.types.getD l []) (st.b.getD l []) x0 _ v ht')
    · have hp : (st.calcResidual l).r.getD l [] =
          calcResidualR st.is3D l (st.sz l) (st.A.getD l []) (st.types.getD l [])
            (st.b.getD l []) (st.x.getD l []) (st.r.getD l []) :=
        getD_set_self _ l _ [] hr
      rw [hp]
      simp only [calcResidualR]
      exact foldl_preserves (f := fun rs => getQ rs v) _ _ (st.r.getD l [])
        (fun rr w _ => by
          by_cases hw : getT (st.types.getD l []) w = vtInactive
          · rw [if_pos hw]
          · simp only [hw, if_false]
            exact getQ_setQ_ne _ _ _ _ (fun he => hw (by rw [he]; exact ht')))
  · intro ht
    constructor
    · simp only [restrictL]
      exact foldl_preserves (f := fun ds => getQ ds v) _ _ dst
        (fun d w _ => by
          by_cases hw : getT tysDst w = vtInactive
          · rw [if_pos hw]
          · simp only [hw, if_false]
            exact getQ_setQ_ne _ _ _ _ (fun he => hw (by rw [he]; exact ht)))
    · simp only [interpolateL]
      exact foldl_preserves (f := fun ds => getQ ds v) _ _ dst
        (fun d w _ => by
          by_cases hw : getT tysDst w = vtInactive
          · rw [if_pos hw]
          · simp only [hw, if_false]
            exact getQ_setQ_ne _ _ _ _ (fun he => hw (by rw [he]; exact ht)))

/-- Witness for C10: the frame theorem applied to the concrete state `exSt6`,
whose vertex 0 at level 0 is inactive. -/
theorem claim_C10_frame_witness :
    (exSt6.typeAt 0 0 = vtInactive ∧ 0 < exSt6.x.length ∧ 0 < exSt6.r.length) ∧
    (getQ ((exSt6.smoothGS 0 false).x.getD 0 []) 0 = getQ (exSt6.x.getD 0 []) 0 ∧
     getQ ((exSt6.calcResidual 0).r.getD 0 []) 0 = getQ (exSt6.r.getD 0 []) 0) ∧
    (getQ (restrictL (exSt6.sz 0) (exSt6.sz 0) (exSt6.types.getD 0 [])
        (exSt6.types.getD 0 []) (exSt6.r.getD 0 []) (exSt6.x.getD 0 [])) 0 =
      getQ (exSt6.x.getD 0 []) 0 ∧
     getQ (interpolateL (exSt6.sz 0) (exSt6.sz 0) (exSt6.types.getD 0 [])
        (exSt6.types.getD 0 []) (exSt6.r.getD 0 []) (exSt6.x.getD 0 [])) 0 =
      getQ (exSt6.x.getD 0 []) 0) := by
  have h := claim_C10_frame exSt6 0 false (exSt6.sz 0) (exSt6.sz 0)
    (exSt6.types.getD 0 []) (exSt6.types.getD 0 []) (exSt6.r.getD 0 [])
    (exSt6.x.getD 0 []) 0 (by decide) (by decide)
  exact ⟨⟨by decide, by decide, by decide⟩, h.1 (by decide), h.2 (by decide)⟩

/-- Claim C8: `doVCycle` aborts on its entry assertion (modelled `none`)
whenever `setA` and `setRhs` have not both been called; `setA` sets the `A`
flag and clears the rhs flag, so a `doVCycle` issued after `setA` but before
a fresh `setRhs` aborts; once `setRhs` succeeds after the last `setA`, both
flags hold and `doVCycle` does not abort on this assertion. -/
theorem claim_C8_flags (st : GridMg) (A0 Ai Aj Ak rhs : List ℚ)
    (src : Option (List ℚ)) :
    (¬(st.isASet = true ∧ st.isRhsSet = true) → st.doVCycle src = none) ∧
    ((st.setA A0 Ai Aj Ak).isASet = true ∧
      (st.setA A0 Ai Aj Ak).isRhsSet = false) ∧
    (st.setA A0 Ai Aj Ak).doVCycle src = none ∧
    (∀ st2, (st.setA A0 Ai Aj Ak).setRhs rhs = some st2 →
      st2.isASet = true ∧ st2.isRhsSet = true ∧ st2.doVCycle src ≠ none) := by
  refine ⟨?_, ⟨rfl, rfl⟩, ?_, ?_⟩
  · intro h
    unfold GridMg.doVCycle
    rw [if_pos h]
  · unfold GridMg.doVCycle
    rw [if_pos ?hc]
    case hc =>
      intro h
      have hf : (false : Bool) = true := h.2
      exact absurd hf (by decide)
  · intro st2 h
    unfold GridMg.setRhs at h
    rw [if_neg (show ¬¬((st.setA A0 Ai Aj Ak).isASet = true) from fun hc => hc rfl)] at h
    cases h
    refine ⟨rfl, rfl, ?_⟩
    unfold GridMg.doVCycle
    rw [if_neg (fun hc => hc ⟨rfl, rfl⟩)]
    exact Option.some_ne_none _

/-- Witness for C8: the fresh state `exSt` aborts `doVCycle`; after `setA`
and a successful `setRhs` on it, `doVCycle` does not abort. -/
theorem claim_C8_flags_witness :
    (¬(exSt.isASet = true ∧ exSt.isRhsSet = true) ∧ exSt.doVCycle none = none) ∧
    (∃ st2, (exSt.setA exA0 exZ exZ exZ).setRhs exRhs = some st2 ∧
      st2.doVCycle none ≠ none) := by
  refine ⟨⟨by decide, (claim_C8_flags exSt exA0 exZ exZ exZ exRhs none).1 (by decide)⟩,
    ⟨_, rfl, ?_⟩⟩
  exact ((claim_C8_flags exSt exA0 exZ exZ exZ exRhs none).2.2.2 _ rfl).2.2

theorem cgTraj_shift (is3D : Bool) (l : ℕ) (sz : V3) (A : List ℚ)
    (tys : List VertexType) (acc ir : ℚ) (s0 : CGItSt) (k : ℕ) :
    cgTraj is3D l sz A tys acc ir s0 (k + 1) =
      cgTraj is3D l sz A tys acc ir (cgIter is3D l sz A tys acc ir s0).1 k := by
  induction k with
  | zero => rfl
  | succ k ih =>
    show (cgIter is3D l sz A tys acc ir (cgTraj is3D l sz A tys acc ir s0 (k + 1))).1 = _
    rw [ih]
    rfl

theorem cgBrk_shift (is3D : Bool) (l : ℕ) (sz : V3) (A : List ℚ)
    (tys : List VertexType) (acc ir : ℚ) (s0 : CGItSt) (k : ℕ) :
    cgBrk is3D l sz A tys acc ir s0 (k + 1) =
      cgBrk is3D l sz A tys acc ir (cgIter is3D l sz A tys acc ir s0).1 k := by
  unfold cgBrk
  rw [cgTraj_shift]

theorem cgIter_break_iff (is3D : Bool) (l : ℕ) (sz : V3) (A : List ℚ)
    (tys : List VertexType) (acc ir : ℚ) (s : CGItSt) :
    (cgIter is3D l sz A tys acc ir s).2 = true ↔
      (0 < ir ∧ (cgIterPh2 is3D l sz A tys s).resSq < acc * acc * ir) := by
  simp only [cgIter]
  by_cases h : 0 < ir ∧ (cgIterPh2 is3D l sz A tys s).resSq < acc * acc * ir
  · rw [if_pos h]
    simp [h]
  · rw [if_neg h]
    simp [h]

theorem cgLoop_spec (is3D : Bool) (l : ℕ) (sz : V3) (A : List ℚ)
    (tys : List VertexType) (acc ir : ℚ) (fuel iter : ℕ) (s0 : CGItSt) :
    iter ≤ (cgLoop is3D l sz A tys acc ir fuel iter s0).2 ∧
    (cgLoop is3D l sz A tys acc ir fuel iter s0).2 ≤ iter + fuel ∧
    (cgLoop is3D l sz A tys acc ir fuel iter s0).1 =
      cgTraj is3D l sz A tys acc ir s0
        ((cgLoop is3D l sz A tys acc ir fuel iter s0).2 - iter +
          (if (cgLoop is3D l sz A tys acc ir fuel iter s0).2 < iter + fuel
           then 1 else 0)) ∧
    ((cgLoop is3D l sz A tys acc ir fuel iter s0).2 < iter + fuel →
      cgBrk is3D l sz A tys acc ir s0
        ((cgLoop is3D l sz A tys acc ir fuel iter s0).2 - iter) = true) ∧
    (∀ j < (cgLoop is3D l sz A tys acc ir fuel iter s0).2 - iter,
      cgBrk is3D l sz A tys acc ir s0 j = false) := by
  induction fuel generalizing iter s0 with
  | zero =>
    simp only [cgLoop]
    refine ⟨le_refl _, by omega, ?_, ?_, ?_⟩
    · have he : iter - iter + (if iter < iter + 0 then 1 else 0) = 0 := by
        rw [if_neg (by omega)]
        omega
      rw [he]
      rfl
    · intro h
      exact absurd h (by omega)
    · intro j hj
      exact absurd hj (by omega)
  | succ fuel ih =>
    simp only [cgLoop]
    split
    next hb =>
      dsimp only
      refine ⟨by omega, by omega, ?_, ?_, ?_⟩
      · have he : iter - iter + (if iter < iter + (fuel + 1) then 1 else 0) = 1 := by
          rw [if_pos (by omega)]
          omega
        rw [he]
        rfl
      · intro _
        have h0 : iter - iter = 0 := by omega
        rw [h0]
        exact hb
      · intro j hj
        exact absurd hj (by omega)
    next hb =>
      obtain ⟨h1, h2, h3, h4, h5⟩ := ih (iter + 1) (cgIter is3D l sz A tys acc ir s0).1
      have hb' : (cgIter is3D l sz A tys acc ir s0).2 = false :=
        Bool.eq_false_iff.mpr hb
      refine ⟨by omega, by omega, ?_, ?_, ?_⟩
      · rw [h3]
        rw [show (cgLoop is3D l sz A tys acc ir fuel (iter + 1)
              (cgIter is3D l sz A tys acc ir s0).1).2 - iter +
            (if (cgLoop is3D l sz A tys acc ir fuel (iter + 1)
              (cgIter is3D l sz A tys acc ir s0).1).2 < iter + (fuel + 1)
             then 1 else 0) =
            ((cgLoop is3D l sz A tys acc ir fuel (iter + 1)
              (cgIter is3D l sz A tys acc ir s0).1).2 - (iter + 1) +
            (if (cgLoop is3D l sz A tys acc ir fuel (iter + 1)
              (cgIter is3D l sz A tys acc ir s0).1).2 < (iter + 1) + fuel
             then 1 else 0)) + 1 from by
          by_cases hc : (cgLoop is3D l sz A tys acc ir fuel (iter + 1)
              (cgIter is3D l sz A tys acc ir s0).1).2 < (iter + 1) + fuel
          · rw [if_pos hc, if_pos (by omega)]
            omega
          · rw [if_neg hc, if_neg (by omega)]
            omega]
        rw [cgTraj_shift]
      · intro h
        rw [show (cgLoop is3D l sz A tys acc ir fuel (iter + 1)
              (cgIter is3D l sz A tys acc ir s0).1).2 - iter =
            ((cgLoop is3D l sz A tys acc ir fuel (iter + 1)
              (cgIter is3D l sz A tys acc ir s0).1).2 - (iter + 1)) + 1 from by omega]
        rw [cgBrk_shift]
        exact h4 (by omega)
      · intro j hj
        cases j with
        | zero => exact hb'
        | succ j' =>
          rw [cgBrk_shift]
          exact h5 j' (by omega)

/-- Claim C7: `solveCG` always terminates. Its iteration counter never
exceeds the cap of 10000; the counter equals the cap (the source's warning
condition — a log message, not an abort) exactly when the stopping test
never fired; if the loop stops early it does so at the first iteration whose
stopping test fires; the stopping test of an iteration holds exactly when
the squared residual has dropped below the squared configured accuracy times
the initial squared residual (the exact-arithmetic form of
`residual/initialResidual < accuracy`, which never fires when the initial
residual is zero); and in all cases the solution array holds the final CG
iterate. -/
theorem claim_C7_solveCG (st : GridMg) (l : ℕ) (hx : l < st.x.length) :
    (st.solveCG l).2 ≤ cgMaxIter ∧
    ((st.solveCG l).2 = cgMaxIter ↔ ∀ k < cgMaxIter, st.cgBrkOf l k = false) ∧
    ((st.solveCG l).2 < cgMaxIter →
      st.cgBrkOf l (st.solveCG l).2 = true ∧
      ∀ j < (st.solveCG l).2, st.cgBrkOf l j = false) ∧
    (∀ k, st.cgBrkOf l k = true ↔
      (0 < (st.cgInitOf l).initResSq ∧
        (cgIterPh2 st.is3D l (st.sz l) (st.A.getD l []) (st.types.getD l [])
          (st.cgTrajOf l k)).resSq <
        st.coarsestLevelAccuracy * st.coarsestLevelAccuracy *
          (st.cgInitOf l).initResSq)) ∧
    (st.solveCG l).1.x.getD l [] =
      (st.cgTrajOf l ((st.solveCG l).2 +
        (if (st.solveCG l).2 < cgMaxIter then 1 else 0))).x := by
  obtain ⟨h1, h2, h3, h4, h5⟩ := cgLoop_spec st.is3D l (st.sz l) (st.A.getD l [])
    (st.types.getD l []) st.coarsestLevelAccuracy ((st.cgInitOf l).initResSq)
    cgMaxIter 0 (st.cgS0 l)
  have hiter : (st.solveCG l).2 = (cgLoop st.is3D l (st.sz l) (st.A.getD l [])
      (st.types.getD l []) st.coarsestLevelAccuracy ((st.cgInitOf l).initResSq)
      cgMaxIter 0 (st.cgS0 l)).2 := rfl
  have hxeq : (st.solveCG l).1.x.getD l [] = (cgLoop st.is3D l (st.sz l)
      (st.A.getD l []) (st.types.getD l []) st.coarsestLevelAccuracy
      ((st.cgInitOf l).initResSq) cgMaxIter 0 (st.cgS0 l)).1.x :=
    getD_set_self _ l _ [] hx
  refine ⟨by rw [hiter]; omega, ⟨?_, ?_⟩, ?_, ?_, ?_⟩
  · intro h k hk
    rw [hiter] at h
    show cgBrk st.is3D l (st.sz l) (st.A.getD l []) (st.types.getD l [])
      st.coarsestLevelAccuracy ((st.cgInitOf l).initResSq) (st.cgS0 l) k = false
    exact h5 k (by omega)
  · intro hall
    by_contra hne
    rw [hiter] at hne
    have hlt : (cgLoop st.is3D l (st.sz l) (st.A.getD l []) (st.types.getD l [])
        st.coarsestLevelAccuracy ((st.cgInitOf l).initResSq) cgMaxIter 0
        (st.cgS0 l)).2 < 0 + cgMaxIter := by omega
    have htrue := h4 hlt
    have hfalse : cgBrk st.is3D l (st.sz l) (st.A.getD l []) (st.types.getD l [])
        st.coarsestLevelAccuracy ((st.cgInitOf l).initResSq) (st.cgS0 l)
        ((cgLoop st.is3D l (st.sz l) (st.A.getD l []) (st.types.getD l [])
          st.coarsestLevelAccuracy ((st.cgInitOf l).initResSq) cgMaxIter 0
          (st.cgS0 l)).2 - 0) = false :=
      hall _ (by omega)
    cases htrue.symm.trans hfalse
  · intro h
    rw [hiter] at h
    constructor
    · show cgBrk st.is3D l (st.sz l) (st.A.getD l []) (st.types.getD l [])
        st.coarsestLevelAccuracy ((st.cgInitOf l).initResSq) (st.cgS0 l)
        (st.solveCG l).2 = true
      rw [hiter]
      have htrue := h4 (by omega)
      simpa using htrue
    · intro j hj
      rw [hiter] at hj
      show cgBrk st.is3D l (st.sz l) (st.A.getD l []) (st.types.getD l [])
        st.coarsestLevelAccuracy ((st.cgInitOf l).initResSq) (st.cgS0 l) j = false
      exact h5 j (by omega)
  · intro k
    exact cgIter_break_iff st.is3D l (st.sz l) (st.A.getD l []) (st.types.getD l [])
      st.coarsestLevelAccuracy ((st.cgInitOf l).initResSq) (st.cgTrajOf l k)
  · rw [hxeq, h3]
    rw [show (cgLoop st.is3D l (st.sz l) (st.A.getD l []) (st.types.getD l [])
          st.coarsestLevelAccuracy ((st.cgInitOf l).initResSq) cgMaxIter 0
          (st.cgS0 l)).2 - 0 +
        (if (cgLoop st.is3D l (st.sz l) (st.A.getD l []) (st.types.getD l [])
          st.coarsestLevelAccuracy ((st.cgInitOf l).initResSq) cgMaxIter 0
          (st.cgS0 l)).2 < 0 + cgMaxIter then 1 else 0) =
        (st.solveCG l).2 + (if (st.solveCG l).2 < cgMaxIter then 1 else 0) from by
      rw [← hiter]
      by_cases hc : (st.solveCG l).2 < cgMaxIter
      · rw [if_pos (by omega), if_pos hc]
        omega
      · rw [if_neg (by omega), if_neg hc]
        omega]
    rfl

/-- Witness for C7: the theorem applied to the concrete state `exSt6` at
level 0. -/
theorem claim_C7_solveCG_witness :
    0 < exSt6.x.length ∧
    ((exSt6.solveCG 0).2 ≤ cgMaxIter ∧
     ((exSt6.solveCG 0).2 = cgMaxIter ↔
       ∀ k < cgMaxIter, exSt6.cgBrkOf 0 k = false) ∧
     ((exSt6.solveCG 0).2 < cgMaxIter →
       exSt6.cgBrkOf 0 (exSt6.solveCG 0).2 = true ∧
       ∀ j < (exSt6.solveCG 0).2, exSt6.cgBrkOf 0 j = false) ∧
     (∀ k, exSt6.cgBrkOf 0 k = true ↔
       (0 < (exSt6.cgInitOf 0).initResSq ∧
         (cgIterPh2 exSt6.is3D 0 (exSt6.sz 0) (exSt6.A.getD 0 [])
           (exSt6.types.getD 0 []) (exSt6.cgTrajOf 0 k)).resSq <
         exSt6.coarsestLevelAccuracy * exSt6.coarsestLevelAccuracy *
           (exSt6.cgInitOf 0).initResSq)) ∧
     (exSt6.solveCG 0).1.x.getD 0 [] =
       (exSt6.cgTrajOf 0 ((exSt6.solveCG 0).2 +
         (if (exSt6.solveCG 0).2 < cgMaxIter then 1 else 0))).x) :=
  ⟨by decide, claim_C7_solveCG exSt6 0 (by decide)⟩

/-- Witness for C6: the amended theorem applied to the active vertex 1 of the
concrete state `exSt6`. -/
theorem claim_C6_residual_witness :
    (LvlWF exSt6 0 ∧ exSt6.is3D = true ∧ (0 : ℤ) ≤ 1 ∧ (1 : ℤ) < exSt6.nv 0) ∧
    (((exSt6.typeAt 0 1 = vtActive ∨ exSt6.typeAt 0 1 = vtActiveTrivial) →
      getQ ((exSt6.calcResidual 0).r.getD 0 []) 1 =
        residualSpec true 0 (exSt6.sz 0) (exSt6.A.getD 0 []) (exSt6.types.getD 0 [])
          (exSt6.b.getD 0 []) (exSt6.x.getD 0 []) 1) ∧
    (exSt6.typeAt 0 1 = vtInactive →
      getQ ((exSt6.calcResidual 0).r.getD 0 []) 1 = getQ (exSt6.r.getD 0 []) 1) ∧
    (exSt6.calcResidual 0).calcResidualNormSq 0 =
      normSqSpec (exSt6.sz 0) (exSt6.types.getD 0 [])
        ((exSt6.calcResidual 0).r.getD 0 [])) :=
  ⟨⟨by decide, rfl, by decide, by decide⟩,
   claim_C6_residual exSt6 0 1 (by decide) rfl (by decide) (by decide)⟩

/-- Witness for C4: on a 2x2x2 grid, vertex 0 supplied with diagonal 1 and
all off-diagonals 0 becomes `ActiveTrivial` with stored diagonal and stored
right-hand side scaled by 1e-6. -/
theorem claim_C4_trivial_rows_witness :
    (LvlWF exSt 0 ∧ exSt.is3D = true ∧ exSt.trivialEquationScale = 1 / 1000000 ∧
     (0 : ℤ) ≤ 0 ∧ (0 : ℤ) < exSt.nv 0 ∧ TrivialRowP (exSt.sz 0) exA0 exZ exZ exZ 0) ∧
    ((exSt.setA exA0 exZ exZ exZ).typeAt 0 0 = vtActiveTrivial ∧
     (exSt.setA exA0 exZ exZ exZ).aAt 0 (0 * 4) = 1 / 1000000 * getQ exA0 0 ∧
     ∃ st2, (exSt.setA exA0 exZ exZ exZ).setRhs exRhs = some st2 ∧
       getQ (st2.b.getD 0 []) 0 = 1 / 1000000 * getQ exRhs 0) :=
  ⟨⟨by decide, by decide, rfl, by decide, by decide, by decide⟩,
   (claim_C4_trivial_rows exSt exA0 exZ exZ exZ exRhs 0 (by decide) (by decide)
     rfl (by decide) (by decide)).2.2 (by decide)⟩

/-! ## NKMinHeap verification -/

theorem hset_entries_length (h : NKMinHeap) (i : ℤ) (e : HEntry) :
    (hset h i e).entries.length = h.entries.length := by
  unfold hset
  show (if 0 ≤ i then h.entries.set i.toNat e else h.entries).length = _
  split
  · exact List.length_set _ _ _
  · rfl

theorem hent_hset_self (h : NKMinHeap) (i : ℤ) (e : HEntry) (h0 : 0 ≤ i)
    (hl : i.toNat < h.entries.length) : hent (hset h i e) i = e := by
  unfold hent hset
  rw [if_pos h0]
  show (if 0 ≤ i then h.entries.set i.toNat e else h.entries).getD i.toNat default = e
  rw [if_pos h0]
  exact getD_set_self _ _ _ _ hl

theorem hent_hset_ne (h : NKMinHeap) (i j : ℤ) (e : HEntry) (hne : i ≠ j) :
    hent (hset h i e) j = hent h j := by
  unfold hent hset
  by_cases hj : 0 ≤ j
  · rw [if_pos hj, if_pos hj]
    show (if 0 ≤ i then h.entries.set i.toNat e else h.entries).getD j.toNat default = _
    by_cases hi : 0 ≤ i
    · rw [if_pos hi]
      exact getD_set_ne _ _ _ _ _ (by omega)
    · rw [if_neg hi]
  · rw [if_neg hj, if_neg hj]

theorem hset_size (h : NKMinHeap) (i : ℤ) (e : HEntry) : (hset h i e).size = h.size := rfl

theorem hset_K (h : NKMinHeap) (i : ℤ) (e : HEntry) : (hset h i e).K = h.K := rfl

theorem hset_minKey (h : NKMinHeap) (i : ℤ) (e : HEntry) :
    (hset h i e).minKey = h.minKey := rfl

theorem hsetNext_entries_length (h : NKMinHeap) (i nx : ℤ) :
    (hsetNext h i nx).entries.length = h.entries.length := hset_entries_length _ _ _

theorem hsetPrev_entries_length (h : NKMinHeap) (i pv : ℤ) :
    (hsetPrev h i pv).entries.length = h.entries.length := hset_entries_length _ _ _

theorem chain_congr (h h' : NKMinHeap) (hK : h'.K = h.K) (hN : h'.N = h.N) (k : ℕ) :
    ∀ (pI : ℤ) (l : List ℕ),
      (hent h' pI).next = (hent h pI).next →
      (∀ id ∈ l, hent h' ((h.K : ℤ) + id) = hent h ((h.K : ℤ) + id)) →
      Chain h k pI l → Chain h' k pI l
  | pI, [], hnx, _, hc => by
    unfold Chain at hc ⊢
    rw [hnx]
    exact hc
  | pI, id :: t, hnx, hag, hc => by
    unfold Chain at hc ⊢
    obtain ⟨hn, h1, h2, h3, h4⟩ := hc
    have he := hag id (List.mem_cons_self id t)
    refine ⟨by omega, ?_, ?_, ?_, ?_⟩
    · rw [hnx, hK]
      exact h1
    · rw [hK, he]
      exact h2
    · rw [hK, he]
      exact h3
    · rw [hK]
      exact chain_congr h h' hK hN k _ t (by rw [he])
        (fun x hx => hag x (List.mem_cons_of_mem id hx)) h4

theorem chain_set_mk (hh : NKMinHeap) (sz : ℕ) (mk2 : ℤ) (k : ℕ) (pI : ℤ)
    (l : List ℕ) (hc : Chain hh k pI l) :
    Chain { hh with size := sz, minKey := mk2 } k pI l :=
  chain_congr hh { hh with size := sz, minKey := mk2 } rfl rfl k pI l rfl
    (fun _ _ => rfl) hc

theorem scanMin_spec (h : NKMinHeap) :
    ∀ (fuel : ℕ) (k0 : ℤ), 0 ≤ k0 → (h.K : ℤ) ≤ k0 + fuel →
      k0 ≤ scanMin h fuel k0 ∧
      (k0 ≤ (h.K : ℤ) → scanMin h fuel k0 ≤ (h.K : ℤ)) ∧
      (∀ j, k0 ≤ j → j < scanMin h fuel k0 → (hent h j).next = -1) ∧
      (scanMin h fuel k0 < (h.K : ℤ) → (hent h (scanMin h fuel k0)).next ≠ -1)
  | 0, k0, h0, hf => by
    unfold scanMin
    refine ⟨le_refl _, by omega, ?_, by omega⟩
    intro j hj hj2
    omega
  | fuel + 1, k0, h0, hf => by
    unfold scanMin
    by_cases hlt : k0 < (h.K : ℤ)
    · rw [if_pos hlt]
      by_cases hnx : (hent h k0).next ≠ -1
      · rw [if_pos hnx]
        exact ⟨le_refl _, by omega, fun j hj hj2 => by omega, fun _ => hnx⟩
      · rw [if_neg hnx]
        obtain ⟨i1, i2, i3, i4⟩ := scanMin_spec h fuel (k0 + 1) (by omega) (by omega)
        rw [not_not] at hnx
        refine ⟨by omega, fun _ => i2 (by omega), ?_, i4⟩
        intro j hj hj2
        by_cases hj0 : j = k0
        · rw [hj0]
          exact hnx
        · exact i3 j (by omega) hj2
    · rw [if_neg hlt]
      exact ⟨le_refl _, by omega, fun j hj hj2 => by omega, by omega⟩

theorem mem_getD_flatten {α : Type} :
    ∀ (B : List (List α)) (k : ℕ), k < B.length →
      ∀ x, x ∈ B.getD k [] → x ∈ B.flatten
  | [], k, hk => by simp at hk
  | b :: rest, 0, _ => fun x hx => by
    rw [List.flatten_cons]
    rw [List.getD_cons_zero] at hx
    exact List.mem_append_left _ hx
  | b :: rest, k + 1, hk => fun x hx => by
    rw [List.flatten_cons]
    rw [List.getD_cons_succ] at hx
    exact List.mem_append_right _
      (mem_getD_flatten rest k (by simpa using hk) x hx)

theorem bucket_nodup {α : Type} :
    ∀ (B : List (List α)) (k : ℕ), B.flatten.Nodup → (B.getD k []).Nodup
  | [], k, _ => by
    cases k <;> exact List.nodup_nil
  | b :: rest, 0, hN => by
    rw [List.getD_cons_zero]
    rw [List.flatten_cons] at hN
    exact hN.of_append_left
  | b :: rest, k + 1, hN => by
    rw [List.getD_cons_succ]
    rw [List.flatten_cons] at hN
    exact bucket_nodup rest k hN.of_append_right

theorem buckets_disjoint {α : Type} :
    ∀ (B : List (List α)) (k k' : ℕ), B.flatten.Nodup → k ≠ k' →
      ∀ x, x ∈ B.getD k [] → x ∉ B.getD k' []
  | [], k, k', _, _, x => by
    cases k <;> · intro hx; exact absurd hx (List.not_mem_nil x)
  | b :: rest, 0, 0, _, hne, x => absurd rfl hne
  | b :: rest, 0, k' + 1, hN, _, x => by
    intro hx hx'
    rw [List.getD_cons_zero] at hx
    rw [List.getD_cons_succ] at hx'
    rw [List.flatten_cons] at hN
    by_cases hk' : k' < rest.length
    · exact (List.disjoint_of_nodup_append hN) hx
        (mem_getD_flatten rest k' hk' x hx')
    · rw [List.getD_eq_default _ _ (by omega)] at hx'
      exact absurd hx' (List.not_mem_nil x)
  | b :: rest, k + 1, 0, hN, _, x => by
    intro hx hx'
    rw [List.getD_cons_succ] at hx
    rw [List.getD_cons_zero] at hx'
    rw [List.flatten_cons] at hN
    by_cases hk : k < rest.length
    · exact (List.disjoint_of_nodup_append hN) hx'
        (mem_getD_flatten rest k hk x hx)
    · rw [List.getD_eq_default _ _ (by omega)] at hx
      exact absurd hx (List.not_mem_nil x)
  | b :: rest, k + 1, k' + 1, hN, hne, x => by
    rw [List.getD_cons_succ, List.getD_cons_succ]
    rw [List.flatten_cons] at hN
    exact buckets_disjoint rest k k' hN.of_append_right (by omega) x

theorem sum_length_set_tail :
    ∀ (B : List (List ℕ)) (k : ℕ) (hd : ℕ) (t : List ℕ),
      k < B.length → B.getD k [] = hd :: t →
      ((B.set k t).map List.length).sum + 1 = (B.map List.length).sum
  | [], k, hd, t, hk, _ => by simp at hk
  | b :: rest, 0, hd, t, _, hb => by
    rw [List.getD_cons_zero] at hb
    subst hb
    simp only [List.set_cons_zero, List.map_cons, List.sum_cons, List.length_cons]
    omega
  | b :: rest, k + 1, hd, t, hk, hb => by
    rw [List.getD_cons_succ] at hb
    rw [List.set_cons_succ]
    simp only [List.map_cons, List.sum_cons]
    have := sum_length_set_tail rest k hd t (by simpa using hk) hb
    omega

theorem flatten_set_tail_sublist :
    ∀ (B : List (List ℕ)) (k : ℕ) (hd : ℕ) (t : List ℕ),
      B.getD k [] = hd :: t → ((B.set k t).flatten).Sublist B.flatten
  | [], k, hd, t, hb => by
    exact absurd hb (by cases k <;> simp)
  | b :: rest, 0, hd, t, hb => by
    rw [List.getD_cons_zero] at hb
    subst hb
    rw [List.set_cons_zero, List.flatten_cons, List.flatten_cons]
    exact List.Sublist.append_right (List.sublist_cons_self hd t) _
  | b :: rest, k + 1, hd, t, hb => by
    rw [List.getD_cons_succ] at hb
    rw [List.set_cons_succ, List.flatten_cons, List.flatten_cons]
    exact List.Sublist.append_left (flatten_set_tail_sublist rest k hd t hb) b

theorem sum_zero_of_all_empty :
    ∀ (B : List (List ℕ)), (∀ k, k < B.length → B.getD k [] = []) →
      (B.map List.length).sum = 0
  | [], _ => rfl
  | b :: rest, hall => by
    have h0 := hall 0 (by simp)
    rw [List.getD_cons_zero] at h0
    subst h0
    simp only [List.map_cons, List.sum_cons, List.length_nil, Nat.zero_add]
    exact sum_zero_of_all_empty rest (fun k hk => by
      have := hall (k + 1) (by simpa using Nat.succ_lt_succ hk)
      rwa [List.getD_cons_succ] at this)

theorem popMinAux_spec (h : NKMinHeap) (B : List (List ℕ))
    (hR : Represents h B) (hz : h.size ≠ 0) (id0 : ℕ) (t : List ℕ)
    (hbk : B.getD h.minKey.toNat [] = id0 :: t) :
    (hent (popMinAux h) ((h.K : ℤ) + (id0 : ℤ))).key = -1 ∧
    (∀ id' : ℕ, id' ≠ id0 →
      (hent (popMinAux h) ((h.K : ℤ) + (id' : ℤ))).key =
        (hent h ((h.K : ℤ) + (id' : ℤ))).key) ∧
    (popMinAux h).size = h.size - 1 ∧
    (popMinAux h).K = h.K ∧
    Represents (popMinAux h) (B.set h.minKey.toNat t) := by
  obtain ⟨hlen, hBlen, hch, hnd, hsz, hkey, hmk0, hmk1⟩ := hR
  obtain ⟨hm0, hmK, hbne, hblow⟩ := hmk1 hz
  have hk : ((h.minKey.toNat : ℕ) : ℤ) = h.minKey := Int.toNat_of_nonneg hm0
  set k := h.minKey.toNat with hkdef
  have hkK : k < h.K := by omega
  have hkB : k < B.length := by omega
  have hchk := hch k hkK
  rw [hbk] at hchk
  unfold Chain at hchk
  obtain ⟨hn0, e1, e2, e3, hcht⟩ := hchk
  have e1' : (hent h h.minKey).next = (h.K : ℤ) + (id0 : ℤ) := by
    rw [← hk]
    exact e1
  have e2' : (hent h ((h.K : ℤ) + (id0 : ℤ))).prev = h.minKey := by
    rw [← hk]
    exact e2
  have hndk := bucket_nodup B k hnd
  rw [hbk] at hndk
  have hid0mem : id0 ∈ B.getD k [] := by
    rw [hbk]
    exact List.mem_cons_self id0 t
  cases t with
  | nil =>
    have hsucc : (hent h ((h.K : ℤ) + (id0 : ℤ))).next = -1 := by
      unfold Chain at hcht
      exact hcht
    set HD : NKMinHeap :=
      { hset (hsetNext h h.minKey (-1)) ((h.K : ℤ) + (id0 : ℤ)) default with
        size := h.size - 1 } with hHD
    have hform : popMinAux h =
        (if HD.size = 0 then { HD with minKey := -1 }
         else { HD with minKey := scanMin HD (HD.K + 1) HD.minKey }) := by
      rw [hHD]
      simp only [popMinAux, e1', e2', hsucc]
      rw [if_neg (show ¬((-1 : ℤ) ≠ -1) by omega)]
      simp only [hsetNext, hsetPrev, hset_size, hset_K, hset_minKey]
    have hHDlen : HD.entries.length = h.entries.length := by
      rw [hHD]
      show (hset (hsetNext h h.minKey (-1)) ((h.K : ℤ) + (id0 : ℤ))
        default).entries.length = _
      rw [hset_entries_length, hsetNext_entries_length]
    have hHDsize : HD.size = h.size - 1 := rfl
    have hHDK : HD.K = h.K := rfl
    have hHDmin : HD.minKey = h.minKey := rfl
    have hentHD_min : hent HD h.minKey = { hent h h.minKey with next := -1 } := by
      show hent (hset (hsetNext h h.minKey (-1)) ((h.K : ℤ) + (id0 : ℤ)) default)
        h.minKey = _
      rw [hent_hset_ne _ _ _ _ (by omega)]
      unfold hsetNext
      rw [hent_hset_self _ _ _ hm0 (by omega)]
    have hentHD_kid : hent HD ((h.K : ℤ) + (id0 : ℤ)) = default := by
      show hent (hset (hsetNext h h.minKey (-1)) ((h.K : ℤ) + (id0 : ℤ)) default)
        ((h.K : ℤ) + (id0 : ℤ)) = _
      rw [hent_hset_self _ _ _ (by omega)
        (by rw [hsetNext_entries_length]; omega)]
    have hentHD_other : ∀ j : ℤ, j ≠ h.minKey → j ≠ (h.K : ℤ) + (id0 : ℤ) →
        hent HD j = hent h j := by
      intro j hj1 hj2
      show hent (hset (hsetNext h h.minKey (-1)) ((h.K : ℤ) + (id0 : ℤ)) default)
        j = _
      rw [hent_hset_ne _ _ _ _ (fun he => hj2 he.symm)]
      unfold hsetNext
      rw [hent_hset_ne _ _ _ _ (fun he => hj1 he.symm)]
    have KEYPRES : ∀ id' : ℕ, id' ≠ id0 →
        hent HD ((h.K : ℤ) + (id' : ℤ)) = hent h ((h.K : ℤ) + (id' : ℤ)) := by
      intro id' hne
      exact hentHD_other _ (by omega) (by omega)
    have CH : ∀ k', k' < h.K →
        Chain HD k' ((k' : ℕ) : ℤ) ((B.set k ([] : List ℕ)).getD k' []) := by
      intro k' hk'
      by_cases hkk : k' = k
      · subst hkk
        rw [getD_set_self _ _ _ _ (by omega)]
        unfold Chain
        rw [hk, hentHD_min]
      · rw [getD_set_ne _ _ _ _ _ (fun he => hkk he.symm)]
        refine chain_congr h HD rfl rfl k' _ _ ?_ ?_ (hch k' hk')
        · rw [hentHD_other _ (by omega) (by omega)]
        · intro id hid
          have hdisj := buckets_disjoint B k k' hnd (fun he => hkk he.symm) id0 hid0mem
          have hne0 : id ≠ id0 := fun he => hdisj (he ▸ hid)
          exact hentHD_other _ (by omega) (by omega)
    have ND : ((B.set k ([] : List ℕ)).flatten).Nodup :=
      hnd.sublist (flatten_set_tail_sublist B k id0 [] hbk)
    have SUM : h.size - 1 = ((B.set k ([] : List ℕ)).map List.length).sum := by
      have := sum_length_set_tail B k id0 [] hkB hbk
      omega
    have bucketEmpty : ∀ k'' : ℕ, k'' < h.K →
        (hent HD ((k'' : ℕ) : ℤ)).next = -1 →
        (B.set k ([] : List ℕ)).getD k'' [] = [] := by
      intro k'' hkk hnx
      cases hcc : (B.set k ([] : List ℕ)).getD k'' [] with
      | nil => rfl
      | cons x xs =>
        have hch2 := CH k'' hkk
        rw [hcc] at hch2
        unfold Chain at hch2
        obtain ⟨_, hnext, _, _, _⟩ := hch2
        rw [hnx] at hnext
        omega
    refine ⟨?_, ?_, ?_, ?_, ?_⟩
    · rw [hform]
      split
      · show (hent HD ((h.K : ℤ) + (id0 : ℤ))).key = -1
        rw [hentHD_kid]
        rfl
      · show (hent HD ((h.K : ℤ) + (id0 : ℤ))).key = -1
        rw [hentHD_kid]
        rfl
    · intro id' hne
      rw [hform]
      split
      · show (hent HD ((h.K : ℤ) + (id' : ℤ))).key = _
        rw [KEYPRES id' hne]
      · show (hent HD ((h.K : ℤ) + (id' : ℤ))).key = _
        rw [KEYPRES id' hne]
    · rw [hform]
      split
      · exact hHDsize
      · exact hHDsize
    · rw [hform]
      split
      · rfl
      · rfl
    · rw [hform]
      by_cases hdz : HD.size = 0
      · rw [if_pos hdz]
        refine ⟨?_, ?_, ?_, ND, ?_, ?_, ?_, ?_⟩
        · show HD.entries.length = HD.K + HD.N
          rw [hHDlen]
          exact hlen
        · show (B.set k ([] : List ℕ)).length = HD.K
          rw [List.length_set, hHDK]
          exact hBlen
        · intro k' hk'
          exact chain_set_mk HD HD.size (-1) k' _ _ (CH k' hk')
        · show HD.size = _
          rw [hHDsize]
          exact SUM
        · intro id' hid' hkne
          by_cases hi : id' = id0
          · subst hi
            have hcon : (hent { HD with minKey := (-1 : ℤ) }
                ((h.K : ℤ) + (id' : ℤ))).key = -1 := by
              show (hent HD ((h.K : ℤ) + (id' : ℤ))).key = -1
              rw [hentHD_kid]
              rfl
            exact absurd hcon hkne
          · have heq := KEYPRES id' hi
            have hkne' : (hent h ((h.K : ℤ) + (id' : ℤ))).key ≠ -1 := by
              intro hcc
              apply hkne
              show (hent HD ((h.K : ℤ) + (id' : ℤ))).key = -1
              rw [heq]
              exact hcc
            obtain ⟨c0, c1, c2⟩ := hkey id' hid' hkne'
            refine ⟨?_, ?_, ?_⟩
            · show 0 ≤ (hent HD ((h.K : ℤ) + (id' : ℤ))).key
              rw [heq]
              exact c0
            · show (hent HD ((h.K : ℤ) + (id' : ℤ))).key < (h.K : ℤ)
              rw [heq]
              exact c1
            · show id' ∈ (B.set k ([] : List ℕ)).getD
                ((hent HD ((h.K : ℤ) + (id' : ℤ))).key).toNat []
              rw [heq]
              by_cases hkt : ((hent h ((h.K : ℤ) + (id' : ℤ))).key).toNat = k
              · rw [hkt] at c2
                rw [hbk] at c2
                simp at c2
                exact absurd c2 hi
              · rw [getD_set_ne _ _ _ _ _ (fun he => hkt he.symm)]
                exact c2
        · intro _
          rfl
        · intro hcon
          exact absurd hdz hcon
      · rw [if_neg hdz]
        obtain ⟨s1, s2, s3, s4⟩ := scanMin_spec HD (HD.K + 1) HD.minKey
          (show (0 : ℤ) ≤ HD.minKey from hm0)
          (by have h0 : (0 : ℤ) ≤ HD.minKey := hm0; omega)
        set m := scanMin HD (HD.K + 1) HD.minKey with hmdef
        have s1' : h.minKey ≤ m := s1
        have s2' : h.minKey ≤ (h.K : ℤ) → m ≤ (h.K : ℤ) := s2
        have s3' : ∀ j, h.minKey ≤ j → j < m → (hent HD j).next = -1 := s3
        have s4' : m < (h.K : ℤ) → (hent HD m).next ≠ -1 := s4
        have hmlt : m < (h.K : ℤ) := by
          by_contra hge
          push_neg at hge
          have hallemp : ∀ k'', k'' < (B.set k ([] : List ℕ)).length →
              (B.set k ([] : List ℕ)).getD k'' [] = [] := by
            intro k'' hkk
            have hkk' : k'' < h.K := by
              rw [List.length_set] at hkk
              omega
            by_cases hlow : ((k'' : ℕ) : ℤ) < h.minKey
            · rw [getD_set_ne _ _ _ _ _ (by omega)]
              exact hblow k'' hkk' hlow
            · push_neg at hlow
              exact bucketEmpty k'' hkk' (s3' _ hlow (by omega))
          have hsum0 := sum_zero_of_all_empty _ hallemp
          apply hdz
          rw [hHDsize]
          omega
        refine ⟨?_, ?_, ?_, ND, ?_, ?_, ?_, ?_⟩
        · show HD.entries.length = HD.K + HD.N
          rw [hHDlen]
          exact hlen
        · show (B.set k ([] : List ℕ)).length = HD.K
          rw [List.length_set, hHDK]
          exact hBlen
        · intro k' hk'
          exact chain_set_mk HD HD.size m k' _ _ (CH k' hk')
        · show HD.size = _
          rw [hHDsize]
          exact SUM
        · intro id' hid' hkne
          by_cases hi : id' = id0
          · subst hi
            have hcon : (hent { HD with minKey := m }
                ((h.K : ℤ) + (id' : ℤ))).key = -1 := by
              show (hent HD ((h.K : ℤ) + (id' : ℤ))).key = -1
              rw [hentHD_kid]
              rfl
            exact absurd hcon hkne
          · have heq := KEYPRES id' hi
            have hkne' : (hent h ((h.K : ℤ) + (id' : ℤ))).key ≠ -1 := by
              intro hcc
              apply hkne
              show (hent HD ((h.K : ℤ) + (id' : ℤ))).key = -1
              rw [heq]
              exact hcc
            obtain ⟨c0, c1, c2⟩ := hkey id' hid' hkne'
            refine ⟨?_, ?_, ?_⟩
            · show 0 ≤ (hent HD ((h.K : ℤ) + (id' : ℤ))).key
              rw [heq]
              exact c0
            · show (hent HD ((h.K : ℤ) + (id' : ℤ))).key < (h.K : ℤ)
              rw [heq]
              exact c1
            · show id' ∈ (B.set k ([] : List ℕ)).getD
                ((hent HD ((h.K : ℤ) + (id' : ℤ))).key).toNat []
              rw [heq]
              by_cases hkt : ((hent h ((h.K : ℤ) + (id' : ℤ))).key).toNat = k
              · rw [hkt] at c2
                rw [hbk] at c2
                simp at c2
                exact absurd c2 hi
              · rw [getD_set_ne _ _ _ _ _ (fun he => hkt he.symm)]
                exact c2
        · intro h0
          exact absurd h0 hdz
        · intro _
          refine ⟨?_, ?_, ?_, ?_⟩
          · show (0 : ℤ) ≤ m
            omega
          · show m < (h.K : ℤ)
            exact hmlt
          · intro hempty
            have hempty' : (B.set k ([] : List ℕ)).getD m.toNat [] = [] := hempty
            have hnonull := s4' hmlt
            have hchm := CH m.toNat (by omega)
            rw [hempty'] at hchm
            unfold Chain at hchm
            rw [show ((m.toNat : ℕ) : ℤ) = m from Int.toNat_of_nonneg (by omega)]
              at hchm
            exact hnonull hchm
          · intro k'' hkk hlt
            have hkk' : k'' < h.K := hkk
            have hlt' : ((k'' : ℕ) : ℤ) < m := hlt
            by_cases hlow : ((k'' : ℕ) : ℤ) < h.minKey
            · rw [getD_set_ne _ _ _ _ _ (by omega)]
              exact hblow k'' hkk' hlow
            · push_neg at hlow
              exact bucketEmpty k'' hkk' (s3' _ hlow hlt')
  | cons id1 t' =>
    unfold Chain at hcht
    obtain ⟨hn1, f1, f2, f3, hcht'⟩ := hcht
    have hid0nt : id0 ∉ id1 :: t' := (List.nodup_cons.mp hndk).1
    have hid1nt : id1 ∉ t' := (List.nodup_cons.mp (List.nodup_cons.mp hndk).2).1
    have hne01 : id0 ≠ id1 := fun he => hid0nt (he ▸ List.mem_cons_self id1 t')
    set HD : NKMinHeap :=
      { hset (hsetPrev (hsetNext h h.minKey ((h.K : ℤ) + (id1 : ℤ)))
          ((h.K : ℤ) + (id1 : ℤ)) h.minKey) ((h.K : ℤ) + (id0 : ℤ)) default with
        size := h.size - 1 } with hHD
    have hform : popMinAux h =
        (if HD.size = 0 then { HD with minKey := -1 }
         else { HD with minKey := scanMin HD (HD.K + 1) HD.minKey }) := by
      rw [hHD]
      simp only [popMinAux, e1', e2', f1]
      rw [if_pos (show ((h.K : ℤ) + (id1 : ℤ)) ≠ -1 by omega)]
      simp only [hsetNext, hsetPrev, hset_size, hset_K, hset_minKey]
    have hHDlen : HD.entries.length = h.entries.length := by
      rw [hHD]
      show (hset (hsetPrev (hsetNext h h.minKey ((h.K : ℤ) + (id1 : ℤ)))
        ((h.K : ℤ) + (id1 : ℤ)) h.minKey) ((h.K : ℤ) + (id0 : ℤ))
        default).entries.length = _
      rw [hset_entries_length, hsetPrev_entries_length, hsetNext_entries_length]
    have hHDsize : HD.size = h.size - 1 := rfl
    have hHDK : HD.K = h.K := rfl
    have hHDmin : HD.minKey = h.minKey := rfl
    have hentHD_min : hent HD h.minKey =
        { hent h h.minKey with next := (h.K : ℤ) + (id1 : ℤ) } := by
      show hent (hset (hsetPrev (hsetNext h h.minKey ((h.K : ℤ) + (id1 : ℤ)))
        ((h.K : ℤ) + (id1 : ℤ)) h.minKey) ((h.K : ℤ) + (id0 : ℤ)) default)
        h.minKey = _
      rw [hent_hset_ne _ _ _ _ (by omega)]
      unfold hsetPrev
      rw [hent_hset_ne _ _ _ _ (by omega)]
      unfold hsetNext
      rw [hent_hset_self _ _ _ hm0 (by omega)]
    have hentHD_kid : hent HD ((h.K : ℤ) + (id0 : ℤ)) = default := by
      show hent (hset (hsetPrev (hsetNext h h.minKey ((h.K : ℤ) + (id1 : ℤ)))
        ((h.K : ℤ) + (id1 : ℤ)) h.minKey) ((h.K : ℤ) + (id0 : ℤ)) default)
        ((h.K : ℤ) + (id0 : ℤ)) = _
      rw [hent_hset_self _ _ _ (by omega)
        (by rw [hsetPrev_entries_length, hsetNext_entries_length]; omega)]
    have hentHD_succ : hent HD ((h.K : ℤ) + (id1 : ℤ)) =
        { hent h ((h.K : ℤ) + (id1 : ℤ)) with prev := h.minKey } := by
      show hent (hset (hsetPrev (hsetNext h h.minKey ((h.K : ℤ) + (id1 : ℤ)))
        ((h.K : ℤ) + (id1 : ℤ)) h.minKey) ((h.K : ℤ) + (id0 : ℤ)) default)
        ((h.K : ℤ) + (id1 : ℤ)) = _
      rw [hent_hset_ne _ _ _ _ (by omega)]
      unfold hsetPrev
      rw [hent_hset_self _ _ _ (by omega)
        (by rw [hsetNext_entries_length]; omega)]
      unfold hsetNext
      rw [hent_hset_ne _ _ _ _ (by omega)]
    have hentHD_other : ∀ j : ℤ, j ≠ h.minKey → j ≠ (h.K : ℤ) + (id0 : ℤ) →
        j ≠ (h.K : ℤ) + (id1 : ℤ) → hent HD j = hent h j := by
      intro j hj1 hj2 hj3
      show hent (hset (hsetPrev (hsetNext h h.minKey ((h.K : ℤ) + (id1 : ℤ)))
        ((h.K : ℤ) + (id1 : ℤ)) h.minKey) ((h.K : ℤ) + (id0 : ℤ)) default) j = _
      rw [hent_hset_ne _ _ _ _ (fun he => hj2 he.symm)]
      unfold hsetPrev
      rw [hent_hset_ne _ _ _ _ (fun he => hj3 he.symm)]
      unfold hsetNext
      rw [hent_hset_ne _ _ _ _ (fun he => hj1 he.symm)]
    have KEYPRES : ∀ id' : ℕ, id' ≠ id0 →
        (hent HD ((h.K : ℤ) + (id' : ℤ))).key =
          (hent h ((h.K : ℤ) + (id' : ℤ))).key := by
      intro id' hne
      by_cases hi1 : id' = id1
      · subst hi1
        rw [hentHD_succ]
      · rw [hentHD_other _ (by omega) (by omega) (by omega)]
    have CH : ∀ k', k' < h.K →
        Chain HD k' ((k' : ℕ) : ℤ) ((B.set k (id1 :: t')).getD k' []) := by
      intro k' hk'
      by_cases hkk : k' = k
      · subst hkk
        rw [getD_set_self _ _ _ _ (by omega)]
        unfold Chain
        refine ⟨hn1, ?_, ?_, ?_, ?_⟩
        · show (hent HD ((k : ℕ) : ℤ)).next = (h.K : ℤ) + (id1 : ℤ)
          rw [hk, hentHD_min]
        · show (hent HD ((h.K : ℤ) + (id1 : ℤ))).prev = ((k : ℕ) : ℤ)
          rw [hentHD_succ]
          exact hk.symm
        · show (hent HD ((h.K : ℤ) + (id1 : ℤ))).key = ((k : ℕ) : ℤ)
          rw [hentHD_succ]
          exact f3
        · show Chain HD k ((h.K : ℤ) + (id1 : ℤ)) t'
          refine chain_congr h HD rfl rfl k _ _ ?_ ?_ hcht'
          · rw [hentHD_succ]
          · intro id hid
            have hne0 : id ≠ id0 :=
              fun he => hid0nt (he ▸ List.mem_cons_of_mem id1 hid)
            have hne1 : id ≠ id1 := fun he => hid1nt (he ▸ hid)
            exact hentHD_other _ (by omega) (by omega) (by omega)
      · rw [getD_set_ne _ _ _ _ _ (fun he => hkk he.symm)]
        refine chain_congr h HD rfl rfl k' _ _ ?_ ?_ (hch k' hk')
        · rw [hentHD_other _ (by omega) (by omega) (by omega)]
        · intro id hid
          have hdisj0 := buckets_disjoint B k k' hnd (fun he => hkk he.symm) id0
            hid0mem
          have hid1mem : id1 ∈ B.getD k [] := by
            rw [hbk]
            exact List.mem_cons_of_mem id0 (List.mem_cons_self id1 t')
          have hdisj1 := buckets_disjoint B k k' hnd (fun he => hkk he.symm) id1
            hid1mem
          have hne0 : id ≠ id0 := fun he => hdisj0 (he ▸ hid)
          have hne1 : id ≠ id1 := fun he => hdisj1 (he ▸ hid)
          exact hentHD_other _ (by omega) (by omega) (by omega)
    have ND : ((B.set k (id1 :: t')).flatten).Nodup :=
      hnd.sublist (flatten_set_tail_sublist B k id0 (id1 :: t') hbk)
    have SUM : h.size - 1 = ((B.set k (id1 :: t')).map List.length).sum := by
      have := sum_length_set_tail B k id0 (id1 :: t') hkB hbk
      omega
    have bucketEmpty : ∀ k'' : ℕ, k'' < h.K →
        (hent HD ((k'' : ℕ) : ℤ)).next = -1 →
        (B.set k (id1 :: t')).getD k'' [] = [] := by
      intro k'' hkk hnx
      cases hcc : (B.set k (id1 :: t')).getD k'' [] with
      | nil => rfl
      | cons x xs =>
        have hch2 := CH k'' hkk
        rw [hcc] at hch2
        unfold Chain at hch2
        obtain ⟨_, hnext, _, _, _⟩ := hch2
        rw [hnx] at hnext
        omega
    refine ⟨?_, ?_, ?_, ?_, ?_⟩
    · rw [hform]
      split
      · show (hent HD ((h.K : ℤ) + (id0 : ℤ))).key = -1
        rw [hentHD_kid]
        rfl
      · show (hent HD ((h.K : ℤ) + (id0 : ℤ))).key = -1
        rw [hentHD_kid]
        rfl
    · intro id' hne
      rw [hform]
      split
      · show (hent HD ((h.K : ℤ) + (id' : ℤ))).key = _
        rw [KEYPRES id' hne]
      · show (hent HD ((h.K : ℤ) + (id' : ℤ))).key = _
        rw [KEYPRES id' hne]
    · rw [hform]
      split
      · exact hHDsize
      · exact hHDsize
    · rw [hform]
      split
      · rfl
      · rfl
    · rw [hform]
      by_cases hdz : HD.size = 0
      · rw [if_pos hdz]
        refine ⟨?_, ?_, ?_, ND, ?_, ?_, ?_, ?_⟩
        · show HD.entries.length = HD.K + HD.N
          rw [hHDlen]
          exact hlen
        · show (B.set k (id1 :: t')).length = HD.K
          rw [List.length_set, hHDK]
          exact hBlen
        · intro k' hk'
          exact chain_set_mk HD HD.size (-1) k' _ _ (CH k' hk')
        · show HD.size = _
          rw [hHDsize]
          exact SUM
        · intro id' hid' hkne
          by_cases hi : id' = id0
          · subst hi
            have hcon : (hent { HD with minKey := (-1 : ℤ) }
                ((h.K : ℤ) + (id' : ℤ))).key = -1 := by
              show (hent HD ((h.K : ℤ) + (id' : ℤ))).key = -1
              rw [hentHD_kid]
              rfl
            exact absurd hcon hkne
          · have heq := KEYPRES id' hi
            have hkne' : (hent h ((h.K : ℤ) + (id' : ℤ))).key ≠ -1 := by
              intro hcc
              apply hkne
              show (hent HD ((h.K : ℤ) + (id' : ℤ))).key = -1
              rw [heq]
              exact hcc
            obtain ⟨c0, c1, c2⟩ := hkey id' hid' hkne'
            refine ⟨?_, ?_, ?_⟩
            · show 0 ≤ (hent HD ((h.K : ℤ) + (id' : ℤ))).key
              rw [heq]
              exact c0
            · show (hent HD ((h.K : ℤ) + (id' : ℤ))).key < (h.K : ℤ)
              rw [heq]
              exact c1
            · show id' ∈ (B.set k (id1 :: t')).getD
                ((hent HD ((h.K : ℤ) + (id' : ℤ))).key).toNat []
              rw [heq]
              by_cases hkt : ((hent h ((h.K : ℤ) + (id' : ℤ))).key).toNat = k
              · rw [hkt] at c2
                rw [hbk] at c2
                rw [hkt, getD_set_self _ _ _ _ (by omega)]
                rcases List.mem_cons.mp c2 with hc | hc
                · exact absurd hc hi
                · exact hc
              · rw [getD_set_ne _ _ _ _ _ (fun he => hkt he.symm)]
                exact c2
        · intro _
          rfl
        · intro hcon
          exact absurd hdz hcon
      · rw [if_neg hdz]
        obtain ⟨s1, s2, s3, s4⟩ := scanMin_spec HD (HD.K + 1) HD.minKey
          (show (0 : ℤ) ≤ HD.minKey from hm0)
          (by have h0 : (0 : ℤ) ≤ HD.minKey := hm0; omega)
        set m := scanMin HD (HD.K + 1) HD.minKey with hmdef
        have s1' : h.minKey ≤ m := s1
        have s2' : h.minKey ≤ (h.K : ℤ) → m ≤ (h.K : ℤ) := s2
        have s3' : ∀ j, h.minKey ≤ j → j < m → (hent HD j).next = -1 := s3
        have s4' : m < (h.K : ℤ) → (hent HD m).next ≠ -1 := s4
        have hmlt : m < (h.K : ℤ) := by
          by_contra hge
          push_neg at hge
          have hallemp : ∀ k'', k'' < (B.set k (id1 :: t')).length →
              (B.set k (id1 :: t')).getD k'' [] = [] := by
            intro k'' hkk
            have hkk' : k'' < h.K := by
              rw [List.length_set] at hkk
              omega
            by_cases hlow : ((k'' : ℕ) : ℤ) < h.minKey
            · rw [getD_set_ne _ _ _ _ _ (by omega)]
              exact hblow k'' hkk' hlow
            · push_neg at hlow
              exact bucketEmpty k'' hkk' (s3' _ hlow (by omega))
          have hsum0 := sum_zero_of_all_empty _ hallemp
          apply hdz
          rw [hHDsize]
          omega
        refine ⟨?_, ?_, ?_, ND, ?_, ?_, ?_, ?_⟩
        · show HD.entries.length = HD.K + HD.N
          rw [hHDlen]
          exact hlen
        · show (B.set k (id1 :: t')).length = HD.K
          rw [List.length_set, hHDK]
          exact hBlen
        · intro k' hk'
          exact chain_set_mk HD HD.size m k' _ _ (CH k' hk')
        · show HD.size = _
          rw [hHDsize]
          exact SUM
        · intro id' hid' hkne
          by_cases hi : id' = id0
          · subst hi
            have hcon : (hent { HD with minKey := m }
                ((h.K : ℤ) + (id' : ℤ))).key = -1 := by
              show (hent HD ((h.K : ℤ) + (id' : ℤ))).key = -1
              rw [hentHD_kid]
              rfl
            exact absurd hcon hkne
          · have heq := KEYPRES id' hi
            have hkne' : (hent h ((h.K : ℤ) + (id' : ℤ))).key ≠ -1 := by
              intro hcc
              apply hkne
              show (hent HD ((h.K : ℤ) + (id' : ℤ))).key = -1
              rw [heq]
              exact hcc
            obtain ⟨c0, c1, c2⟩ := hkey id' hid' hkne'
            refine ⟨?_, ?_, ?_⟩
            · show 0 ≤ (hent HD ((h.K : ℤ) + (id' : ℤ))).key
              rw [heq]
              exact c0
            · show (hent HD ((h.K : ℤ) + (id' : ℤ))).key < (h.K : ℤ)
              rw [heq]
              exact c1
            · show id' ∈ (B.set k (id1 :: t')).getD
                ((hent HD ((h.K : ℤ) + (id' : ℤ))).key).toNat []
              rw [heq]
              by_cases hkt : ((hent h ((h.K : ℤ) + (id' : ℤ))).key).toNat = k
              · rw [hkt] at c2
                rw [hbk] at c2
                rw [hkt, getD_set_self _ _ _ _ (by omega)]
                rcases List.mem_cons.mp c2 with hc | hc
                · exact absurd hc hi
                · exact hc
              · rw [getD_set_ne _ _ _ _ _ (fun he => hkt he.symm)]
                exact c2
        · intro h0
          exact absurd h0 hdz
        · intro _
          refine ⟨?_, ?_, ?_, ?_⟩
          · show (0 : ℤ) ≤ m
            omega
          · show m < (h.K : ℤ)
            exact hmlt
          · intro hempty
            have hempty' : (B.set k (id1 :: t')).getD m.toNat [] = [] := hempty
            have hnonull := s4' hmlt
            have hchm := CH m.toNat (by omega)
            rw [hempty'] at hchm
            unfold Chain at hchm
            rw [show ((m.toNat : ℕ) : ℤ) = m from Int.toNat_of_nonneg (by omega)]
              at hchm
            exact hnonull hchm
          · intro k'' hkk hlt
            have hkk' : k'' < h.K := hkk
            have hlt' : ((k'' : ℕ) : ℤ) < m := hlt
            by_cases hlow : ((k'' : ℕ) : ℤ) < h.minKey
            · rw [getD_set_ne _ _ _ _ _ (by omega)]
              exact hblow k'' hkk' hlow
            · push_neg at hlow
              exact bucketEmpty k'' hkk' (s3' _ hlow hlt')


theorem setT_mem (tys : List VertexType) (i : ℤ) (v x : VertexType)
    (hx : x ∈ setT tys i v) : x ∈ tys ∨ x = v := by
  unfold setT at hx
  split at hx
  · exact List.mem_or_eq_of_mem_set hx
  · exact Or.inl hx

theorem gcgCand_mem (fsz csz : V3) (acc : List VertexType × NKMinHeap × Bool)
    (I : V3) (x : VertexType) (hx : x ∈ (gcgCand fsz csz acc I).1) :
    x ∈ acc.1 ∨ x = vtRemoved ∨ x = vtZero := by
  simp only [gcgCand] at hx
  by_cases hc : getT acc.1 (linIdx csz I) = vtFree
  · rw [if_pos hc] at hx
    by_cases hb : acc.2.2 = true
    · rw [if_pos hb] at hx
      have hx' : x ∈ setT acc.1 (linIdx csz I) vtRemoved := hx
      rcases setT_mem _ _ _ _ hx' with hh | hh
      · exact Or.inl hh
      · exact Or.inr (Or.inl hh)
    · rw [if_neg hb] at hx
      have hx' : x ∈ setT acc.1 (linIdx csz I) vtZero := hx
      rcases setT_mem _ _ _ _ hx' with hh | hh
      · exact Or.inl hh
      · exact Or.inr (Or.inr hh)
  · rw [if_neg hc] at hx
    exact Or.inl hx

theorem gcgPop_mem (fsz csz : V3) (tys : List VertexType) (hp : NKMinHeap)
    (x : VertexType) (hx : x ∈ (gcgPop fsz csz tys hp).1) :
    x ∈ tys ∨ x = vtRemoved ∨ x = vtZero := by
  unfold gcgPop at hx
  have hgen : ∀ (L : List V3) (acc : List VertexType × NKMinHeap × Bool),
      x ∈ (L.foldl (gcgCand fsz csz) acc).1 →
      x ∈ acc.1 ∨ x = vtRemoved ∨ x = vtZero := by
    intro L
    induction L with
    | nil => exact fun acc hh => Or.inl hh
    | cons hd tl ih =>
      intro acc hh
      rw [List.foldl_cons] at hh
      rcases ih _ hh with hh2 | hh2
      · exact gcgCand_mem fsz csz acc hd x hh2
      · exact Or.inr hh2
  exact hgen _ _ hx

theorem gcgLoop_mem (fsz csz : V3) :
    ∀ (fuel : ℕ) (tys : List VertexType) (hp : NKMinHeap) (x : VertexType),
      x ∈ (gcgLoop fsz csz fuel tys hp).1 →
      x ∈ tys ∨ x = vtRemoved ∨ x = vtZero
  | 0, tys, hp, x, hx => Or.inl hx
  | fuel + 1, tys, hp, x, hx => by
    unfold gcgLoop at hx
    split at hx
    · exact Or.inl hx
    · rcases gcgLoop_mem fsz csz fuel _ _ x hx with hh | hh
      · exact gcgPop_mem fsz csz tys hp x hh
      · exact Or.inr hh

theorem gcgFinal_collapse (x : VertexType)
    (hx : x = vtFree ∨ x = vtRemoved ∨ x = vtZero) :
    gcgFinal x = vtActive ∨ gcgFinal x = vtInactive := by
  rcases hx with h | h | h <;> rw [h] <;> decide

/-- Claim C5: when `genCoarseGrid(l)` returns, every level-`l` vertex is
classified `Active` or `Inactive` — the transient states `Free`, `Zero`,
`Removed` used during selection are all collapsed by the final pass — and
the classification arrays of all other levels are untouched, so a transient
state is never observable outside the routine. -/
theorem claim_C5_no_transients (st : GridMg) (l : ℕ) (hl : l < st.types.length) :
    (∀ ty ∈ (st.genCoarseGrid l).types.getD l [],
      ty = vtActive ∨ ty = vtInactive) ∧
    (∀ l', l' ≠ l → (st.genCoarseGrid l).types.getD l' [] = st.types.getD l' []) := by
  constructor
  · intro ty hty
    have hproj : (st.genCoarseGrid l).types.getD l [] =
        genCoarseGridTypes st.is3D (st.sz (l - 1)) (st.sz l)
          (st.types.getD (l - 1) []) :=
      getD_set_self _ l _ [] hl
    rw [hproj] at hty
    unfold genCoarseGridTypes at hty
    rcases List.mem_map.mp hty with ⟨x, hxm, hxe⟩
    rcases gcgLoop_mem _ _ _ _ _ x hxm with hh | hh
    · have hf : x = vtFree := List.eq_of_mem_replicate hh
      rw [← hxe]
      exact gcgFinal_collapse x (Or.inl hf)
    · rw [← hxe]
      exact gcgFinal_collapse x (Or.inr hh)
  · intro l' hne
    show (st.types.set l (genCoarseGridTypes st.is3D (st.sz (l - 1)) (st.sz l)
      (st.types.getD (l - 1) []))).getD l' [] = st.types.getD l' []
    exact getD_set_ne _ _ _ _ _ (fun he => hne he.symm)

/-- Witness for C5: the theorem applied to the concrete state `exSt` at
level 0. -/
theorem claim_C5_no_transients_witness :
    0 < exSt.types.length ∧
    ((∀ ty ∈ (exSt.genCoarseGrid 0).types.getD 0 [],
      ty = vtActive ∨ ty = vtInactive) ∧
    (∀ l', l' ≠ 0 →
      (exSt.genCoarseGrid 0).types.getD l' [] = exSt.types.getD l' [])) :=
  ⟨by decide, claim_C5_no_transients exSt 0 (by decide)⟩

/-- Claim C9: under the representation invariant, `peekMin` and `popMin`
return the sentinel pair (-1,-1) on an empty structure (`popMin` leaving the
state unchanged); on a non-empty structure they return a pair (id, key)
where key = `mMinKey` is the minimum key among all stored identifiers and id
is stored with that key; `popMin` additionally removes exactly that
identifier (its key becomes -1, every other stored key is unchanged),
decrements the size by one, and preserves the representation invariant with
that identifier deleted from its bucket. -/
theorem claim_C9_heap (h : NKMinHeap) (B : List (List ℕ)) (hR : Represents h B) :
    (h.size = 0 → h.peekMin = (-1, -1) ∧ h.popMin = ((-1, -1), h)) ∧
    (h.size ≠ 0 → ∃ i0 : ℕ, i0 < h.N ∧
      h.peekMin = ((i0 : ℤ), h.minKey) ∧
      h.popMin.1 = ((i0 : ℤ), h.minKey) ∧
      h.getKey (i0 : ℤ) = h.minKey ∧
      (∀ id' : ℕ, id' < h.N → h.getKey (id' : ℤ) ≠ -1 →
        h.minKey ≤ h.getKey (id' : ℤ)) ∧
      h.popMin.2.size = h.size - 1 ∧
      h.popMin.2.getKey (i0 : ℤ) = -1 ∧
      (∀ id' : ℕ, id' < h.N → id' ≠ i0 →
        h.popMin.2.getKey (id' : ℤ) = h.getKey (id' : ℤ)) ∧
      Represents h.popMin.2
        (B.set h.minKey.toNat ((B.getD h.minKey.toNat []).tail))) := by
  constructor
  · intro hz
    constructor
    · unfold NKMinHeap.peekMin
      rw [if_pos hz]
    · unfold NKMinHeap.popMin
      rw [if_pos hz]
  · intro hz
    obtain ⟨hlenX, hBlenX, hchX, hndX, hszX, hkeyX, hmk0X, hmk1X⟩ := hR
    obtain ⟨hm0, hmK, hbne, hblow⟩ := hmk1X hz
    obtain ⟨i0, t, hbk⟩ : ∃ i0 t, B.getD h.minKey.toNat [] = i0 :: t := by
      cases hbkc : B.getD h.minKey.toNat [] with
      | nil => exact absurd hbkc hbne
      | cons a l => exact ⟨a, l, rfl⟩
    have hR' : Represents h B :=
      ⟨hlenX, hBlenX, hchX, hndX, hszX, hkeyX, hmk0X, hmk1X⟩
    obtain ⟨P1, P2, P3, PK, P4⟩ := popMinAux_spec h B hR' hz i0 t hbk
    have hk : ((h.minKey.toNat : ℕ) : ℤ) = h.minKey := Int.toNat_of_nonneg hm0
    have hkK : h.minKey.toNat < h.K := by omega
    have hchk := hchX h.minKey.toNat hkK
    rw [hbk] at hchk
    unfold Chain at hchk
    obtain ⟨hn0, e1, e2, e3, _⟩ := hchk
    have e1' : (hent h h.minKey).next = (h.K : ℤ) + (i0 : ℤ) := by
      rw [← hk]
      exact e1
    have hpop2 : h.popMin.2 = popMinAux h := by
      unfold NKMinHeap.popMin
      rw [if_neg hz]
    have hK2 : (popMinAux h).K = h.K := PK
    have hsub : (h.K : ℤ) + (i0 : ℤ) - (h.K : ℤ) = (i0 : ℤ) := by omega
    refine ⟨i0, hn0, ?_, ?_, ?_, ?_, ?_, ?_, ?_, ?_⟩
    · unfold NKMinHeap.peekMin
      rw [if_neg hz, e1', hsub]
    · unfold NKMinHeap.popMin
      rw [if_neg hz]
      show ((hent h h.minKey).next - (h.K : ℤ), h.minKey) = ((i0 : ℤ), h.minKey)
      rw [e1', hsub]
    · show (hent h ((h.K : ℤ) + (i0 : ℤ))).key = h.minKey
      rw [e3]
      exact hk
    · intro id' hid' hkne
      have hkne' : (hent h ((h.K : ℤ) + (id' : ℤ))).key ≠ -1 := hkne
      obtain ⟨c0, c1, c2⟩ := hkeyX id' hid' hkne'
      show h.minKey ≤ (hent h ((h.K : ℤ) + (id' : ℤ))).key
      by_contra hcon
      push_neg at hcon
      have hemp := hblow ((hent h ((h.K : ℤ) + (id' : ℤ))).key).toNat
        (by omega) (by omega)
      rw [hemp] at c2
      exact absurd c2 (List.not_mem_nil id')
    · rw [hpop2]
      exact P3
    · rw [hpop2]
      show (hent (popMinAux h) (((popMinAux h).K : ℤ) + (i0 : ℤ))).key = -1
      rw [hK2]
      exact P1
    · intro id' hid' hne
      rw [hpop2]
      show (hent (popMinAux h) (((popMinAux h).K : ℤ) + (id' : ℤ))).key =
        h.getKey (id' : ℤ)
      rw [hK2]
      exact P2 id' hne
    · rw [hpop2, hbk]
      exact P4

/-- Witness for C9: the theorem applied to the concrete two-bucket heap
`exHeap` represented by `exB`. -/
theorem claim_C9_heap_witness :
    Represents exHeap exB ∧
    ((exHeap.size = 0 →
      exHeap.peekMin = (-1, -1) ∧ exHeap.popMin = ((-1, -1), exHeap)) ∧
    (exHeap.size ≠ 0 → ∃ i0 : ℕ, i0 < exHeap.N ∧
      exHeap.peekMin = ((i0 : ℤ), exHeap.minKey) ∧
      exHeap.popMin.1 = ((i0 : ℤ), exHeap.minKey) ∧
      exHeap.getKey (i0 : ℤ) = exHeap.minKey ∧
      (∀ id' : ℕ, id' < exHeap.N → exHeap.getKey (id' : ℤ) ≠ -1 →
        exHeap.minKey ≤ exHeap.getKey (id' : ℤ)) ∧
      exHeap.popMin.2.size = exHeap.size - 1 ∧
      exHeap.popMin.2.getKey (i0 : ℤ) = -1 ∧
      (∀ id' : ℕ, id' < exHeap.N → id' ≠ i0 →
        exHeap.popMin.2.getKey (id' : ℤ) = exHeap.getKey (id' : ℤ)) ∧
      Represents exHeap.popMin.2
        (exB.set exHeap.minKey.toNat ((exB.getD exHeap.minKey.toNat []).tail)))) :=
  ⟨by decide, claim_C9_heap exHeap exB (by decide)⟩

/-! ## Geometry of candidate and restriction boxes -/

theorem intRange_nodup (lo hi : ℤ) : (intRange lo hi).Nodup := by
  unfold intRange
  exact List.Nodup.map (fun a b hab => by omega) (List.nodup_range _)

theorem intRange_length (lo hi : ℤ) :
    (intRange lo hi).length = (hi + 1 - lo).toNat := by
  unfold intRange
  rw [List.length_map, List.length_range]

theorem mem_boxList (lo hi p : V3) :
    p ∈ boxList lo hi ↔
      (lo.x ≤ p.x ∧ p.x ≤ hi.x ∧ lo.y ≤ p.y ∧ p.y ≤ hi.y ∧
       lo.z ≤ p.z ∧ p.z ≤ hi.z) := by
  unfold boxList
  simp only [List.mem_flatMap, List.mem_map, mem_intRange]
  constructor
  · rintro ⟨z, hz, y, hy, x, hx, rfl⟩
    exact ⟨hx.1, hx.2, hy.1, hy.2, hz.1, hz.2⟩
  · rintro ⟨h1, h2, h3, h4, h5, h6⟩
    exact ⟨p.z, ⟨h5, h6⟩, p.y, ⟨h3, h4⟩, p.x, ⟨h1, h2⟩, rfl⟩

theorem nodup_flatMap_of {α β : Type} (l : List α) (f : α → List β)
    (hl : l.Nodup) (hf : ∀ a ∈ l, (f a).Nodup)
    (hdisj : ∀ a ∈ l, ∀ b ∈ l, a ≠ b → ∀ p ∈ f a, p ∉ f b) :
    (l.flatMap f).Nodup := by
  induction l with
  | nil => exact List.nodup_nil
  | cons hd tl ih =>
    rw [List.flatMap_cons]
    apply List.Nodup.append
    · exact hf hd (List.mem_cons_self hd tl)
    · exact ih (List.nodup_cons.mp hl).2
        (fun a ha => hf a (List.mem_cons_of_mem hd ha))
        (fun a ha b hb hab => hdisj a (List.mem_cons_of_mem hd ha)
          b (List.mem_cons_of_mem hd hb) hab)
    · intro p hp hp2
      rcases List.mem_flatMap.mp hp2 with ⟨b, hb, hpb⟩
      have hne : hd ≠ b := fun he => (List.nodup_cons.mp hl).1 (he ▸ hb)
      exact hdisj hd (List.mem_cons_self hd tl) b (List.mem_cons_of_mem hd hb)
        hne p hp hpb

theorem boxList_nodup (lo hi : V3) : (boxList lo hi).Nodup := by
  unfold boxList
  apply nodup_flatMap_of _ _ (intRange_nodup _ _)
  · intro z _
    apply nodup_flatMap_of _ _ (intRange_nodup _ _)
    · intro y _
      exact List.Nodup.map (fun a b hab => by
        have := congrArg V3.x hab
        exact this) (intRange_nodup _ _)
    · intro y _ y' _ hyy p hp hp'
      rcases List.mem_map.mp hp with ⟨x, _, rfl⟩
      rcases List.mem_map.mp hp' with ⟨x', _, he⟩
      exact hyy (congrArg V3.y he).symm
  · intro z _ z' _ hzz p hp hp'
    rcases List.mem_flatMap.mp hp with ⟨y, _, hpy⟩
    rcases List.mem_flatMap.mp hp' with ⟨y', _, hpy'⟩
    rcases List.mem_map.mp hpy with ⟨x, _, rfl⟩
    rcases List.mem_map.mp hpy' with ⟨x', _, he⟩
    exact hzz (congrArg V3.z he).symm

theorem vecIdx_linIdx (sz p : V3) (hp : inGrid sz p) :
    vecIdx sz (linIdx sz p) = p := by
  obtain ⟨h1, h2, h3, h4, h5, h6⟩ := hp
  have hv0 : 0 ≤ linIdx sz p := by
    unfold linIdx
    have a1 : 0 ≤ p.y * sz.x := mul_nonneg h3 (by omega)
    have a2 : 0 ≤ p.z * sz.x * sz.y := mul_nonneg (mul_nonneg h5 (by omega)) (by omega)
    omega
  have hxy : (0 : ℤ) < sz.x * sz.y := mul_pos (by omega) (by omega)
  have hrw : linIdx sz p = p.x + sz.x * (p.y + sz.y * p.z) := by
    unfold linIdx
    ring
  have hd1 : linIdx sz p % sz.x = p.x := by
    rw [hrw, Int.add_mul_emod_self_left, Int.emod_eq_of_lt h1 h2]
  have hq1 : linIdx sz p / sz.x = p.y + sz.y * p.z := by
    rw [hrw, Int.add_mul_ediv_left _ _ (by omega : sz.x ≠ 0),
      Int.ediv_eq_zero_of_lt h1 h2, zero_add]
  have hd2 : (p.y + sz.y * p.z) % sz.y = p.y := by
    rw [Int.add_mul_emod_self_left, Int.emod_eq_of_lt h3 h4]
  have hrw2 : linIdx sz p = (p.x + sz.x * p.y) + (sz.x * sz.y) * p.z := by
    unfold linIdx
    ring
  have hlt : p.x + sz.x * p.y < sz.x * sz.y := by
    have b1 : sz.x * p.y ≤ sz.x * (sz.y - 1) :=
      mul_le_mul_of_nonneg_left (by omega) (by omega)
    nlinarith
  have hge : 0 ≤ p.x + sz.x * p.y := by
    have : 0 ≤ sz.x * p.y := mul_nonneg (by omega) h3
    omega
  have hq2 : linIdx sz p / (sz.x * sz.y) = p.z := by
    rw [hrw2, Int.add_mul_ediv_left _ _ (by omega : sz.x * sz.y ≠ 0),
      Int.ediv_eq_zero_of_lt hge hlt, zero_add]
  show (⟨(linIdx sz p).tmod sz.x, ((linIdx sz p).tdiv sz.x).tmod sz.y,
    (linIdx sz p).tdiv (sz.x * sz.y)⟩ : V3) = p
  rw [tmodE _ _ hv0 (by omega), tdivE _ _ hv0 (by omega),
    tdivE _ _ hv0 (by omega), hd1, hq1,
    tmodE _ _ (by have := mul_nonneg (show (0:ℤ) ≤ sz.y by omega) h5; omega)
      (by omega),
    hd2, hq2]

theorem linIdx_bounds (sz p : V3) (hp : inGrid sz p) :
    0 ≤ linIdx sz p ∧ linIdx sz p < vcount sz := by
  obtain ⟨h1, h2, h3, h4, h5, h6⟩ := hp
  unfold linIdx vcount
  constructor
  · have a1 : 0 ≤ p.y * sz.x := mul_nonneg h3 (by omega)
    have a2 : 0 ≤ p.z * sz.x * sz.y := mul_nonneg (mul_nonneg h5 (by omega)) (by omega)
    omega
  · have b1 : p.y * sz.x ≤ (sz.y - 1) * sz.x :=
      mul_le_mul_of_nonneg_right (by omega) (by omega)
    have b2 : p.z * sz.x * sz.y ≤ (sz.z - 1) * sz.x * sz.y := by
      have : p.z * (sz.x * sz.y) ≤ (sz.z - 1) * (sz.x * sz.y) :=
        mul_le_mul_of_nonneg_right (by omega)
          (mul_nonneg (by omega) (by omega))
      nlinarith
    nlinarith

theorem linIdx_inj (sz p q : V3) (hp : inGrid sz p) (hq : inGrid sz q)
    (he : linIdx sz p = linIdx sz q) : p = q := by
  have := vecIdx_linIdx sz p hp
  rw [he, vecIdx_linIdx sz q hq] at this
  exact this.symm

theorem mem_candBox (V I : V3) :
    I ∈ candBox V ↔
      (V.x.tdiv 2 ≤ I.x ∧ I.x ≤ (V.x + 1).tdiv 2 ∧
       V.y.tdiv 2 ≤ I.y ∧ I.y ≤ (V.y + 1).tdiv 2 ∧
       V.z.tdiv 2 ≤ I.z ∧ I.z ≤ (V.z + 1).tdiv 2) := by
  unfold candBox
  rw [mem_boxList]
  unfold V3.half V3.pl
  dsimp only
  exact Iff.rfl

theorem mem_restrBox (fsz I R : V3) :
    R ∈ restrBox fsz I ↔
      (max 0 (I.x * 2 - 1) ≤ R.x ∧ R.x ≤ min (fsz.x - 1) (I.x * 2 + 1) ∧
       max 0 (I.y * 2 - 1) ≤ R.y ∧ R.y ≤ min (fsz.y - 1) (I.y * 2 + 1) ∧
       max 0 (I.z * 2 - 1) ≤ R.z ∧ R.z ≤ min (fsz.z - 1) (I.z * 2 + 1)) := by
  unfold restrBox
  rw [mem_boxList]
  unfold V3.vmax V3.vmin V3.sc V3.pl
  dsimp only
  omega

theorem restrBox_inGrid (fsz I R : V3) (hR : R ∈ restrBox fsz I) :
    inGrid fsz R := by
  rw [mem_restrBox] at hR
  unfold inGrid
  omega

theorem cand_restr_duality (fsz R I : V3) (hR : inGrid fsz R) :
    I ∈ candBox R ↔ R ∈ restrBox fsz I := by
  obtain ⟨h1, h2, h3, h4, h5, h6⟩ := hR
  rw [mem_candBox, mem_restrBox]
  rw [tdivE R.x 2 h1 (by omega), tdivE (R.x + 1) 2 (by omega) (by omega),
    tdivE R.y 2 h3 (by omega), tdivE (R.y + 1) 2 (by omega) (by omega),
    tdivE R.z 2 h5 (by omega), tdivE (R.z + 1) 2 (by omega) (by omega)]
  omega

theorem candBox_inGrid (fsz csz V I : V3) (hV : inGrid fsz V)
    (hsz : csz = nextSize fsz) (hI : I ∈ candBox V) : inGrid csz I := by
  obtain ⟨h1, h2, h3, h4, h5, h6⟩ := hV
  rw [mem_candBox] at hI
  obtain ⟨c1, c2, c3, c4, c5, c6⟩ := hI
  rw [tdivE V.x 2 h1 (by omega)] at c1
  rw [tdivE (V.x + 1) 2 (by omega) (by omega)] at c2
  rw [tdivE V.y 2 h3 (by omega)] at c3
  rw [tdivE (V.y + 1) 2 (by omega) (by omega)] at c4
  rw [tdivE V.z 2 h5 (by omega)] at c5
  rw [tdivE (V.z + 1) 2 (by omega) (by omega)] at c6
  subst hsz
  show 0 ≤ I.x ∧ I.x < (fsz.x + 2).tdiv 2 ∧ 0 ≤ I.y ∧ I.y < (fsz.y + 2).tdiv 2 ∧
    0 ≤ I.z ∧ I.z < (fsz.z + 2).tdiv 2
  rw [tdivE (fsz.x + 2) 2 (by omega) (by omega),
    tdivE (fsz.y + 2) 2 (by omega) (by omega),
    tdivE (fsz.z + 2) 2 (by omega) (by omega)]
  omega

theorem sum_map_const {α : Type} (l : List α) (c : ℕ) :
    (l.map (fun _ => c)).sum = l.length * c := by
  induction l with
  | nil => simp
  | cons h t ih =>
    simp only [List.map_cons, List.sum_cons, List.length_cons, ih]
    ring

theorem boxList_length (lo hi : V3) :
    (boxList lo hi).length =
      (hi.z + 1 - lo.z).toNat * ((hi.y + 1 - lo.y).toNat * (hi.x + 1 - lo.x).toNat) := by
  unfold boxList
  rw [List.length_flatMap]
  simp only [Function.comp_def]
  have hin : ∀ z : ℤ, ((intRange lo.y hi.y).flatMap
      (fun y => (intRange lo.x hi.x).map (fun x => (⟨x, y, z⟩ : V3)))).length =
      (hi.y + 1 - lo.y).toNat * (hi.x + 1 - lo.x).toNat := by
    intro z
    rw [List.length_flatMap]
    simp only [Function.comp_def]
    rw [show (List.map (fun y => ((intRange lo.x hi.x).map
        (fun x => (⟨x, y, z⟩ : V3))).length) (intRange lo.y hi.y)) =
        List.map (fun _ => (hi.x + 1 - lo.x).toNat) (intRange lo.y hi.y) from
      List.map_congr_left (fun y _ => by rw [List.length_map, intRange_length])]
    rw [sum_map_const, intRange_length]
  rw [show (List.map (fun z => ((intRange lo.y hi.y).flatMap
      (fun y => (intRange lo.x hi.x).map (fun x => (⟨x, y, z⟩ : V3)))).length)
      (intRange lo.z hi.z)) =
      List.map (fun _ => (hi.y + 1 - lo.y).toNat * (hi.x + 1 - lo.x).toNat)
        (intRange lo.z hi.z) from
    List.map_congr_left (fun z _ => hin z)]
  rw [sum_map_const, intRange_length]

theorem candBox_length (V : V3) (h1 : 0 ≤ V.x) (h3 : 0 ≤ V.y) (h5 : 0 ≤ V.z) :
    ((candBox V).length : ℤ) = twoPow (oddSum V) := by
  unfold candBox
  rw [boxList_length]
  unfold V3.half V3.pl twoPow oddSum
  rw [tmodE V.x 2 h1 (by omega), tmodE V.y 2 h3 (by omega),
    tmodE V.z 2 h5 (by omega)]
  show (((((V.z + 1).tdiv 2 + 1 - V.z.tdiv 2).toNat *
    (((V.y + 1).tdiv 2 + 1 - V.y.tdiv 2).toNat *
     ((V.x + 1).tdiv 2 + 1 - V.x.tdiv 2).toNat) : ℕ)) : ℤ) =
    2 ^ (V.x % 2 + V.y % 2 + V.z % 2).toNat
  rw [tdivE V.x 2 h1 (by omega), tdivE (V.x + 1) 2 (by omega) (by omega),
    tdivE V.y 2 h3 (by omega), tdivE (V.y + 1) 2 (by omega) (by omega),
    tdivE V.z 2 h5 (by omega), tdivE (V.z + 1) 2 (by omega) (by omega)]
  have ex : (V.x + 1) / 2 + 1 - V.x / 2 = 1 + V.x % 2 := by omega
  have ey : (V.y + 1) / 2 + 1 - V.y / 2 = 1 + V.y % 2 := by omega
  have ez : (V.z + 1) / 2 + 1 - V.z / 2 = 1 + V.z % 2 := by omega
  rw [ex, ey, ez]
  rcases Int.emod_two_eq_zero_or_one V.x with hx | hx <;>
    rcases Int.emod_two_eq_zero_or_one V.y with hy | hy <;>
      rcases Int.emod_two_eq_zero_or_one V.z with hz2 | hz2 <;>
        rw [hx, hy, hz2] <;> decide

theorem getT_replicate (n : ℕ) (t : VertexType) (i : ℤ) (h0 : 0 ≤ i)
    (hn : i < (n : ℤ)) : getT (List.replicate n t) i = t := by
  unfold getT
  rw [if_pos h0]
  have hlt : i.toNat < n := by omega
  simp [List.getD, List.getElem?_replicate, hlt]

/-! ## setKey verification -/

theorem chain_mem_key (h : NKMinHeap) (k : ℕ) :
    ∀ (L : List ℕ) (pI : ℤ) (id : ℕ), id ∈ L → Chain h k pI L →
      (hent h ((h.K : ℤ) + id)).key = (k : ℤ) ∧ id < h.N
  | [], pI, id, hm, _ => absurd hm (List.not_mem_nil id)
  | a :: t, pI, id, hm, hc => by
    unfold Chain at hc
    rcases List.mem_cons.mp hm with he | hm2
    · subst he
      exact ⟨hc.2.2.2.1, hc.1⟩
    · exact chain_mem_key h k t ((h.K : ℤ) + a) id hm2 hc.2.2.2.2

theorem flatten_mem_getD {α : Type} :
    ∀ (B : List (List α)) (x : α), x ∈ B.flatten →
      ∃ k, k < B.length ∧ x ∈ B.getD k []
  | [], x, hm => absurd hm (by simp)
  | b :: rest, x, hm => by
    rw [List.flatten_cons] at hm
    rcases List.mem_append.mp hm with hm1 | hm2
    · exact ⟨0, by simp, by rw [List.getD_cons_zero]; exact hm1⟩
    · obtain ⟨k, hk, hkm⟩ := flatten_mem_getD rest x hm2
      exact ⟨k + 1, by simpa using Nat.succ_lt_succ hk,
        by rw [List.getD_cons_succ]; exact hkm⟩

theorem rep_not_mem_of_key_neg (h : NKMinHeap) (B : List (List ℕ))
    (hR : Represents h B) (ID : ℕ)
    (hkm : (hent h ((h.K : ℤ) + ID)).key = -1) :
    ∀ k', k' < h.K → ID ∉ B.getD k' [] := by
  intro k' hk' hmem
  have hch := hR.2.2.1 k' hk'
  have := (chain_mem_key h k' _ _ ID hmem hch).1
  omega

theorem rep_hset_unstored (h : NKMinHeap) (B : List (List ℕ))
    (hR : Represents h B) (ID : ℕ) (hID : ID < h.N)
    (hkm : (hent h ((h.K : ℤ) + ID)).key = -1) (e : HEntry) (he : e.key = -1) :
    Represents (hset h ((h.K : ℤ) + ID) e) B := by
  obtain ⟨hlen, hBlen, hch, hnd, hsz, hkey, hmk0, hmk1⟩ := hR
  have hnm := rep_not_mem_of_key_neg h B
    ⟨hlen, hBlen, hch, hnd, hsz, hkey, hmk0, hmk1⟩ ID hkm
  refine ⟨?_, hBlen, ?_, hnd, hsz, ?_, hmk0, hmk1⟩
  · rw [hset_entries_length]
    exact hlen
  · intro k' hk'
    have hk2 : k' < h.K := hk'
    refine chain_congr h (hset h ((h.K : ℤ) + ID) e) rfl rfl k' _ _ ?_ ?_ (hch k' hk2)
    · rw [hent_hset_ne _ _ _ _ (by omega)]
    · intro id hid
      have : id ≠ ID := fun hc => hnm k' hk' (hc ▸ hid)
      rw [hent_hset_ne _ _ _ _ (by omega)]
  · intro id hid hkne
    by_cases hi : id = ID
    · subst hi
      have : (hent (hset h ((h.K : ℤ) + id) e) ((h.K : ℤ) + id)).key = -1 := by
        rw [hent_hset_self _ _ _ (by omega) (by omega)]
        exact he
      exact absurd this hkne
    · have heq : hent (hset h ((h.K : ℤ) + ID) e) ((h.K : ℤ) + id) =
          hent h ((h.K : ℤ) + id) :=
        hent_hset_ne _ _ _ _ (by omega)
      have hkne' : (hent (hset h ((h.K : ℤ) + ID) e) ((h.K : ℤ) + id)).key ≠ -1 :=
        hkne
      rw [heq] at hkne'
      show 0 ≤ (hent (hset h ((h.K : ℤ) + ID) e) ((h.K : ℤ) + id)).key ∧
        (hent (hset h ((h.K : ℤ) + ID) e) ((h.K : ℤ) + id)).key < (h.K : ℤ) ∧
        id ∈ B.getD ((hent (hset h ((h.K : ℤ) + ID) e) ((h.K : ℤ) + id)).key).toNat []
      rw [heq]
      exact hkey id hid hkne'

theorem chain_prev_mem (h : NKMinHeap) (k : ℕ) :
    ∀ (L1 : List ℕ) (pI : ℤ) (r : ℕ) (L2 : List ℕ),
      Chain h k pI (L1 ++ r :: L2) →
      (L1 = [] ∧ (hent h ((h.K : ℤ) + r)).prev = pI) ∨
      (∃ b ∈ L1, (hent h ((h.K : ℤ) + r)).prev = (h.K : ℤ) + b)
  | [], pI, r, L2 => fun hc => by
    unfold Chain at hc
    exact Or.inl ⟨rfl, hc.2.2.1⟩
  | a :: L1', pI, r, L2 => fun hc => by
    unfold Chain at hc
    rcases chain_prev_mem h k L1' ((h.K : ℤ) + a) r L2 hc.2.2.2.2 with
      ⟨_, hp⟩ | ⟨b, hb, hp⟩
    · exact Or.inr ⟨a, List.mem_cons_self a L1', hp⟩
    · exact Or.inr ⟨b, List.mem_cons_of_mem a hb, hp⟩

theorem chain_next_mem (h : NKMinHeap) (k : ℕ) :
    ∀ (L1 : List ℕ) (pI : ℤ) (r : ℕ) (L2 : List ℕ),
      Chain h k pI (L1 ++ r :: L2) →
      (L2 = [] ∧ (hent h ((h.K : ℤ) + r)).next = -1) ∨
      (∃ s ∈ L2, (hent h ((h.K : ℤ) + r)).next = (h.K : ℤ) + s)
  | [], pI, r, L2 => fun hc => by
    unfold Chain at hc
    cases L2 with
    | nil =>
      unfold Chain at hc
      exact Or.inl ⟨rfl, hc.2.2.2.2⟩
    | cons s L2' =>
      have := hc.2.2.2.2
      unfold Chain at this
      exact Or.inr ⟨s, List.mem_cons_self s L2', this.2.1⟩
  | a :: L1', pI, r, L2 => fun hc => by
    unfold Chain at hc
    exact chain_next_mem h k L1' ((h.K : ℤ) + a) r L2 hc.2.2.2.2

theorem chain_unlink (h h' : NKMinHeap) (hK : h'.K = h.K) (hN : h'.N = h.N)
    (k : ℕ) (r : ℕ)
    (hpred : hent h' ((hent h ((h.K : ℤ) + r)).prev) =
      { hent h ((hent h ((h.K : ℤ) + r)).prev) with
        next := (hent h ((h.K : ℤ) + r)).next })
    (hsucc : (hent h ((h.K : ℤ) + r)).next ≠ -1 →
      hent h' ((hent h ((h.K : ℤ) + r)).next) =
        { hent h ((hent h ((h.K : ℤ) + r)).next) with
          prev := (hent h ((h.K : ℤ) + r)).prev })
    (hother : ∀ j : ℤ, j ≠ (hent h ((h.K : ℤ) + r)).prev →
      j ≠ (hent h ((h.K : ℤ) + r)).next → j ≠ (h.K : ℤ) + r →
      hent h' j = hent h j) :
    ∀ (L1 : List ℕ) (pI : ℤ) (L2 : List ℕ),
      0 ≤ pI → pI ≠ (h.K : ℤ) + r →
      (∀ id ∈ L1 ++ r :: L2, (h.K : ℤ) + (id : ℤ) ≠ pI) →
      (L1 ++ r :: L2).Nodup →
      Chain h k pI (L1 ++ r :: L2) → Chain h' k pI (L1 ++ L2)
  | [], pI, L2, hpI0, hpIr, hpIdiff, hnd, hc => by
    unfold Chain at hc
    obtain ⟨hrN, e1, e2, e3, hct⟩ := hc
    cases L2 with
    | nil =>
      show (hent h' pI).next = -1
      rw [← e2, hpred]
      unfold Chain at hct
      exact hct
    | cons s L2' =>
      unfold Chain at hct
      obtain ⟨hsN, f1, f2, f3, hct'⟩ := hct
      have hsne : (hent h ((h.K : ℤ) + r)).next ≠ -1 := by
        rw [f1]
        omega
      have hs := hsucc hsne
      rw [f1] at hs
      show s < h'.N ∧ (hent h' pI).next = (h'.K : ℤ) + s ∧
        (hent h' ((h'.K : ℤ) + s)).prev = pI ∧
        (hent h' ((h'.K : ℤ) + s)).key = (k : ℤ) ∧
        Chain h' k ((h'.K : ℤ) + s) L2'
      rw [hK, hN]
      refine ⟨hsN, ?_, ?_, ?_, ?_⟩
      · rw [← e2, hpred, f1]
      · rw [hs, e2]
      · rw [hs]
        exact f3
      · refine chain_congr h h' hK hN k _ _ ?_ ?_ hct'
        · rw [hs]
        · intro id hid
          have hids : id ≠ s := fun hcc => by
            rw [hcc] at hid
            exact (List.nodup_cons.mp (List.nodup_cons.mp hnd).2).1 hid
          have hidr : id ≠ r := fun hcc => by
            rw [hcc] at hid
            exact (List.nodup_cons.mp hnd).1 (List.mem_cons_of_mem s hid)
          refine hother _ ?_ ?_ (by omega)
          · rw [e2]
            exact hpIdiff id
              (List.mem_cons_of_mem r (List.mem_cons_of_mem s hid))
          · rw [f1]
            omega
  | a :: L1', pI, L2, hpI0, hpIr, hpIdiff, hnd, hc => by
    unfold Chain at hc
    obtain ⟨haN, e1, e2, e3, hct⟩ := hc
    have hndt : (L1' ++ r :: L2).Nodup := (List.nodup_cons.mp hnd).2
    have hanotin : a ∉ L1' ++ r :: L2 := (List.nodup_cons.mp hnd).1
    have har : a ≠ r := fun hcc => hanotin (by simp [hcc])
    have hpImod : hent h' pI = hent h pI := by
      refine hother pI ?_ ?_ (by omega)
      · rcases chain_prev_mem h k (a :: L1') pI r L2
          (by unfold Chain; exact ⟨haN, e1, e2, e3, hct⟩) with ⟨hnil, _⟩ | ⟨b, hb, hp⟩
        · exact absurd hnil (by simp)
        · rw [hp]
          exact Ne.symm (hpIdiff b (List.mem_append_left _ hb))
      · rcases chain_next_mem h k (a :: L1') pI r L2
          (by unfold Chain; exact ⟨haN, e1, e2, e3, hct⟩) with ⟨_, hp⟩ | ⟨s, hs2, hp⟩
        · rw [hp]
          omega
        · rw [hp]
          exact Ne.symm
            (hpIdiff s (List.mem_append_right _ (List.mem_cons_of_mem r hs2)))
    have haslot : (hent h' ((h.K : ℤ) + a)).prev = (hent h ((h.K : ℤ) + a)).prev ∧
        (hent h' ((h.K : ℤ) + a)).key = (hent h ((h.K : ℤ) + a)).key := by
      by_cases hpa : (h.K : ℤ) + a = (hent h ((h.K : ℤ) + r)).prev
      · rw [← hpa] at hpred
        rw [hpred]
        exact ⟨rfl, rfl⟩
      · have hnx : (h.K : ℤ) + a ≠ (hent h ((h.K : ℤ) + r)).next := by
          rcases chain_next_mem h k (a :: L1') pI r L2
            (by unfold Chain; exact ⟨haN, e1, e2, e3, hct⟩) with ⟨_, hp⟩ | ⟨s, hs2, hp⟩
          · rw [hp]
            omega
          · rw [hp]
            have : a ≠ s := fun hcc => hanotin (by
              rw [hcc]
              exact List.mem_append_right _ (List.mem_cons_of_mem r hs2))
            omega
        rw [hother _ hpa hnx (by omega)]
        exact ⟨rfl, rfl⟩
    show a < h'.N ∧ (hent h' pI).next = (h'.K : ℤ) + a ∧
      (hent h' ((h'.K : ℤ) + a)).prev = pI ∧
      (hent h' ((h'.K : ℤ) + a)).key = (k : ℤ) ∧
      Chain h' k ((h'.K : ℤ) + a) (L1' ++ L2)
    rw [hK, hN]
    refine ⟨haN, ?_, ?_, ?_, ?_⟩
    · rw [hpImod]
      exact e1
    · rw [haslot.1]
      exact e2
    · rw [haslot.2]
      exact e3
    · exact chain_unlink h h' hK hN k r hpred hsucc hother L1' ((h.K : ℤ) + a) L2
        (by omega) (by omega)
        (fun id hid => by
          have : id ≠ a := fun hcc => hanotin (hcc ▸ hid)
          omega)
        hndt hct

theorem hset_hset (h : NKMinHeap) (i : ℤ) (e1 e2 : HEntry) :
    hset (hset h i e1) i e2 = hset h i e2 := by
  unfold hset
  by_cases h0 : 0 ≤ i
  · simp [h0, List.set_set]
  · simp [h0]

theorem flatten_set_sublist :
    ∀ (B : List (List ℕ)) (k : ℕ) (L : List ℕ),
      L.Sublist (B.getD k []) → ((B.set k L).flatten).Sublist B.flatten
  | [], k, L, hs => by
    simp only [List.set_nil]
    exact List.Sublist.refl _
  | b :: rest, 0, L, hs => by
    rw [List.getD_cons_zero] at hs
    rw [List.set_cons_zero, List.flatten_cons, List.flatten_cons]
    exact List.Sublist.append hs (List.Sublist.refl _)
  | b :: rest, k + 1, L, hs => by
    rw [List.getD_cons_succ] at hs
    rw [List.set_cons_succ, List.flatten_cons, List.flatten_cons]
    exact List.Sublist.append_left (flatten_set_sublist rest k L hs) b

theorem sum_length_set_general :
    ∀ (B : List (List ℕ)) (k : ℕ) (L : List ℕ), k < B.length →
      ((B.set k L).map List.length).sum + (B.getD k []).length =
        (B.map List.length).sum + L.length
  | [], k, L, hk => by simp at hk
  | b :: rest, 0, L, _ => by
    rw [List.getD_cons_zero, List.set_cons_zero]
    simp only [List.map_cons, List.sum_cons]
    omega
  | b :: rest, k + 1, L, hk => by
    rw [List.getD_cons_succ, List.set_cons_succ]
    simp only [List.map_cons, List.sum_cons]
    have := sum_length_set_general rest k L (by simpa using hk)
    omega

theorem getD_length_le_sum :
    ∀ (B : List (List ℕ)) (k : ℕ),
      (B.getD k []).length ≤ (B.map List.length).sum
  | [], k => by
    cases k <;> simp
  | b :: rest, 0 => by
    rw [List.getD_cons_zero]
    simp only [List.map_cons, List.sum_cons]
    omega
  | b :: rest, k + 1 => by
    rw [List.getD_cons_succ]
    simp only [List.map_cons, List.sum_cons]
    have := getD_length_le_sum rest k
    omega

theorem two_buckets_le_sum :
    ∀ (B : List (List ℕ)) (k k' : ℕ), k ≠ k' →
      (B.getD k []).length + (B.getD k' []).length ≤ (B.map List.length).sum
  | [], k, k', _ => by
    cases k <;> cases k' <;> simp
  | b :: rest, 0, 0, hne => absurd rfl hne
  | b :: rest, 0, k' + 1, _ => by
    rw [List.getD_cons_zero, List.getD_cons_succ]
    simp only [List.map_cons, List.sum_cons]
    have := getD_length_le_sum rest k'
    omega
  | b :: rest, k + 1, 0, _ => by
    rw [List.getD_cons_succ, List.getD_cons_zero]
    simp only [List.map_cons, List.sum_cons]
    have := getD_length_le_sum rest k
    omega
  | b :: rest, k + 1, k' + 1, hne => by
    rw [List.getD_cons_succ, List.getD_cons_succ]
    simp only [List.map_cons, List.sum_cons]
    have := two_buckets_le_sum rest k k' (by omega)
    omega

theorem all_empty_of_sum_zero :
    ∀ (B : List (List ℕ)), (B.map List.length).sum = 0 →
      ∀ k, k < B.length → B.getD k [] = []
  | [], _, k, hk => by simp at hk
  | b :: rest, hs, 0, _ => by
    rw [List.getD_cons_zero]
    simp only [List.map_cons, List.sum_cons] at hs
    exact List.eq_nil_of_length_eq_zero (by omega)
  | b :: rest, hs, k + 1, hk => by
    rw [List.getD_cons_succ]
    simp only [List.map_cons, List.sum_cons] at hs
    exact all_empty_of_sum_zero rest (by omega) k (by simpa using hk)

theorem represents_intro (g : NKMinHeap) (B2 : List (List ℕ)) (kk nn : ℕ)
    (hgK : g.K = kk) (hgN : g.N = nn)
    (c1 : g.entries.length = kk + nn)
    (c2 : B2.length = kk)
    (c3 : ∀ k, k < kk → Chain g k (k : ℤ) (B2.getD k []))
    (c4 : B2.flatten.Nodup)
    (c5 : g.size = (B2.map List.length).sum)
    (c6 : ∀ id, id < nn → (hent g ((kk : ℤ) + id)).key ≠ -1 →
      0 ≤ (hent g ((kk : ℤ) + id)).key ∧
      (hent g ((kk : ℤ) + id)).key < (kk : ℤ) ∧
      id ∈ B2.getD ((hent g ((kk : ℤ) + id)).key).toNat [])
    (c7 : g.size = 0 → g.minKey = -1)
    (c8 : g.size ≠ 0 → 0 ≤ g.minKey ∧ g.minKey < (kk : ℤ) ∧
      B2.getD g.minKey.toNat [] ≠ [] ∧
      ∀ k, k < kk → (k : ℤ) < g.minKey → B2.getD k [] = []) :
    Represents g B2 := by
  subst hgK
  subst hgN
  exact ⟨c1, c2, c3, c4, c5, c6, c7, c8⟩

set_option maxHeartbeats 1000000 in
theorem removeCore (h HB : NKMinHeap) (B : List (List ℕ)) (ID : ℕ)
    (hID : ID < h.N) (hR : Represents h B)
    (hkne : (hent h ((h.K : ℤ) + ID)).key ≠ -1)
    (hBK : HB.K = h.K) (hBN : HB.N = h.N) (hBsize : HB.size = h.size)
    (hBmin : HB.minKey = h.minKey) (hBlen2 : HB.entries.length = h.entries.length)
    (hB_pred : 0 ≤ (hent h ((h.K : ℤ) + ID)).prev →
      ((hent h ((h.K : ℤ) + ID)).prev).toNat < h.entries.length →
      ((hent h ((h.K : ℤ) + ID)).next ≠ -1 →
        (hent h ((h.K : ℤ) + ID)).prev ≠ (hent h ((h.K : ℤ) + ID)).next) →
      hent HB ((hent h ((h.K : ℤ) + ID)).prev) =
      { hent h ((hent h ((h.K : ℤ) + ID)).prev) with
        next := (hent h ((h.K : ℤ) + ID)).next })
    (hB_succ : (hent h ((h.K : ℤ) + ID)).next ≠ -1 →
      0 ≤ (hent h ((h.K : ℤ) + ID)).next →
      ((hent h ((h.K : ℤ) + ID)).next).toNat < h.entries.length →
      (hent h ((h.K : ℤ) + ID)).prev ≠ (hent h ((h.K : ℤ) + ID)).next →
      hent HB ((hent h ((h.K : ℤ) + ID)).next) =
        { hent h ((hent h ((h.K : ℤ) + ID)).next) with
          prev := (hent h ((h.K : ℤ) + ID)).prev })
    (hB_other : ∀ j : ℤ, j ≠ (hent h ((h.K : ℤ) + ID)).prev →
      j ≠ (hent h ((h.K : ℤ) + ID)).next → hent HB j = hent h j) :
    ∃ B2 : List (List ℕ),
      Represents
        (if (hent HB ((h.K : ℤ) + ID)).key = HB.minKey then
          (if HB.size = 1 then
            hset { HB with minKey := -1, size := HB.size - 1 }
              ((h.K : ℤ) + ID) default
           else
            hset { HB with minKey := scanMin HB (HB.K + 1) HB.minKey,
                           size := HB.size - 1 } ((h.K : ℤ) + ID) default)
         else hset { HB with size := HB.size - 1 } ((h.K : ℤ) + ID) default) B2 ∧
      (∀ mk : ℤ,
        (hset { HB with minKey := mk, size := HB.size - 1 }
          ((h.K : ℤ) + ID) default).size = h.size - 1 ∧
        (hset { HB with minKey := mk, size := HB.size - 1 }
          ((h.K : ℤ) + ID) default).K = h.K ∧
        (hset { HB with minKey := mk, size := HB.size - 1 }
          ((h.K : ℤ) + ID) default).N = h.N ∧
        (hent (hset { HB with minKey := mk, size := HB.size - 1 }
          ((h.K : ℤ) + ID) default) ((h.K : ℤ) + ID)).key = -1 ∧
        (∀ id' : ℕ, id' ≠ ID →
          (hent (hset { HB with minKey := mk, size := HB.size - 1 }
            ((h.K : ℤ) + ID) default) ((h.K : ℤ) + (id' : ℤ))).key =
          (hent h ((h.K : ℤ) + (id' : ℤ))).key)) := by
  obtain ⟨hlen, hBlen, hch, hnd, hsz, hkey, hmk0, hmk1⟩ := hR
  obtain ⟨hk0le, hk0lt, hmem⟩ := hkey ID hID hkne
  have hk0 : (((((hent h ((h.K : ℤ) + ID)).key).toNat : ℕ)) : ℤ) =
      (hent h ((h.K : ℤ) + ID)).key := Int.toNat_of_nonneg hk0le
  set k0 : ℕ := ((hent h ((h.K : ℤ) + ID)).key).toNat with hk0def
  have hk0K : k0 < h.K := by omega
  have hk0B : k0 < B.length := by omega
  obtain ⟨L1, L2, hsplit⟩ := List.append_of_mem hmem
  have hndb := bucket_nodup B k0 hnd
  rw [hsplit] at hndb
  have hIDL1 : ID ∉ L1 := fun hc =>
    (List.disjoint_of_nodup_append hndb) hc (List.mem_cons_self ID L2)
  have hIDL2 : ID ∉ L2 := (List.nodup_cons.mp hndb.of_append_right).1
  have hchk0 := hch k0 hk0K
  rw [hsplit] at hchk0
  have hmemkey : ∀ id ∈ L1 ++ ID :: L2,
      (hent h ((h.K : ℤ) + id)).key = (k0 : ℤ) ∧ id < h.N :=
    fun id hm => chain_mem_key h k0 _ _ id hm hchk0
  have hPform := chain_prev_mem h k0 L1 _ ID L2 hchk0
  have hSform := chain_next_mem h k0 L1 _ ID L2 hchk0
  have hP0 : 0 ≤ (hent h ((h.K : ℤ) + ID)).prev := by
    rcases hPform with ⟨_, hp⟩ | ⟨b, hb, hp⟩ <;> rw [hp] <;> omega
  have hPlen : ((hent h ((h.K : ℤ) + ID)).prev).toNat < h.entries.length := by
    rcases hPform with ⟨_, hp⟩ | ⟨b, hb, hp⟩
    · rw [hp]
      omega
    · have hbN : b < h.N := (hmemkey b (List.mem_append_left _ hb)).2
      rw [hp]
      omega
  have hPkid : (hent h ((h.K : ℤ) + ID)).prev ≠ (h.K : ℤ) + ID := by
    rcases hPform with ⟨_, hp⟩ | ⟨b, hb, hp⟩
    · rw [hp]
      omega
    · have : b ≠ ID := fun hc => hIDL1 (hc ▸ hb)
      rw [hp]
      omega
  have hSfacts : (hent h ((h.K : ℤ) + ID)).next = -1 ∨
      (∃ s ∈ L2, (hent h ((h.K : ℤ) + ID)).next = (h.K : ℤ) + s ∧
        s < h.N ∧ s ≠ ID) := by
    rcases hSform with ⟨_, hp⟩ | ⟨s, hs2, hp⟩
    · exact Or.inl hp
    · refine Or.inr ⟨s, hs2, hp, ?_, fun hc => hIDL2 (hc ▸ hs2)⟩
      exact (hmemkey s (List.mem_append_right _ (List.mem_cons_of_mem ID hs2))).2
  have hSkid : (h.K : ℤ) + ID ≠ (hent h ((h.K : ℤ) + ID)).next := by
    rcases hSfacts with hp | ⟨s, _, hp, _, hsid⟩ <;> rw [hp] <;> omega
  have hkidHB : hent HB ((h.K : ℤ) + ID) = hent h ((h.K : ℤ) + ID) :=
    hB_other _ (Ne.symm hPkid) hSkid
  have hPSne : (hent h ((h.K : ℤ) + ID)).next ≠ -1 →
      (hent h ((h.K : ℤ) + ID)).prev ≠ (hent h ((h.K : ℤ) + ID)).next := by
    intro hne
    rcases hSfacts with hp | ⟨s, hs2, hp, hsN, hsID⟩
    · exact absurd hp hne
    · rcases hPform with ⟨_, hpp⟩ | ⟨b, hb, hpp⟩
      · rw [hpp, hp]
        omega
      · have hbs : b ≠ s := fun hc =>
          (List.disjoint_of_nodup_append hndb) hb
            (List.mem_cons_of_mem ID (by rw [hc]; exact hs2))
        rw [hpp, hp]
        omega
  have hS0 : (hent h ((h.K : ℤ) + ID)).next ≠ -1 →
      0 ≤ (hent h ((h.K : ℤ) + ID)).next := by
    intro hne
    rcases hSfacts with hp | ⟨s, _, hp, _, _⟩
    · exact absurd hp hne
    · rw [hp]
      omega
  have hSlen : (hent h ((h.K : ℤ) + ID)).next ≠ -1 →
      ((hent h ((h.K : ℤ) + ID)).next).toNat < h.entries.length := by
    intro hne
    rcases hSfacts with hp | ⟨s, _, hp, hsN, _⟩
    · exact absurd hp hne
    · rw [hp]
      omega
  have hB_pred2 : hent HB ((hent h ((h.K : ℤ) + ID)).prev) =
      { hent h ((hent h ((h.K : ℤ) + ID)).prev) with
        next := (hent h ((h.K : ℤ) + ID)).next } := hB_pred hP0 hPlen hPSne
  have hB_succ2 : (hent h ((h.K : ℤ) + ID)).next ≠ -1 →
      hent HB ((hent h ((h.K : ℤ) + ID)).next) =
        { hent h ((hent h ((h.K : ℤ) + ID)).next) with
          prev := (hent h ((h.K : ℤ) + ID)).prev } :=
    fun hne => hB_succ hne (hS0 hne) (hSlen hne) (hPSne hne)
  -- the new bucket assignment
  have hB2len : (B.set k0 (L1 ++ L2)).length = B.length := List.length_set _ _ _
  have hB2k0 : (B.set k0 (L1 ++ L2)).getD k0 [] = L1 ++ L2 :=
    getD_set_self _ _ _ _ hk0B
  have hB2ne : ∀ k', k' ≠ k0 →
      (B.set k0 (L1 ++ L2)).getD k' [] = B.getD k' [] :=
    fun k' hk' => getD_set_ne _ _ _ _ _ (fun he => hk' he.symm)
  -- pointwise facts about the final heaps, for any minKey value mk
  have hYent : ∀ (mk j : ℤ), j ≠ (h.K : ℤ) + ID →
      hent (hset { HB with minKey := mk, size := HB.size - 1 }
        ((h.K : ℤ) + ID) default) j = hent HB j := by
    intro mk j hj
    rw [hent_hset_ne _ _ _ _ (fun he => hj he.symm)]
    rfl
  have hYkid : ∀ mk : ℤ,
      hent (hset { HB with minKey := mk, size := HB.size - 1 }
        ((h.K : ℤ) + ID) default) ((h.K : ℤ) + ID) = default := by
    intro mk
    refine hent_hset_self _ _ _ (by omega) ?_
    show ((h.K : ℤ) + ID).toNat < HB.entries.length
    rw [hBlen2]
    omega
  have hYlen : ∀ mk : ℤ,
      (hset { HB with minKey := mk, size := HB.size - 1 }
        ((h.K : ℤ) + ID) default).entries.length = h.entries.length := by
    intro mk
    rw [hset_entries_length]
    show HB.entries.length = _
    exact hBlen2
  have hYsize : ∀ mk : ℤ,
      (hset { HB with minKey := mk, size := HB.size - 1 }
        ((h.K : ℤ) + ID) default).size = h.size - 1 := by
    intro mk
    show HB.size - 1 = _
    rw [hBsize]
  -- chains of the final heap
  have hCH : ∀ mk : ℤ, ∀ k', k' < h.K →
      Chain (hset { HB with minKey := mk, size := HB.size - 1 }
        ((h.K : ℤ) + ID) default) k' ((k' : ℕ) : ℤ)
        ((B.set k0 (L1 ++ L2)).getD k' []) := by
    intro mk k' hk'
    by_cases hkk : k' = k0
    · rw [hkk, hB2k0]
      refine chain_unlink h
        (hset { HB with minKey := mk, size := HB.size - 1 }
          ((h.K : ℤ) + ID) default) hBK hBN k0 ID ?_ ?_ ?_ L1 ((k0 : ℕ) : ℤ) L2
        (by omega) (by omega)
        (fun id _ => by omega) hndb hchk0
      · rw [hYent mk _ hPkid]
        exact hB_pred2
      · intro hne
        rw [hYent mk _ (Ne.symm hSkid)]
        exact hB_succ2 hne
      · intro j hj1 hj2 hj3
        rw [hYent mk _ hj3]
        exact hB_other j hj1 hj2
    · rw [hB2ne k' hkk]
      refine chain_congr h
        (hset { HB with minKey := mk, size := HB.size - 1 }
          ((h.K : ℤ) + ID) default) hBK hBN k' _ _ ?_ ?_ (hch k' hk')
      · have hne1 : ((k' : ℕ) : ℤ) ≠ (hent h ((h.K : ℤ) + ID)).prev := by
          rcases hPform with ⟨_, hp⟩ | ⟨b, hb, hp⟩
          · rw [hp]
            omega
          · rw [hp]
            omega
        have hne2 : ((k' : ℕ) : ℤ) ≠ (hent h ((h.K : ℤ) + ID)).next := by
          rcases hSfacts with hp | ⟨s, _, hp, _, _⟩ <;> rw [hp] <;> omega
        rw [hYent mk _ (by omega), hB_other _ hne1 hne2]
      · intro id hid
        have hdisj := buckets_disjoint B k0 k' hnd (fun he => hkk he.symm)
        have hidID : id ≠ ID := fun hc => hdisj ID hmem (hc ▸ hid)
        have hne1 : (h.K : ℤ) + (id : ℤ) ≠ (hent h ((h.K : ℤ) + ID)).prev := by
          rcases hPform with ⟨_, hp⟩ | ⟨b, hb, hp⟩
          · rw [hp]
            omega
          · have : id ≠ b := fun hc => hdisj b
              (by rw [hsplit]; exact List.mem_append_left _ hb) (hc ▸ hid)
            rw [hp]
            omega
        have hne2 : (h.K : ℤ) + (id : ℤ) ≠ (hent h ((h.K : ℤ) + ID)).next := by
          rcases hSfacts with hp | ⟨s, hs2, hp, _, _⟩
          · rw [hp]
            omega
          · have : id ≠ s := fun hc => hdisj s
              (by rw [hsplit]
                  exact List.mem_append_right _ (List.mem_cons_of_mem ID hs2))
              (hc ▸ hid)
            rw [hp]
            omega
        rw [hYent mk _ (by omega), hB_other _ hne1 hne2]
  have hND : ((B.set k0 (L1 ++ L2)).flatten).Nodup :=
    hnd.sublist (flatten_set_sublist B k0 (L1 ++ L2)
      (by rw [hsplit]
          exact List.Sublist.append (List.Sublist.refl L1)
            (List.sublist_cons_self ID L2)))
  have hblen1 : 1 ≤ (B.getD k0 []).length := by
    rw [hsplit]
    rw [List.length_append, List.length_cons]
    omega
  have hszge : 1 ≤ h.size := by
    have := getD_length_le_sum B k0
    omega
  have hSUM : h.size - 1 = ((B.set k0 (L1 ++ L2)).map List.length).sum := by
    have hge := sum_length_set_general B k0 (L1 ++ L2) hk0B
    rw [hsplit] at hge
    rw [List.length_append, List.length_cons, List.length_append] at hge
    omega
  have hKEYS : ∀ (mk : ℤ) (id' : ℕ), id' ≠ ID →
      (hent (hset { HB with minKey := mk, size := HB.size - 1 }
        ((h.K : ℤ) + ID) default) ((h.K : ℤ) + (id' : ℤ))).key =
      (hent h ((h.K : ℤ) + (id' : ℤ))).key := by
    intro mk id' hne
    rw [hYent mk _ (by omega)]
    by_cases hp : (h.K : ℤ) + (id' : ℤ) = (hent h ((h.K : ℤ) + ID)).prev
    · rw [← hp] at hB_pred2
      rw [hB_pred2]
    · by_cases hs : (h.K : ℤ) + (id' : ℤ) = (hent h ((h.K : ℤ) + ID)).next
      · have hsne : (hent h ((h.K : ℤ) + ID)).next ≠ -1 := by
          rw [← hs]
          omega
        have := hB_succ2 hsne
        rw [← hs] at this
        rw [this]
      · rw [hB_other _ hp hs]
  have hKC : ∀ mk : ℤ, ∀ id', id' < h.N →
      (hent (hset { HB with minKey := mk, size := HB.size - 1 }
        ((h.K : ℤ) + ID) default) ((h.K : ℤ) + (id' : ℤ))).key ≠ -1 →
      0 ≤ (hent (hset { HB with minKey := mk, size := HB.size - 1 }
        ((h.K : ℤ) + ID) default) ((h.K : ℤ) + (id' : ℤ))).key ∧
      (hent (hset { HB with minKey := mk, size := HB.size - 1 }
        ((h.K : ℤ) + ID) default) ((h.K : ℤ) + (id' : ℤ))).key < (h.K : ℤ) ∧
      id' ∈ (B.set k0 (L1 ++ L2)).getD
        ((hent (hset { HB with minKey := mk, size := HB.size - 1 }
          ((h.K : ℤ) + ID) default) ((h.K : ℤ) + (id' : ℤ))).key).toNat [] := by
    intro mk id' hid' hkne'
    by_cases hi : id' = ID
    · subst hi
      rw [hYkid mk] at hkne'
      exact absurd rfl hkne'
    · rw [hKEYS mk id' hi] at hkne' ⊢
      obtain ⟨c0, c1, c2⟩ := hkey id' hid' hkne'
      refine ⟨c0, c1, ?_⟩
      by_cases hkt : ((hent h ((h.K : ℤ) + (id' : ℤ))).key).toNat = k0
      · rw [hkt, hB2k0]
        rw [hkt, hsplit] at c2
        rcases List.mem_append.mp c2 with hc | hc
        · exact List.mem_append_left _ hc
        · rcases List.mem_cons.mp hc with hc2 | hc2
          · exact absurd hc2 hi
          · exact List.mem_append_right _ hc2
      · rw [hB2ne _ hkt]
        exact c2
  -- bucket emptiness from a null head pointer
  have hBE : ∀ mk : ℤ, ∀ k'', k'' < h.K → (hent HB ((k'' : ℕ) : ℤ)).next = -1 →
      (B.set k0 (L1 ++ L2)).getD k'' [] = [] := by
    intro mk k'' hkk hnx
    cases hcc : (B.set k0 (L1 ++ L2)).getD k'' [] with
    | nil => rfl
    | cons x xs =>
      have hch2 := hCH mk k'' hkk
      rw [hcc] at hch2
      unfold Chain at hch2
      obtain ⟨_, hnext, _, _, _⟩ := hch2
      rw [hYent mk _ (by omega)] at hnext
      rw [hnx] at hnext
      omega
  -- now the three minKey branches
  have hc1iff : (hent HB ((h.K : ℤ) + ID)).key = (k0 : ℤ) := by
    rw [hkidHB]
    omega
  by_cases hc1 : (hent HB ((h.K : ℤ) + ID)).key = HB.minKey
  · have hmineq : h.minKey = (k0 : ℤ) := by
      rw [hBmin] at hc1
      omega
    by_cases hc2 : HB.size = 1
    · rw [if_pos hc1, if_pos hc2]
      have hsz1 : h.size = 1 := by
        rw [hBsize] at hc2
        exact hc2
      -- with a single stored id, the new assignment is entirely empty
      have hempty : ∀ k'', k'' < h.K →
          (B.set k0 (L1 ++ L2)).getD k'' [] = [] := by
        have hsum0 : ((B.set k0 (L1 ++ L2)).map List.length).sum = 0 := by
          omega
        intro k'' hkk
        exact all_empty_of_sum_zero _ hsum0 k'' (by
          rw [hB2len]
          omega)
      refine ⟨B.set k0 (L1 ++ L2),
        represents_intro _ _ h.K h.N hBK hBN ?_ ?_ (hCH (-1)) hND ?_
          (hKC (-1)) ?_ ?_, ?_⟩
      · rw [hYlen (-1)]
        exact hlen
      · rw [hB2len]
        exact hBlen
      · rw [hYsize (-1)]
        exact hSUM
      · intro _
        rfl
      · intro hcon
        rw [hYsize (-1)] at hcon
        omega
      · intro mk
        exact ⟨hYsize mk, hBK, hBN, by rw [hYkid mk]; rfl, hKEYS mk⟩
    · rw [if_pos hc1, if_neg hc2]
      have hszge2 : 2 ≤ h.size := by
        rw [hBsize] at hc2
        omega
      obtain ⟨hm0, hmKlt, hbne0, hblow0⟩ := hmk1 (by omega)
      obtain ⟨s1, s2, s3, s4⟩ := scanMin_spec HB (HB.K + 1) HB.minKey
        (by omega) (by push_cast; omega)
      have hmlt : scanMin HB (HB.K + 1) HB.minKey < (h.K : ℤ) := by
        by_contra hge
        push_neg at hge
        have hallemp : ∀ k'', k'' < (B.set k0 (L1 ++ L2)).length →
            (B.set k0 (L1 ++ L2)).getD k'' [] = [] := by
          intro k'' hkk
          have hkk' : k'' < h.K := by
            rw [hB2len] at hkk
            omega
          by_cases hlow : ((k'' : ℕ) : ℤ) < h.minKey
          · rw [hB2ne k'' (by omega)]
            exact hblow0 k'' hkk' hlow
          · push_neg at hlow
            exact hBE (scanMin HB (HB.K + 1) HB.minKey) k'' hkk'
              (s3 _ (by omega) (by omega))
        have hsum0 := sum_zero_of_all_empty _ hallemp
        omega
      refine ⟨B.set k0 (L1 ++ L2),
        represents_intro _ _ h.K h.N hBK hBN ?_ ?_
          (hCH (scanMin HB (HB.K + 1) HB.minKey)) hND ?_
          (hKC (scanMin HB (HB.K + 1) HB.minKey)) ?_ ?_, ?_⟩
      · rw [hYlen (scanMin HB (HB.K + 1) HB.minKey)]
        exact hlen
      · rw [hB2len]
        exact hBlen
      · rw [hYsize (scanMin HB (HB.K + 1) HB.minKey)]
        exact hSUM
      · intro hcon
        rw [hYsize (scanMin HB (HB.K + 1) HB.minKey)] at hcon
        omega
      · intro _
        refine ⟨?_, ?_, ?_, ?_⟩
        · show (0 : ℤ) ≤ scanMin HB (HB.K + 1) HB.minKey
          omega
        · show scanMin HB (HB.K + 1) HB.minKey < (h.K : ℤ)
          exact hmlt
        · intro hempty
          have hempty' : (B.set k0 (L1 ++ L2)).getD
              (scanMin HB (HB.K + 1) HB.minKey).toNat [] = [] := hempty
          have hnonull := s4 (by omega)
          have hchm := hCH (scanMin HB (HB.K + 1) HB.minKey)
            (scanMin HB (HB.K + 1) HB.minKey).toNat (by omega)
          rw [hempty'] at hchm
          unfold Chain at hchm
          rw [hYent _ _ (by omega)] at hchm
          rw [show (((scanMin HB (HB.K + 1) HB.minKey).toNat : ℕ) : ℤ) =
            scanMin HB (HB.K + 1) HB.minKey from Int.toNat_of_nonneg (by omega)]
            at hchm
          exact hnonull hchm
        · intro k'' hkk hlt
          have hkk' : k'' < h.K := hkk
          have hlt' : ((k'' : ℕ) : ℤ) < scanMin HB (HB.K + 1) HB.minKey := hlt
          by_cases hlow : ((k'' : ℕ) : ℤ) < h.minKey
          · rw [hB2ne k'' (by omega)]
            exact hblow0 k'' hkk' hlow
          · push_neg at hlow
            exact hBE (scanMin HB (HB.K + 1) HB.minKey) k'' hkk'
              (s3 _ (by omega) hlt')
      · intro mk
        exact ⟨hYsize mk, hBK, hBN, by rw [hYkid mk]; rfl, hKEYS mk⟩
  · rw [if_neg hc1]
    have hminne : h.minKey ≠ (k0 : ℤ) := by
      rw [hBmin] at hc1
      omega
    have hszne : h.size ≠ 0 := by omega
    obtain ⟨hm0, hmK, hbne, hblow⟩ := hmk1 hszne
    have hmtk : h.minKey.toNat ≠ k0 := by omega
    have hk0ge : h.minKey ≤ (k0 : ℤ) := by
      by_contra hlt
      push_neg at hlt
      have := hblow k0 hk0K hlt
      rw [hsplit] at this
      exact absurd this (by simp)
    have hsz2 : 2 ≤ h.size := by
      have h2b := two_buckets_le_sum B k0 h.minKey.toNat (by omega)
      have hb2 : 1 ≤ (B.getD h.minKey.toNat []).length := by
        cases hcc : B.getD h.minKey.toNat [] with
        | nil => exact absurd hcc hbne
        | cons x xs => simp
      omega
    refine ⟨B.set k0 (L1 ++ L2),
      represents_intro _ _ h.K h.N hBK hBN ?_ ?_ (hCH HB.minKey) hND ?_
        (hKC HB.minKey) ?_ ?_, ?_⟩
    · rw [show (hset { HB with size := HB.size - 1 } ((h.K : ℤ) + ID)
          default).entries.length = h.entries.length from hYlen HB.minKey]
      exact hlen
    · rw [hB2len]
      exact hBlen
    · rw [show (hset { HB with size := HB.size - 1 } ((h.K : ℤ) + ID)
        default).size = h.size - 1 from hYsize HB.minKey]
      exact hSUM
    · intro hcon
      rw [show (hset { HB with size := HB.size - 1 } ((h.K : ℤ) + ID)
        default).size = h.size - 1 from hYsize HB.minKey] at hcon
      omega
    · intro _
      refine ⟨?_, ?_, ?_, ?_⟩
      · show (0 : ℤ) ≤ HB.minKey
        rw [hBmin]
        omega
      · show HB.minKey < (h.K : ℤ)
        rw [hBmin]
        omega
      · show (B.set k0 (L1 ++ L2)).getD HB.minKey.toNat [] ≠ []
        rw [hBmin, hB2ne _ hmtk]
        exact hbne
      · intro k'' hkk hlt
        have hkk' : k'' < h.K := hkk
        have hlt' : ((k'' : ℕ) : ℤ) < HB.minKey := hlt
        rw [hBmin] at hlt'
        have : k'' ≠ k0 := by omega
        rw [hB2ne k'' this]
        exact hblow k'' hkk' hlt'
    · intro mk
      exact ⟨hYsize mk, hBK, hBN, by rw [hYkid mk]; rfl, hKEYS mk⟩

/-- The unlink stage of `setKey`, packaged at the interface the `setKey` proof
needs: after `setKeyRemove` and a full reset of the removed entry, the heap
is represented with the id deleted from its bucket, the size is one less,
`K`, `N` and all other keys are unchanged, and the removed key reads -1. -/
theorem setKeyRemove_spec (h : NKMinHeap) (B : List (List ℕ))
    (hR : Represents h B) (ID : ℕ) (hID : ID < h.N)
    (hkne : (hent h ((h.K : ℤ) + ID)).key ≠ -1) :
    ∃ B2 : List (List ℕ),
      Represents
        (hset (setKeyRemove h ((h.K : ℤ) + ID)) ((h.K : ℤ) + ID) default) B2 ∧
      (hset (setKeyRemove h ((h.K : ℤ) + ID)) ((h.K : ℤ) + ID) default).size =
        h.size - 1 ∧
      (hset (setKeyRemove h ((h.K : ℤ) + ID)) ((h.K : ℤ) + ID) default).K = h.K ∧
      (hset (setKeyRemove h ((h.K : ℤ) + ID)) ((h.K : ℤ) + ID) default).N = h.N ∧
      (hent (hset (setKeyRemove h ((h.K : ℤ) + ID)) ((h.K : ℤ) + ID) default)
        ((h.K : ℤ) + ID)).key = -1 ∧
      (∀ id' : ℕ, id' ≠ ID →
        (hent (hset (setKeyRemove h ((h.K : ℤ) + ID)) ((h.K : ℤ) + ID) default)
          ((h.K : ℤ) + (id' : ℤ))).key =
        (hent h ((h.K : ℤ) + (id' : ℤ))).key) := by
  by_cases hsnil : (hent h ((h.K : ℤ) + ID)).next = -1
  · -- no successor: the unlink writes only the predecessor slot
    have hform : hset (setKeyRemove h ((h.K : ℤ) + ID)) ((h.K : ℤ) + ID) default =
        (if (hent (hsetNext h (hent h ((h.K : ℤ) + ID)).prev (hent h ((h.K : ℤ) + ID)).next) ((h.K : ℤ) + ID)).key = (hsetNext h (hent h ((h.K : ℤ) + ID)).prev (hent h ((h.K : ℤ) + ID)).next).minKey then
          (if (hsetNext h (hent h ((h.K : ℤ) + ID)).prev (hent h ((h.K : ℤ) + ID)).next).size = 1 then
            hset { hsetNext h (hent h ((h.K : ℤ) + ID)).prev (hent h ((h.K : ℤ) + ID)).next with minKey := -1, size := (hsetNext h (hent h ((h.K : ℤ) + ID)).prev (hent h ((h.K : ℤ) + ID)).next).size - 1 }
              ((h.K : ℤ) + ID) default
           else
            hset { hsetNext h (hent h ((h.K : ℤ) + ID)).prev (hent h ((h.K : ℤ) + ID)).next with minKey := scanMin (hsetNext h (hent h ((h.K : ℤ) + ID)).prev (hent h ((h.K : ℤ) + ID)).next) ((hsetNext h (hent h ((h.K : ℤ) + ID)).prev (hent h ((h.K : ℤ) + ID)).next).K + 1) (hsetNext h (hent h ((h.K : ℤ) + ID)).prev (hent h ((h.K : ℤ) + ID)).next).minKey, size := (hsetNext h (hent h ((h.K : ℤ) + ID)).prev (hent h ((h.K : ℤ) + ID)).next).size - 1 }
              ((h.K : ℤ) + ID) default)
         else hset { hsetNext h (hent h ((h.K : ℤ) + ID)).prev (hent h ((h.K : ℤ) + ID)).next with size := (hsetNext h (hent h ((h.K : ℤ) + ID)).prev (hent h ((h.K : ℤ) + ID)).next).size - 1 } ((h.K : ℤ) + ID) default) := by
      simp only [setKeyRemove]
      rw [if_neg (show ¬((hent h ((h.K : ℤ) + ID)).next ≠ -1) from fun hc => hc hsnil)]
      split_ifs <;> rfl
    obtain ⟨B2, hrep, hall⟩ := removeCore h (hsetNext h (hent h ((h.K : ℤ) + ID)).prev (hent h ((h.K : ℤ) + ID)).next) B ID hID hR hkne
      rfl rfl rfl rfl
      (by simp only [hsetNext, hset_entries_length])
      (fun h0 hl _ => hent_hset_self h _ _ h0 hl)
      (fun hne _ _ _ => absurd hsnil hne)
      (fun j hjP _ => hent_hset_ne h _ j _ (Ne.symm hjP))
    rw [hform]
    refine ⟨B2, hrep, ?_, ?_, ?_, ?_, ?_⟩
    · split_ifs <;> exact (hall _).1
    · split_ifs <;> exact (hall _).2.1
    · split_ifs <;> exact (hall _).2.2.1
    · split_ifs <;> exact (hall _).2.2.2.1
    · intro id' hne
      split_ifs <;> exact (hall _).2.2.2.2 id' hne
  · -- a successor exists: the unlink writes the predecessor and successor slots
    have hform : hset (setKeyRemove h ((h.K : ℤ) + ID)) ((h.K : ℤ) + ID) default =
        (if (hent (hsetPrev (hsetNext h (hent h ((h.K : ℤ) + ID)).prev (hent h ((h.K : ℤ) + ID)).next) (hent h ((h.K : ℤ) + ID)).next (hent h ((h.K : ℤ) + ID)).prev) ((h.K : ℤ) + ID)).key = (hsetPrev (hsetNext h (hent h ((h.K : ℤ) + ID)).prev (hent h ((h.K : ℤ) + ID)).next) (hent h ((h.K : ℤ) + ID)).next (hent h ((h.K : ℤ) + ID)).prev).minKey then
          (if (hsetPrev (hsetNext h (hent h ((h.K : ℤ) + ID)).prev (hent h ((h.K : ℤ) + ID)).next) (hent h ((h.K : ℤ) + ID)).next (hent h ((h.K : ℤ) + ID)).prev).size = 1 then
            hset { hsetPrev (hsetNext h (hent h ((h.K : ℤ) + ID)).prev (hent h ((h.K : ℤ) + ID)).next) (hent h ((h.K : ℤ) + ID)).next (hent h ((h.K : ℤ) + ID)).prev with minKey := -1, size := (hsetPrev (hsetNext h (hent h ((h.K : ℤ) + ID)).prev (hent h ((h.K : ℤ) + ID)).next) (hent h ((h.K : ℤ) + ID)).next (hent h ((h.K : ℤ) + ID)).prev).size - 1 }
              ((h.K : ℤ) + ID) default
           else
            hset { hsetPrev (hsetNext h (hent h ((h.K : ℤ) + ID)).prev (hent h ((h.K : ℤ) + ID)).next) (hent h ((h.K : ℤ) + ID)).next (hent h ((h.K : ℤ) + ID)).prev with minKey := scanMin (hsetPrev (hsetNext h (hent h ((h.K : ℤ) + ID)).prev (hent h ((h.K : ℤ) + ID)).next) (hent h ((h.K : ℤ) + ID)).next (hent h ((h.K : ℤ) + ID)).prev) ((hsetPrev (hsetNext h (hent h ((h.K : ℤ) + ID)).prev (hent h ((h.K : ℤ) + ID)).next) (hent h ((h.K : ℤ) + ID)).next (hent h ((h.K : ℤ) + ID)).prev).K + 1) (hsetPrev (hsetNext h (hent h ((h.K : ℤ) + ID)).prev (hent h ((h.K : ℤ) + ID)).next) (hent h ((h.K : ℤ) + ID)).next (hent h ((h.K : ℤ) + ID)).prev).minKey, size := (hsetPrev (hsetNext h (hent h ((h.K : ℤ) + ID)).prev (hent h ((h.K : ℤ) + ID)).next) (hent h ((h.K : ℤ) + ID)).next (hent h ((h.K : ℤ) + ID)).prev).size - 1 }
              ((h.K : ℤ) + ID) default)
         else hset { hsetPrev (hsetNext h (hent h ((h.K : ℤ) + ID)).prev (hent h ((h.K : ℤ) + ID)).next) (hent h ((h.K : ℤ) + ID)).next (hent h ((h.K : ℤ) + ID)).prev with size := (hsetPrev (hsetNext h (hent h ((h.K : ℤ) + ID)).prev (hent h ((h.K : ℤ) + ID)).next) (hent h ((h.K : ℤ) + ID)).next (hent h ((h.K : ℤ) + ID)).prev).size - 1 } ((h.K : ℤ) + ID) default) := by
      simp only [setKeyRemove]
      rw [if_pos hsnil]
      split_ifs <;> rfl
    obtain ⟨B2, hrep, hall⟩ := removeCore h (hsetPrev (hsetNext h (hent h ((h.K : ℤ) + ID)).prev (hent h ((h.K : ℤ) + ID)).next) (hent h ((h.K : ℤ) + ID)).next (hent h ((h.K : ℤ) + ID)).prev) B ID hID hR hkne
      rfl rfl rfl rfl
      (by simp only [hsetPrev, hsetNext, hset_entries_length])
      (fun h0 hl hps => by
        rw [show hent (hsetPrev (hsetNext h (hent h ((h.K : ℤ) + ID)).prev (hent h ((h.K : ℤ) + ID)).next) (hent h ((h.K : ℤ) + ID)).next (hent h ((h.K : ℤ) + ID)).prev) (hent h ((h.K : ℤ) + ID)).prev = hent (hsetNext h (hent h ((h.K : ℤ) + ID)).prev (hent h ((h.K : ℤ) + ID)).next) (hent h ((h.K : ℤ) + ID)).prev from
          hent_hset_ne _ _ _ _ (Ne.symm (hps hsnil))]
        exact hent_hset_self h _ _ h0 hl)
      (fun hne h0 hl hps => by
        rw [show hent (hsetPrev (hsetNext h (hent h ((h.K : ℤ) + ID)).prev (hent h ((h.K : ℤ) + ID)).next) (hent h ((h.K : ℤ) + ID)).next (hent h ((h.K : ℤ) + ID)).prev) (hent h ((h.K : ℤ) + ID)).next =
            { hent (hsetNext h (hent h ((h.K : ℤ) + ID)).prev (hent h ((h.K : ℤ) + ID)).next) (hent h ((h.K : ℤ) + ID)).next with prev := (hent h ((h.K : ℤ) + ID)).prev } from
          hent_hset_self _ _ _ h0
            (by simp only [hsetNext, hset_entries_length]; exact hl),
          show hent (hsetNext h (hent h ((h.K : ℤ) + ID)).prev (hent h ((h.K : ℤ) + ID)).next) (hent h ((h.K : ℤ) + ID)).next = hent h (hent h ((h.K : ℤ) + ID)).next from
            hent_hset_ne _ _ _ _ (hps)])
      (fun j hjP hjS => by
        rw [show hent (hsetPrev (hsetNext h (hent h ((h.K : ℤ) + ID)).prev (hent h ((h.K : ℤ) + ID)).next) (hent h ((h.K : ℤ) + ID)).next (hent h ((h.K : ℤ) + ID)).prev) j = hent (hsetNext h (hent h ((h.K : ℤ) + ID)).prev (hent h ((h.K : ℤ) + ID)).next) j from
          hent_hset_ne _ _ _ _ (Ne.symm hjS),
          show hent (hsetNext h (hent h ((h.K : ℤ) + ID)).prev (hent h ((h.K : ℤ) + ID)).next) j = hent h j from
            hent_hset_ne h _ _ _ (Ne.symm hjP)])
    rw [hform]
    refine ⟨B2, hrep, ?_, ?_, ?_, ?_, ?_⟩
    · split_ifs <;> exact (hall _).1
    · split_ifs <;> exact (hall _).2.1
    · split_ifs <;> exact (hall _).2.2.1
    · split_ifs <;> exact (hall _).2.2.2.1
    · intro id' hne
      split_ifs <;> exact (hall _).2.2.2.2 id' hne

end Mg
